import Mathlib

/-!
# lox.go scanner: a shallow embedding and its properties

The definitions below embed `scanner/scanner.go`, `scanner/keywords.go` and
`errors/errors.go`. A Go string is a sequence of bytes; it is embedded as a
`List Char`, each element standing for one byte (`rune(s.source[i])`). A run of
Go code either returns or stops with a run-time panic; it is embedded in
`Run`, an exception monad whose exceptions are the panics.
-/

set_option autoImplicit false

namespace ast

/-- Modelled from the spec: the `ast` package is absent from the sources; its
`TokenType` is the closed set of token kinds listed in section 3 of the
specification, under the names `scanner.go` and `keywords.go` use. -/
inductive TokenType where
  | LEFT_PAREN | RIGHT_PAREN | LEFT_BRACE | RIGHT_BRACE
  | COMMA | DOT | MINUS | PLUS | SEMICOLON | SLASH | STAR
  | BANG | BANG_EQUAL | EQUAL | EQUAL_EQUAL
  | GREATER | GREATER_EQUAL | LESS | LESS_EQUAL
  | IDENTIFIER | STRING | NUMBER
  | AND | CLASS | ELSE | FALSE | FUN | FOR | IF | NIL | OR
  | PRINT | RETURN | SUPER | THIS | TRUE | VAR | WHILE
  | EOF
  deriving DecidableEq, Repr

/-- Modelled from the spec: the `Literal` field of `ast.Token` has Go type
`interface{}`; the scanner stores `nil`, a `string` or a `float64` in it. The
type `ν` stands for `float64`. -/
inductive Literal (ν : Type) where
  | null : Literal ν
  | str (value : List Char) : Literal ν
  | num (value : ν) : Literal ν
  deriving DecidableEq, Repr

/-- Modelled from the spec: the `ast.Token` struct, with the four fields the
scanner fills in. -/
structure Token (ν : Type) where
  TokenType : TokenType
  Lexeme : List Char
  Literal : Literal ν
  Line : Nat
  deriving DecidableEq, Repr

end ast

open ast

/-- The ways a run stops without returning: the two Go run-time panics the
scanner can raise, and the exhaustion of the iteration budget of a loop of the
embedding. -/
inductive Abort where
  | indexOutOfRange
  | sliceOutOfRange
  | outOfFuel
  deriving DecidableEq, Repr

/-- A run of Go code: it returns a value or stops with an `Abort`. -/
abbrev Run (α : Type) : Type := Except Abort α

/-- Go's `src[i]` on a string: the byte at `i`, a panic when out of range. -/
def goIndex (src : List Char) (i : Nat) : Run Char :=
  match src[i]? with
  | some c => pure c
  | none => throw Abort.indexOutOfRange

/-- Go's `src[lo:hi]` on a string: a panic unless `lo ≤ hi ≤ len(src)`. -/
def goSlice (src : List Char) (lo hi : Nat) : Run (List Char) :=
  if lo ≤ hi ∧ hi ≤ src.length then pure ((src.take hi).drop lo)
  else throw Abort.sliceOutOfRange

/-- The double-quote character. -/
def dquote : Char := '\x22'

/-- The newline character. -/
def newline : Char := '\n'

/-- The character `'\000'` that `peek` and `peekNext` return at the end. -/
def nul : Char := '\x00'

/-- The function `errors.Error`: the text
`fmt.Sprintf("[line %d] Error %s: %s", line, where, message)` of the error it
returns (and prints). -/
def Error (line : Nat) (loc message : String) : String :=
  "[line " ++ Nat.repr line ++ "] Error " ++ loc ++ ": " ++ message

/-- The call `multierr.Combine(errs...)` on errors that are not nil: nil for no
error, the error itself for one, the texts joined by `"; "` otherwise. -/
def Combine : List String → Option String
  | [] => none
  | [e] => some e
  | e :: es => some (String.intercalate "; " (e :: es))

/-- The map `keywords` of `keywords.go`, as a lookup. -/
def keywords (text : List Char) : Option TokenType :=
  if text = "and".toList then some TokenType.AND
  else if text = "class".toList then some TokenType.CLASS
  else if text = "else".toList then some TokenType.ELSE
  else if text = "false".toList then some TokenType.FALSE
  else if text = "for".toList then some TokenType.FOR
  else if text = "fun".toList then some TokenType.FUN
  else if text = "if".toList then some TokenType.IF
  else if text = "nil".toList then some TokenType.NIL
  else if text = "or".toList then some TokenType.OR
  else if text = "print".toList then some TokenType.PRINT
  else if text = "return".toList then some TokenType.RETURN
  else if text = "super".toList then some TokenType.SUPER
  else if text = "this".toList then some TokenType.THIS
  else if text = "true".toList then some TokenType.TRUE
  else if text = "var".toList then some TokenType.VAR
  else if text = "while".toList then some TokenType.WHILE
  else none

/-- The struct `scanner`. -/
structure scanner (ν : Type) where
  source : List Char
  start : Nat
  current : Nat
  line : Nat
  tokens : List (Token ν)
  deriving DecidableEq, Repr

section Scanner

variable {ν : Type}

/-- The constructor `NewScanner`. -/
def NewScanner (src : List Char) : scanner ν :=
  { source := src, start := 0, current := 0, line := 1, tokens := [] }

/-- The method `isAtEnd`. -/
def scanner.isAtEnd (s : scanner ν) : Bool :=
  decide (s.current ≥ s.source.length)

/-- The method `match`: it returns its result and the scanner it leaves. -/
def scanner.match_ (s : scanner ν) (expected : Char) : Run (Bool × scanner ν) :=
  if s.isAtEnd then pure (false, s)
  else do
    let char ← goIndex s.source s.current
    if char ≠ expected then pure (false, s)
    else pure (true, { s with current := s.current + 1 })

/-- The method `isDigit`. -/
def isDigit (r : Char) : Bool :=
  decide (r ≥ '0') && decide (r ≤ '9')

/-- The method `isAlpha`. -/
def isAlpha (r : Char) : Bool :=
  (decide (r ≥ 'a') && decide (r ≤ 'z')) ||
    (decide (r ≥ 'A') && decide (r ≤ 'Z')) ||
    decide (r = '_')

/-- The method `isAlphaNumberic`. -/
def isAlphaNumberic (r : Char) : Bool :=
  isAlpha r || isDigit r

/-- The method `peek`. -/
def scanner.peek (s : scanner ν) : Run Char :=
  if s.isAtEnd then pure nul
  else goIndex s.source s.current

/-- The method `peekNext`. -/
def scanner.peekNext (s : scanner ν) : Run Char :=
  if s.current + 1 ≥ s.source.length then pure nul
  else goIndex s.source (s.current + 1)

/-- The method `advance`: it returns the byte read and the scanner it leaves. -/
def scanner.advance (s : scanner ν) : Run (Char × scanner ν) := do
  let char ← goIndex s.source s.current
  pure (char, { s with current := s.current + 1 })

/-- The method `addTokenWithLiteral`. -/
def scanner.addTokenWithLiteral (s : scanner ν) (tokenType : TokenType)
    (literal : Literal ν) : Run (scanner ν) := do
  let text ← goSlice s.source s.start s.current
  let token : Token ν :=
    { TokenType := tokenType, Lexeme := text, Literal := literal, Line := s.line }
  pure { s with tokens := s.tokens ++ [token] }

/-- The method `addToken`. -/
def scanner.addToken (s : scanner ν) (token : TokenType) : Run (scanner ν) :=
  s.addTokenWithLiteral token Literal.null

/-- Go's `for { if brk { break }; body }`, run for at most `fuel` tests of
`brk`. -/
def forLoop (brk : scanner ν → Run Bool) (body : scanner ν → Run (scanner ν)) :
    Nat → scanner ν → Run (scanner ν)
  | 0, _ => throw Abort.outOfFuel
  | fuel + 1, s => do
    if (← brk s) then pure s
    else
      let s ← body s
      forLoop brk body fuel s

/-- The iteration budget given to every loop over the source of `s`: each
iteration that does not break consumes one byte. -/
def scanner.budget (s : scanner ν) : Nat := s.source.length + 1

/-- The method `string`: it returns the error (nil or not) and the scanner it
leaves. -/
def scanner.string (s : scanner ν) : Run (scanner ν × Option String) := do
  let s ← forLoop
    (fun s => do pure ((← s.peek) == dquote || s.isAtEnd))
    (fun s => do
      let s := if (← s.peek) == newline then { s with line := s.line + 1 } else s
      let (_, s) ← s.advance
      pure s)
    s.budget s
  if !s.isAtEnd then
    pure (s, some (Error s.line "" "Unterminated string"))
  else
    let (_, s) ← s.advance
    let value ← goSlice s.source (s.start + 1) (s.current - 1)
    let s ← s.addTokenWithLiteral TokenType.STRING (Literal.str value)
    pure (s, none)

/-- The loop `for { if !s.isDigit(s.peek()) { break }; s.advance() }` that
`number` runs twice. -/
def scanner.digits (s : scanner ν) : Run (scanner ν) :=
  forLoop
    (fun s => do pure (!isDigit (← s.peek)))
    (fun s => do
      let (_, s) ← s.advance
      pure s)
    s.budget s

/-- The method `number`; `ParseFloat` stands for
`strconv.ParseFloat(text, 64)`, with the text of its error. -/
def scanner.number (ParseFloat : List Char → Except String ν) (s : scanner ν) :
    Run (scanner ν × Option String) := do
  let s ← s.digits
  let s ← (do
    if (← s.peek) == '.' && isDigit (← s.peekNext) then
      let (_, s) ← s.advance
      s.digits
    else pure s)
  let text ← goSlice s.source s.start s.current
  match ParseFloat text with
  | Except.error err => pure (s, some err)
  | Except.ok value =>
    let s ← s.addTokenWithLiteral TokenType.NUMBER (Literal.num value)
    pure (s, none)

/-- The method `identifier`. -/
def scanner.identifier (s : scanner ν) : Run (scanner ν × Option String) := do
  let s ← forLoop
    (fun s => do pure (!isAlphaNumberic (← s.peek)))
    (fun s => do
      let (_, s) ← s.advance
      pure s)
    s.budget s
  let text ← goSlice s.source s.start s.current
  match keywords text with
  | some tokenType =>
    let s ← s.addToken tokenType
    pure (s, none)
  | none =>
    let s ← s.addToken TokenType.IDENTIFIER
    pure (s, none)

/-- The `switch` of `scanToken` on the byte `r` just read: it returns the
scanner it leaves and the slice `errs`. -/
def scanner.switch (ParseFloat : List Char → Except String ν) (r : Char)
    (s : scanner ν) : Run (scanner ν × List String) :=
  if r = '(' then do pure (← s.addToken TokenType.LEFT_PAREN, [])
  else if r = ')' then do pure (← s.addToken TokenType.RIGHT_PAREN, [])
  else if r = '\x7b' then do pure (← s.addToken TokenType.LEFT_BRACE, [])
  else if r = '\x7d' then do pure (← s.addToken TokenType.RIGHT_BRACE, [])
  else if r = ',' then do pure (← s.addToken TokenType.COMMA, [])
  else if r = '.' then do pure (← s.addToken TokenType.DOT, [])
  else if r = '-' then do pure (← s.addToken TokenType.MINUS, [])
  else if r = '+' then do pure (← s.addToken TokenType.PLUS, [])
  else if r = ';' then do pure (← s.addToken TokenType.SEMICOLON, [])
  else if r = '*' then do pure (← s.addToken TokenType.STAR, [])
  else if r = '!' then do
    let (m, s) ← s.match_ '='
    if m then pure (← s.addToken TokenType.BANG_EQUAL, [])
    else pure (← s.addToken TokenType.BANG, [])
  else if r = '=' then do
    let (m, s) ← s.match_ '='
    if m then pure (← s.addToken TokenType.EQUAL_EQUAL, [])
    else pure (← s.addToken TokenType.EQUAL, [])
  else if r = '<' then do
    let (m, s) ← s.match_ '='
    if m then pure (← s.addToken TokenType.LESS_EQUAL, [])
    else pure (← s.addToken TokenType.LESS, [])
  else if r = '>' then do
    let (m, s) ← s.match_ '='
    if m then pure (← s.addToken TokenType.GREATER_EQUAL, [])
    else pure (← s.addToken TokenType.GREATER, [])
  else if r = '/' then do
    let (m, s) ← s.match_ '/'
    if m then
      let s ← forLoop
        (fun s => do pure ((← s.peek) == newline || s.isAtEnd))
        (fun s => do
          let (_, s) ← s.advance
          pure s)
        s.budget s
      pure (s, [])
    else pure (← s.addToken TokenType.SLASH, [])
  else if r = ' ' then pure (s, [])
  else if r = '\r' then pure (s, [])
  else if r = '\t' then pure (s, [])
  else if r = newline then pure ({ s with line := s.line + 1 }, [])
  else if r = dquote then do
    let (s, err) ← s.string
    match err with
    | some e => pure (s, [e])
    | none => pure (s, [])
  else do
    let (s, err) ←
      (if isDigit r then s.number ParseFloat
       else if isAlpha r then s.identifier
       else pure (s, some (Error s.line "" "Unexpected character.")))
    match err with
    | some e => pure (s, [e])
    | none => pure (s, [])

/-- The method `scanToken`: it returns the error (nil or not) and the scanner
it leaves. -/
def scanner.scanToken (ParseFloat : List Char → Except String ν) (s : scanner ν) :
    Run (scanner ν × Option String) := do
  let (r, s) ← s.advance
  let (s, errs) ← s.switch ParseFloat r
  if errs.length > 0 then pure (s, Combine errs)
  else pure (s, none)

/-- The loop of `ScanTokens`, run for at most `fuel` tests of `isAtEnd`: it
returns the scanner it leaves and the error of the `scanToken` call that
failed, if one did. -/
def scanner.scanLoop (ParseFloat : List Char → Except String ν) :
    Nat → scanner ν → Run (scanner ν × Option String)
  | 0, _ => throw Abort.outOfFuel
  | fuel + 1, s =>
    if s.isAtEnd then pure (s, none)
    else do
      let s := { s with start := s.current }
      let (s, err) ← s.scanToken ParseFloat
      match err with
      | some e => pure (s, some e)
      | none => scanner.scanLoop ParseFloat fuel s

/-- The method `ScanTokens`: it returns the scanner it leaves, the token slice
and the error. -/
def scanner.ScanTokens (ParseFloat : List Char → Except String ν) (s : scanner ν) :
    Run (scanner ν × List (Token ν) × Option String) := do
  let (s, err) ← s.scanLoop ParseFloat s.budget
  match err with
  | some e => pure (s, [], some e)
  | none =>
    let s := { s with tokens := s.tokens ++
      [{ TokenType := TokenType.EOF, Lexeme := [], Literal := Literal.str [], Line := s.line }] }
    pure (s, s.tokens, none)

end Scanner

/-- A decimal reading of a numeral `digits` or `digits.digits`: the number
written by all its digits and the count of digits after the dot, so that
`1.5` reads `(15, 1)`. It is one possible `ParseFloat`, used in examples. -/
def readDecimal (text : List Char) : Except String (Nat × Nat) :=
  if text.all (fun c => isDigit c || c == '.') && text.any isDigit then
    let ds := text.filter isDigit
    let frac := (text.dropWhile isDigit).filter isDigit
    Except.ok (ds.foldl (fun n c => 10 * n + (c.toNat - 48)) 0, frac.length)
  else Except.error "invalid syntax"

/-! ## Auxiliary definitions: what one `scanToken` call does, read off the
unconsumed part of the source -/

section Auxiliary

variable {ν : Type}

/-- The part of the source the cursor has not passed. -/
def scanner.rest (s : scanner ν) : List Char := s.source.drop s.current

/-- The scanner `s` after `n` more bytes were consumed and the line counter was
raised by `dl`. -/
def scanner.moved (s : scanner ν) (n dl : Nat) : scanner ν :=
  { s with current := s.current + n, line := s.line + dl }

/-- The number of newline characters of a text. -/
def newlines (text : List Char) : Nat := text.count newline

/-- The outcome of one lexical unit: a token made of the first `n` bytes, or `n`
bytes consumed without a token (the line counter raised by `dl`, possibly with
an error), or a panic. -/
inductive Step (ν : Type) where
  | token (n : Nat) (kind : TokenType) (literal : Literal ν) : Step ν
  | move (n dl : Nat) (err : Option String) : Step ν
  | panic (a : Abort) : Step ν

/-- The length of the numeral `number` matches at the head of `text` (whose
first byte is a digit). -/
def numeralLength (text : List Char) : Nat :=
  match text.dropWhile isDigit with
  | c :: d :: more =>
    if c = '.' ∧ isDigit d = true then
      (text.takeWhile isDigit).length + 1 + ((d :: more).takeWhile isDigit).length
    else (text.takeWhile isDigit).length
  | _ => (text.takeWhile isDigit).length

/-- The numeric literal at the head of `text` (whose first byte is a digit). -/
def lexNumber (ParseFloat : List Char → Except String ν) (text : List Char) : Step ν :=
  match ParseFloat (text.take (numeralLength text)) with
  | Except.error err => Step.move (numeralLength text) 0 (some err)
  | Except.ok value => Step.token (numeralLength text) TokenType.NUMBER (Literal.num value)

/-- The kind of the identifier or reserved word `text`. -/
def wordKind (text : List Char) : TokenType :=
  match keywords text with
  | some kind => kind
  | none => TokenType.IDENTIFIER

/-- The identifier or reserved word at the head of `text` (whose first byte is
a letter or an underscore). -/
def lexIdentifier (text : List Char) : Step ν :=
  Step.token (text.takeWhile isAlphaNumberic).length
    (wordKind (text.takeWhile isAlphaNumberic)) Literal.null

/-- The lexical unit at the head of the unconsumed text `c :: t`, at line
`line`. -/
def lexUnit (ParseFloat : List Char → Except String ν) (line : Nat) (c : Char)
    (t : List Char) : Step ν :=
  if c = '(' then Step.token 1 TokenType.LEFT_PAREN Literal.null
  else if c = ')' then Step.token 1 TokenType.RIGHT_PAREN Literal.null
  else if c = '\x7b' then Step.token 1 TokenType.LEFT_BRACE Literal.null
  else if c = '\x7d' then Step.token 1 TokenType.RIGHT_BRACE Literal.null
  else if c = ',' then Step.token 1 TokenType.COMMA Literal.null
  else if c = '.' then Step.token 1 TokenType.DOT Literal.null
  else if c = '-' then Step.token 1 TokenType.MINUS Literal.null
  else if c = '+' then Step.token 1 TokenType.PLUS Literal.null
  else if c = ';' then Step.token 1 TokenType.SEMICOLON Literal.null
  else if c = '*' then Step.token 1 TokenType.STAR Literal.null
  else if c = '!' then
    if t.head? = some '=' then Step.token 2 TokenType.BANG_EQUAL Literal.null
    else Step.token 1 TokenType.BANG Literal.null
  else if c = '=' then
    if t.head? = some '=' then Step.token 2 TokenType.EQUAL_EQUAL Literal.null
    else Step.token 1 TokenType.EQUAL Literal.null
  else if c = '<' then
    if t.head? = some '=' then Step.token 2 TokenType.LESS_EQUAL Literal.null
    else Step.token 1 TokenType.LESS Literal.null
  else if c = '>' then
    if t.head? = some '=' then Step.token 2 TokenType.GREATER_EQUAL Literal.null
    else Step.token 1 TokenType.GREATER Literal.null
  else if c = '/' then
    if t.head? = some '/' then
      Step.move (2 + (t.tail.takeWhile (fun x => x != newline)).length) 0 none
    else Step.token 1 TokenType.SLASH Literal.null
  else if c = ' ' then Step.move 1 0 none
  else if c = '\r' then Step.move 1 0 none
  else if c = '\t' then Step.move 1 0 none
  else if c = newline then Step.move 1 1 none
  else if c = dquote then
    let body := t.takeWhile (fun x => x != dquote)
    if t.dropWhile (fun x => x != dquote) = [] then Step.panic Abort.indexOutOfRange
    else Step.move (1 + body.length) (newlines body)
      (some (Error (line + newlines body) "" "Unterminated string"))
  else if isDigit c then lexNumber ParseFloat (c :: t)
  else if isAlpha c then lexIdentifier (c :: t)
  else Step.move 1 0 (some (Error line "" "Unexpected character."))

/-- The lexical unit at the head of the unconsumed text, at line `line`: a read
past the end when nothing is left. -/
def lexStep (ParseFloat : List Char → Except String ν) (line : Nat) :
    List Char → Step ν
  | [] => Step.panic Abort.indexOutOfRange
  | c :: t => lexUnit ParseFloat line c t

/-- The effect of a lexical unit on a scanner whose `start` is its cursor. -/
def scanner.apply (s : scanner ν) : Step ν → Run (scanner ν × Option String)
  | Step.token n kind literal =>
    pure ({ s with current := s.current + n, tokens := s.tokens ++
      [{ TokenType := kind, Lexeme := s.rest.take n, Literal := literal, Line := s.line }] },
      none)
  | Step.move n dl err => pure (s.moved n dl, err)
  | Step.panic a => throw a

/-- The scanner after the loop of `ScanTokens` marked the start of a unit and
`scanToken` made a token of the next `n` bytes. -/
def scanner.emit (s : scanner ν) (n : Nat) (kind : TokenType) (literal : Literal ν) :
    scanner ν :=
  { s with start := s.current, current := s.current + n, tokens := s.tokens ++
    [{ TokenType := kind, Lexeme := s.rest.take n, Literal := literal, Line := s.line }] }

/-- The scanner after the loop of `ScanTokens` marked the start of a unit and
`scanToken` consumed `n` bytes without making a token, raising the line counter
by `dl`. -/
def scanner.skip (s : scanner ν) (n dl : Nat) : scanner ν :=
  { s with start := s.current, current := s.current + n, line := s.line + dl }

/-- The token `t` with its line raised by `k`. -/
def bumpLine (k : Nat) (t : Token ν) : Token ν := { t with Line := t.Line + k }

/-- The kinds `scanToken` uses for the operators starting with `c`: the kind of
`c` alone and the kind of `c` followed by `=`. -/
def operatorKinds (c : Char) : Option (TokenType × TokenType) :=
  if c = '!' then some (TokenType.BANG, TokenType.BANG_EQUAL)
  else if c = '=' then some (TokenType.EQUAL, TokenType.EQUAL_EQUAL)
  else if c = '<' then some (TokenType.LESS, TokenType.LESS_EQUAL)
  else if c = '>' then some (TokenType.GREATER, TokenType.GREATER_EQUAL)
  else none

/-- The `EOF` token `ScanTokens` appends at line `line`. -/
def eofToken (line : Nat) : Token ν :=
  { TokenType := TokenType.EOF, Lexeme := [], Literal := Literal.str [], Line := line }

/-- Two lexical units that differ at most in the text of their error. -/
def Step.alike : Step ν → Step ν → Prop
  | Step.token n kind literal, Step.token m kind2 literal2 =>
    n = m ∧ kind = kind2 ∧ literal = literal2
  | Step.move n dl err, Step.move m dk err2 => n = m ∧ dl = dk ∧ (err = none ↔ err2 = none)
  | Step.panic a, Step.panic b => a = b
  | _, _ => False

/-- The scanner `u` is, `k` lines further down, where the scanner `v` is: the
same text is left, and the tokens are the same but for their lines. -/
def Sim (k : Nat) (u v : scanner ν) : Prop :=
  u.rest = v.rest ∧ u.line = v.line + k ∧ u.tokens = v.tokens.map (bumpLine k)

/-- The bytes that start a lexical unit other than a string literal: the
punctuation and operator characters, the white space, the ASCII digits, the
ASCII letters and the underscore. -/
def plainByte (c : Char) : Bool :=
  c == '(' || c == ')' || c == '\x7b' || c == '\x7d' || c == ',' || c == '.' || c == '-' ||
    c == '+' || c == ';' || c == '*' || c == '!' || c == '=' || c == '<' || c == '>' ||
    c == '/' || c == ' ' || c == '\r' || c == '\t' || c == newline || isDigit c || isAlpha c

/-- The texts of the form digits, or digits, a dot and digits (each run of
digits not empty): what `number` hands to `ParseFloat`. -/
def isNumeral (text : List Char) : Bool :=
  match text.dropWhile isDigit with
  | [] => !(text.takeWhile isDigit).isEmpty
  | x :: es => !(text.takeWhile isDigit).isEmpty && x == '.' && !es.isEmpty && es.all isDigit

/-- What `ScanTokens` returns to its caller: the token slice and the error,
without the scanner it leaves. -/
def scanner.result (ParseFloat : List Char → Except String ν) (s : scanner ν) :
    Run (List (Token ν) × Option String) := do
  let (_, toks, err) ← s.ScanTokens ParseFloat
  pure (toks, err)

/-- Two scanners the loop of `ScanTokens` cannot tell apart: the same text is
left, at the same line, with the same tokens. -/
def Same (u v : scanner ν) : Prop :=
  u.rest = v.rest ∧ u.line = v.line ∧ u.tokens = v.tokens

/-- The punctuation and operator bytes other than the slash. -/
def punctByte (c : Char) : Bool :=
  c == '(' || c == ')' || c == '\x7b' || c == '\x7d' || c == ',' || c == '.' || c == '-' ||
    c == '+' || c == ';' || c == '*' || c == '!' || c == '=' || c == '<' || c == '>'

/-- The white-space bytes: space, carriage return, tab and newline. -/
def blankByte (c : Char) : Bool :=
  c == ' ' || c == '\r' || c == '\t' || c == newline

/-- A piece of a source text: one white-space byte, a line comment (the text
`cm` after its two slashes), or the lexeme of a token. -/
inductive Piece where
  | blank (c : Char) : Piece
  | comment (cm : List Char) : Piece
  | lexeme (l : List Char) : Piece
  deriving DecidableEq, Repr

/-- The text of a piece. -/
def Piece.text : Piece → List Char
  | Piece.blank c => [c]
  | Piece.comment cm => '/' :: '/' :: cm
  | Piece.lexeme l => l

/-- The lexeme of a piece that is one. -/
def Piece.lexemeOf : Piece → Option (List Char)
  | Piece.lexeme l => some l
  | _ => none

/-- The text a sequence of pieces makes up. -/
def piecesText (ps : List Piece) : List Char := (ps.map Piece.text).flatten

/-- The lexemes of a sequence of pieces, in order. -/
def piecesLexemes (ps : List Piece) : List (List Char) := ps.filterMap Piece.lexemeOf

/-- A sequence of pieces is well formed when every blank is a white-space byte,
every comment holds no newline and runs up to a newline or to the end of the
text (what follows it is empty or starts with a newline), and every lexeme is
not empty. -/
def wellFormed : List Piece → Bool
  | [] => true
  | Piece.blank c :: ps => blankByte c && wellFormed ps
  | Piece.comment cm :: ps =>
    !cm.contains newline &&
      ((piecesText ps).isEmpty || (piecesText ps).head? == some newline) && wellFormed ps
  | Piece.lexeme l :: ps => !l.isEmpty && wellFormed ps

/-- The lexemes of a sequence of pieces, each with the line it starts on, when
the first piece starts on line `line`. -/
def startLines (line : Nat) : List Piece → List (List Char × Nat)
  | [] => []
  | Piece.lexeme l :: ps => (l, line) :: startLines (line + newlines l) ps
  | p :: ps => startLines (line + newlines p.text) ps

/-- The bound of `float64`: `2^1024 - 2^970`, half a unit in the last place
above the largest finite `float64`; a decimal of this value or more rounds out of
range. -/
def float64Bound : Nat := 2 ^ 1024 - 2 ^ 970

/-- The text of the error `strconv.ParseFloat(text, 64)` returns for a numeral
out of the range of `float64`. -/
def rangeError (text : List Char) : String :=
  "strconv.ParseFloat: parsing \"" ++ String.mk text ++ "\": value out of range"

/-- The call `strconv.ParseFloat(text, 64)` on a numeral (digits, or digits, a
dot and digits), after the documentation of Go's standard library: the numeral
is accepted unless its value is out of the range of `float64`, and then the
error `value out of range` is returned. The code of `strconv` is not part of the
repository. The value is kept as the exact decimal that `readDecimal` reads,
`(n, k)` for `n / 10^k`: its rounding to a `float64` is not modelled. A text that
is not a numeral, which `number` never hands over, is reported as a syntax
error. -/
def ParseFloat64 (text : List Char) : Except String (Nat × Nat) :=
  if isNumeral text then
    match readDecimal text with
    | Except.ok (n, k) =>
      if float64Bound * 10 ^ k ≤ n then
        Except.error (rangeError text)
      else Except.ok (n, k)
    | Except.error e => Except.error e
  else
    Except.error ("strconv.ParseFloat: parsing \"" ++ String.mk text ++ "\": invalid syntax")

/-- The numeric literals of a text, in order, the text being cut into lexical
units from left to right as section 4.3 of the specification says: a digit
starts a numeral (digits, then a dot and digits when a digit follows the dot),
which is a numeric literal; a letter or an underscore starts a word, skipped
with its letters, digits and underscores; two slashes start a comment, skipped
up to the newline; `!`, `=`, `<` and `>` are skipped with the `=` that follows
them; a double quote starts a string, skipped up to and with the next double
quote; any other byte is skipped alone. At most `fuel` units are read. -/
def numericLiteralsFrom : Nat → List Char → List (List Char)
  | 0, _ => []
  | _ + 1, [] => []
  | fuel + 1, c :: t =>
    if isDigit c then
      (c :: t).take (numeralLength (c :: t)) ::
        numericLiteralsFrom fuel ((c :: t).drop (numeralLength (c :: t)))
    else if isAlpha c then numericLiteralsFrom fuel (t.dropWhile isAlphaNumberic)
    else if c = '/' ∧ t.head? = some '/' then
      numericLiteralsFrom fuel (t.dropWhile (fun x => x != newline))
    else if (c = '!' ∨ c = '=' ∨ c = '<' ∨ c = '>') ∧ t.head? = some '=' then
      numericLiteralsFrom fuel t.tail
    else if c = dquote then
      numericLiteralsFrom fuel (t.dropWhile (fun x => x != dquote)).tail
    else numericLiteralsFrom fuel t

/-- The numeric literals of a source: every unit holds a byte at least, so
the length of the text, plus one, is fuel enough. -/
def numericLiterals (text : List Char) : List (List Char) :=
  numericLiteralsFrom (text.length + 1) text

/-- The nearest integer to `a / b`, a tie going to the even one (`b` is not
zero). -/
def roundHalfEven (a b : Nat) : Nat :=
  if 2 * (a % b) < b then a / b
  else if b < 2 * (a % b) then a / b + 1
  else if (a / b) % 2 = 0 then a / b
  else a / b + 1

/-- The integer part of the binary logarithm of `n` (0 for `n = 0`), by
halving, for `n` up to `fuel`. -/
def log2Floor : Nat → Nat → Nat
  | 0, _ => 0
  | fuel + 1, n => if n < 2 then 0 else log2Floor fuel (n / 2) + 1

/-- The fraction `n / (10^k * 2^e)`, as numerator and denominator. -/
def scaleDecimal (n k : Nat) (e : Int) : Nat × Nat :=
  if 0 ≤ e then (n, 10 ^ k * 2 ^ e.toNat) else (n * 2 ^ (-e).toNat, 10 ^ k)

/-- The integer part of the binary logarithm of the decimal `n / 10^k`, for
`n` not zero: the difference of the logarithms of `n` and `10^k`, or one less. -/
def binaryExponent (n k : Nat) : Int :=
  if (scaleDecimal n k ((log2Floor n n : Int) - (log2Floor (10 ^ k) (10 ^ k) : Int))).2 ≤
      (scaleDecimal n k ((log2Floor n n : Int) - (log2Floor (10 ^ k) (10 ^ k) : Int))).1 then
    (log2Floor n n : Int) - (log2Floor (10 ^ k) (10 ^ k) : Int)
  else (log2Floor n n : Int) - (log2Floor (10 ^ k) (10 ^ k) : Int) - 1

/-- The exponent of the last binary place of the `float64` values around the
decimal `n / 10^k`: 52 places below its leading bit, and `-1074` at least. -/
def lastPlace (n k : Nat) : Int := max (binaryExponent n k - 52) (-1074)

/-- The `float64` nearest to the decimal `n / 10^k`, a tie going to the even
significand (IEEE 754 round to nearest even, what `strconv.ParseFloat` returns
for an accepted text), for a decimal below `float64Bound`. A `float64` is given
as `(m, e)` for `m * 2^e`, with `m < 2^53` and `e ≥ -1074`, and `2^52 ≤ m`
unless `e = -1074`. -/
def nearestFloat64 (n k : Nat) : Nat × Int :=
  if n = 0 then (0, -1074)
  else if roundHalfEven (scaleDecimal n k (lastPlace n k)).1
      (scaleDecimal n k (lastPlace n k)).2 = 2 ^ 53 then (2 ^ 52, lastPlace n k + 1)
  else (roundHalfEven (scaleDecimal n k (lastPlace n k)).1
      (scaleDecimal n k (lastPlace n k)).2, lastPlace n k)

/-- The `float64` `f` has exactly the value of the decimal `n / 10^k`. -/
def float64Is (f : Nat × Int) (n k : Nat) : Prop :=
  if 0 ≤ f.2 then f.1 * 2 ^ f.2.toNat * 10 ^ k = n else f.1 * 10 ^ k = n * 2 ^ (-f.2).toNat

instance (f : Nat × Int) (n k : Nat) : Decidable (float64Is f n k) := by
  unfold float64Is
  exact inferInstance

/-- The call `strconv.ParseFloat(text, 64)` on a numeral, with the `float64`
it returns: the range error of `ParseFloat64`, or the `float64` nearest to the
decimal value of the text. -/
def ParseFloat64Value (text : List Char) : Except String (Nat × Int) :=
  match ParseFloat64 text with
  | Except.ok (n, k) => Except.ok (nearestFloat64 n k)
  | Except.error e => Except.error e

end Auxiliary

/-! ## The primitives of the scanner, in terms of the unconsumed text -/

section Primitives

variable {ν : Type}

@[simp] theorem run_ok_bind {α β : Type} (a : α) (f : α → Run β) :
    (Except.ok a >>= f) = f a := rfl

@[simp] theorem run_error_bind {α β : Type} (e : Abort) (f : α → Run β) :
    ((Except.error e : Run α) >>= f) = Except.error e := rfl

@[simp] theorem run_pure {α : Type} (a : α) : (pure a : Run α) = Except.ok a := rfl

@[simp] theorem run_throw {α : Type} (e : Abort) : (throw e : Run α) = Except.error e := rfl

theorem goIndex_of_drop_cons {src : List Char} {i : Nat} {c : Char} {t : List Char}
    (h : src.drop i = c :: t) : goIndex src i = Except.ok c := by
  have h1 : src[i]? = some c := by
    have := congrArg (fun l => l[0]?) h
    simpa using this
  simp [goIndex, h1]

theorem goIndex_of_drop_nil {src : List Char} {i : Nat}
    (h : src.drop i = []) : goIndex src i = Except.error Abort.indexOutOfRange := by
  have h1 : src[i]? = none := by
    rw [List.drop_eq_nil_iff] at h
    simp [h]
  simp [goIndex, h1]

theorem length_le_of_rest_cons {s : scanner ν} {c : Char} {t : List Char}
    (h : s.rest = c :: t) : s.current + 1 + t.length = s.source.length := by
  have := congrArg List.length h
  simp [scanner.rest] at this
  omega

theorem isAtEnd_of_rest_cons {s : scanner ν} {c : Char} {t : List Char}
    (h : s.rest = c :: t) : s.isAtEnd = false := by
  have := length_le_of_rest_cons h
  simp [scanner.isAtEnd]
  omega

theorem isAtEnd_of_rest_nil {s : scanner ν} (h : s.rest = []) : s.isAtEnd = true := by
  simp only [scanner.rest, List.drop_eq_nil_iff] at h
  simp [scanner.isAtEnd, h]

@[simp] theorem moved_source (s : scanner ν) (n dl : Nat) :
    (s.moved n dl).source = s.source := rfl

@[simp] theorem moved_start (s : scanner ν) (n dl : Nat) :
    (s.moved n dl).start = s.start := rfl

@[simp] theorem moved_current (s : scanner ν) (n dl : Nat) :
    (s.moved n dl).current = s.current + n := rfl

@[simp] theorem moved_line (s : scanner ν) (n dl : Nat) :
    (s.moved n dl).line = s.line + dl := rfl

@[simp] theorem moved_tokens (s : scanner ν) (n dl : Nat) :
    (s.moved n dl).tokens = s.tokens := rfl

@[simp] theorem moved_rest (s : scanner ν) (n dl : Nat) :
    (s.moved n dl).rest = s.rest.drop n := by
  simp [scanner.rest, scanner.moved, List.drop_drop]

@[simp] theorem moved_moved (s : scanner ν) (n dl m dk : Nat) :
    (s.moved n dl).moved m dk = s.moved (n + m) (dl + dk) := by
  simp [scanner.moved, Nat.add_assoc]

@[simp] theorem moved_zero (s : scanner ν) : s.moved 0 0 = s := rfl

theorem advance_of_rest_cons {s : scanner ν} {c : Char} {t : List Char}
    (h : s.rest = c :: t) : s.advance = Except.ok (c, s.moved 1 0) := by
  simp only [scanner.advance, goIndex_of_drop_cons h]
  rfl

theorem advance_of_rest_nil {s : scanner ν} (h : s.rest = []) :
    s.advance = Except.error Abort.indexOutOfRange := by
  simp only [scanner.advance, goIndex_of_drop_nil h]
  rfl

theorem peek_eq (s : scanner ν) : s.peek = Except.ok (s.rest.headD nul) := by
  cases h : s.rest with
  | nil => simp [scanner.peek, isAtEnd_of_rest_nil h]
  | cons c t => simp [scanner.peek, isAtEnd_of_rest_cons h, goIndex_of_drop_cons h]

theorem peekNext_eq (s : scanner ν) : s.peekNext = Except.ok (s.rest.tail.headD nul) := by
  cases h : s.rest.tail with
  | nil =>
    have h1 : s.source.length ≤ s.current + 1 := by
      have := congrArg List.length h
      simp [scanner.rest] at this
      omega
    simp [scanner.peekNext, h1]
  | cons c t =>
    have h2 : s.source.drop (s.current + 1) = c :: t := by
      rw [← h]; simp [scanner.rest]
    have h1 : ¬ s.source.length ≤ s.current + 1 := by
      have := congrArg List.length h2
      simp at this
      omega
    simp [scanner.peekNext, h1, goIndex_of_drop_cons h2]

theorem match_eq (s : scanner ν) (expected : Char) :
    s.match_ expected =
      Except.ok (if s.rest.head? = some expected then (true, s.moved 1 0) else (false, s)) := by
  cases h : s.rest with
  | nil => simp [scanner.match_, isAtEnd_of_rest_nil h]
  | cons c t =>
    simp only [scanner.match_, isAtEnd_of_rest_cons h, goIndex_of_drop_cons h]
    by_cases hc : c = expected
    · simp [hc, scanner.moved]
    · simp [hc]

theorem addTokenWithLiteral_eq (s : scanner ν) (kind : TokenType) (literal : Literal ν)
    (h1 : s.start ≤ s.current) (h2 : s.current ≤ s.source.length) :
    s.addTokenWithLiteral kind literal = Except.ok { s with tokens := s.tokens ++
      [{ TokenType := kind, Lexeme := (s.source.take s.current).drop s.start,
         Literal := literal, Line := s.line }] } := by
  simp [scanner.addTokenWithLiteral, goSlice, h1, h2]

end Primitives

/-! ## The loops -/

section Loops

variable {ν : Type}

theorem moved_congr (s : scanner ν) {n m dl dk : Nat} (h1 : n = m) (h2 : dl = dk) :
    s.moved n dl = s.moved m dk := by
  subst h1; subst h2; rfl

theorem rest_length_lt_budget (s : scanner ν) : s.rest.length < s.budget := by
  simp [scanner.rest, scanner.budget]
  omega

/-- A loop that breaks at the end of the source or at the first byte failing
`p`, and whose body consumes one byte, consumes the longest run of bytes
satisfying `p`. -/
theorem forLoop_takeWhile (p : Char → Bool) (inc : Char → Nat)
    (brk : scanner ν → Run Bool) (body : scanner ν → Run (scanner ν))
    (hnil : ∀ s : scanner ν, s.rest = [] → brk s = Except.ok true)
    (hcons : ∀ (s : scanner ν) (c : Char) (t : List Char), s.rest = c :: t →
      brk s = Except.ok (!p c))
    (hbody : ∀ (s : scanner ν) (c : Char) (t : List Char), s.rest = c :: t →
      body s = Except.ok (s.moved 1 (inc c)))
    (fuel : Nat) (s : scanner ν) (hfuel : s.rest.length < fuel) :
    forLoop brk body fuel s =
      Except.ok (s.moved (s.rest.takeWhile p).length ((s.rest.takeWhile p).map inc).sum) := by
  induction fuel generalizing s with
  | zero => omega
  | succ fuel ih =>
    cases h : s.rest with
    | nil => simp [forLoop, hnil s h]
    | cons c t =>
      by_cases hp : p c = true
      · have hr : (s.moved 1 (inc c)).rest = t := by simp [h]
        have hlen : (s.moved 1 (inc c)).rest.length < fuel := by
          rw [hr]; rw [h] at hfuel; simp at hfuel; omega
        simp only [forLoop, hcons s c t h, hbody s c t h, hp, run_ok_bind, Bool.not_true,
          Bool.false_eq_true, if_false, ih _ hlen, hr, moved_moved,
          List.takeWhile_cons_of_pos hp, List.length_cons, List.map_cons, List.sum_cons]
        exact congrArg Except.ok (moved_congr s (by omega) rfl)
      · simp [forLoop, hcons s c t h, hp]

theorem sum_map_zero (l : List Char) : (l.map (fun _ => 0)).sum = 0 := by
  induction l with
  | nil => rfl
  | cons a l ih => simp

theorem sum_map_newline (l : List Char) :
    (l.map (fun c => if c = newline then 1 else 0)).sum = newlines l := by
  induction l with
  | nil => rfl
  | cons a l ih =>
    by_cases h : a = newline
    · simp [newlines, h] at ih ⊢; omega
    · have h2 : ¬ newline = a := fun e => h e.symm
      simp [newlines, h, List.count_cons, h2] at ih ⊢; omega

theorem isDigit_nul : isDigit nul = false := by decide

theorem isAlphaNumberic_nul : isAlphaNumberic nul = false := by decide

theorem digits_eq (s : scanner ν) :
    s.digits = Except.ok (s.moved (s.rest.takeWhile isDigit).length 0) := by
  have key := forLoop_takeWhile isDigit (fun _ => 0)
    (fun s : scanner ν => do pure (!isDigit (← s.peek)))
    (fun s => do
      let (_, s) ← s.advance
      pure s)
    (by intro s h; simp [peek_eq, h, isDigit_nul])
    (by intro s c t h; simp [peek_eq, h])
    (by intro s c t h; simp [advance_of_rest_cons h])
    s.budget s (rest_length_lt_budget s)
  rw [sum_map_zero] at key
  exact key

theorem identifierLoop_eq (s : scanner ν) :
    forLoop
      (fun s : scanner ν => do pure (!isAlphaNumberic (← s.peek)))
      (fun s => do
        let (_, s) ← s.advance
        pure s)
      s.budget s = Except.ok (s.moved (s.rest.takeWhile isAlphaNumberic).length 0) := by
  have key := forLoop_takeWhile isAlphaNumberic (fun _ => 0)
    (fun s : scanner ν => do pure (!isAlphaNumberic (← s.peek)))
    (fun s => do
      let (_, s) ← s.advance
      pure s)
    (by intro s h; simp [peek_eq, h, isAlphaNumberic_nul])
    (by intro s c t h; simp [peek_eq, h])
    (by intro s c t h; simp [advance_of_rest_cons h])
    s.budget s (rest_length_lt_budget s)
  rw [sum_map_zero] at key
  exact key

theorem commentLoop_eq (s : scanner ν) :
    forLoop
      (fun s : scanner ν => do pure ((← s.peek) == newline || s.isAtEnd))
      (fun s => do
        let (_, s) ← s.advance
        pure s)
      s.budget s =
      Except.ok (s.moved (s.rest.takeWhile (fun x => x != newline)).length 0) := by
  have key := forLoop_takeWhile (fun x => x != newline) (fun _ => 0)
    (fun s : scanner ν => do pure ((← s.peek) == newline || s.isAtEnd))
    (fun s => do
      let (_, s) ← s.advance
      pure s)
    (by intro s h; simp [peek_eq, h, isAtEnd_of_rest_nil h])
    (by intro s c t h; simp [peek_eq, h, isAtEnd_of_rest_cons h, bne])
    (by intro s c t h; simp [advance_of_rest_cons h])
    s.budget s (rest_length_lt_budget s)
  rw [sum_map_zero] at key
  exact key

theorem stringLoop_eq (s : scanner ν) :
    forLoop
      (fun s : scanner ν => do pure ((← s.peek) == dquote || s.isAtEnd))
      (fun s => do
        let s := if (← s.peek) == newline then { s with line := s.line + 1 } else s
        let (_, s) ← s.advance
        pure s)
      s.budget s =
      Except.ok (s.moved (s.rest.takeWhile (fun x => x != dquote)).length
        (newlines (s.rest.takeWhile (fun x => x != dquote)))) := by
  have key := forLoop_takeWhile (fun x => x != dquote)
    (fun c => if c = newline then 1 else 0)
    (fun s : scanner ν => do pure ((← s.peek) == dquote || s.isAtEnd))
    (fun s => do
      let s := if (← s.peek) == newline then { s with line := s.line + 1 } else s
      let (_, s) ← s.advance
      pure s)
    (by intro s h; simp [peek_eq, h, isAtEnd_of_rest_nil h])
    (by intro s c t h; simp [peek_eq, h, isAtEnd_of_rest_cons h, bne])
    (by
      intro s c t h
      have hi : goIndex s.source s.current = Except.ok c := goIndex_of_drop_cons h
      by_cases hc : c = newline
      · simp [peek_eq, h, hc, scanner.advance, hi, scanner.moved]
      · simp [peek_eq, h, hc, scanner.advance, hi, scanner.moved])
    s.budget s (rest_length_lt_budget s)
  rw [sum_map_newline] at key
  exact key

end Loops

/-! ## One `scanToken` call is one lexical unit -/

section StepSpec

variable {ν : Type}

theorem drop_length_takeWhile (p : Char → Bool) (l : List Char) :
    l.drop (l.takeWhile p).length = l.dropWhile p := by
  induction l with
  | nil => rfl
  | cons a l ih =>
    by_cases h : p a = true
    · simp [List.takeWhile_cons_of_pos h, List.dropWhile_cons_of_pos h, ih]
    · simp [List.takeWhile_cons_of_neg h, List.dropWhile_cons_of_neg h]

theorem take_length_takeWhile (p : Char → Bool) (l : List Char) :
    l.take (l.takeWhile p).length = l.takeWhile p := by
  induction l with
  | nil => rfl
  | cons a l ih =>
    by_cases h : p a = true
    · simp [List.takeWhile_cons_of_pos h, ih]
    · simp [List.takeWhile_cons_of_neg h]

theorem length_takeWhile_le (p : Char → Bool) (l : List Char) :
    (l.takeWhile p).length ≤ l.length := by
  induction l with
  | nil => simp
  | cons a l ih =>
    by_cases h : p a = true
    · simp [List.takeWhile_cons_of_pos h]; omega
    · simp [List.takeWhile_cons_of_neg h]

theorem length_takeWhile_add_dropWhile (p : Char → Bool) (l : List Char) :
    (l.takeWhile p).length + (l.dropWhile p).length = l.length := by
  have := congrArg List.length (List.takeWhile_append_dropWhile p l)
  rw [List.length_append] at this
  exact this

theorem numeralLength_le (text : List Char) : numeralLength text ≤ text.length := by
  have h := length_takeWhile_add_dropWhile isDigit text
  unfold numeralLength
  split
  · rename_i c d more hd
    rw [hd] at h
    have h2 := length_takeWhile_le isDigit (d :: more)
    simp only [List.length_cons] at h h2
    split <;> omega
  · omega

theorem slice_rest (s : scanner ν) (n : Nat) :
    (s.source.take (s.current + n)).drop s.current = s.rest.take n := by
  simp [scanner.rest, List.take_drop]

theorem rest_length (s : scanner ν) (h : s.current ≤ s.source.length) :
    s.current + s.rest.length = s.source.length := by
  simp [scanner.rest]; omega

theorem current_le_of_rest_ne_nil (s : scanner ν) (h : s.rest ≠ []) :
    s.current ≤ s.source.length := by
  by_contra hc
  apply h
  simp [scanner.rest]
  omega

/-- The text `addTokenWithLiteral`, `number` and `identifier` slice out of the
source, once `n` bytes were consumed after `start`. -/
theorem goSlice_moved (s : scanner ν) (hs : s.start = s.current) (n : Nat)
    (hn : n ≤ s.rest.length) (hcur : s.current ≤ s.source.length) :
    goSlice s.source s.start (s.current + n) = Except.ok (s.rest.take n) := by
  have hl := rest_length s hcur
  have h2 : s.current + n ≤ s.source.length := by omega
  simp [goSlice, hs, h2, slice_rest]

theorem addTokenWithLiteral_moved (s : scanner ν) (hs : s.start = s.current) (n dl : Nat)
    (hn : n ≤ s.rest.length) (hcur : s.current ≤ s.source.length)
    (kind : TokenType) (literal : Literal ν) :
    (s.moved n dl).addTokenWithLiteral kind literal =
      Except.ok { s with current := s.current + n, line := s.line + dl, tokens := s.tokens ++
        [{ TokenType := kind, Lexeme := s.rest.take n, Literal := literal,
           Line := s.line + dl }] } := by
  simp [scanner.addTokenWithLiteral, goSlice_moved s hs n hn hcur, scanner.moved]

theorem addToken_moved (s : scanner ν) (hs : s.start = s.current) (n dl : Nat)
    (hn : n ≤ s.rest.length) (hcur : s.current ≤ s.source.length) (kind : TokenType) :
    (s.moved n dl).addToken kind =
      Except.ok { s with current := s.current + n, line := s.line + dl, tokens := s.tokens ++
        [{ TokenType := kind, Lexeme := s.rest.take n, Literal := Literal.null,
           Line := s.line + dl }] } :=
  addTokenWithLiteral_moved s hs n dl hn hcur kind Literal.null

theorem string_eq (s : scanner ν) :
    s.string =
      if s.rest.dropWhile (fun x => x != dquote) = [] then
        Except.error Abort.indexOutOfRange
      else
        Except.ok (s.moved (s.rest.takeWhile (fun x => x != dquote)).length
            (newlines (s.rest.takeWhile (fun x => x != dquote))),
          some (Error (s.line + newlines (s.rest.takeWhile (fun x => x != dquote))) ""
            "Unterminated string")) := by
  have hr : (s.moved (s.rest.takeWhile (fun x => x != dquote)).length
      (newlines (s.rest.takeWhile (fun x => x != dquote)))).rest =
      s.rest.dropWhile (fun x => x != dquote) := by
    simp [drop_length_takeWhile]
  unfold scanner.string
  rw [stringLoop_eq]
  cases hd : s.rest.dropWhile (fun x => x != dquote) with
  | nil =>
    rw [hd] at hr
    simp [isAtEnd_of_rest_nil hr, advance_of_rest_nil hr]
  | cons a l =>
    rw [hd] at hr
    simp [isAtEnd_of_rest_cons hr]

theorem identifier_moved (s : scanner ν) (hs : s.start = s.current) (c : Char)
    (t : List Char) (h : s.rest = c :: t) (hc : isAlpha c = true) :
    (s.moved 1 0).identifier = s.apply (lexIdentifier (c :: t)) := by
  have hcur := current_le_of_rest_ne_nil s (by rw [h]; simp)
  have hc2 : isAlphaNumberic c = true := by simp [isAlphaNumberic, hc]
  have hlen : 1 + (t.takeWhile isAlphaNumberic).length ≤ s.rest.length := by
    have := length_takeWhile_le isAlphaNumberic t
    rw [h]; simp; omega
  have htake : List.take (1 + (t.takeWhile isAlphaNumberic).length) (c :: t) =
      c :: t.takeWhile isAlphaNumberic := by
    rw [Nat.add_comm, List.take_succ_cons, take_length_takeWhile]
  have hslice := goSlice_moved s hs _ hlen hcur
  have hadd := fun kind => addToken_moved s hs _ 0 hlen hcur kind
  unfold scanner.identifier
  rw [identifierLoop_eq]
  simp only [run_ok_bind, moved_moved, moved_rest, h, List.drop_succ_cons, List.drop_zero,
    moved_source, moved_start, moved_current, hslice, htake, Nat.add_zero, hadd]
  simp only [lexIdentifier, List.takeWhile_cons_of_pos hc2, wordKind, scanner.apply, h,
    List.length_cons, Nat.add_comm 1, List.take_succ_cons, take_length_takeWhile]
  cases keywords (c :: t.takeWhile isAlphaNumberic) <;> simp

theorem nul_ne_dot : (nul == '.') = false := by decide

theorem numeralLength_nil (t : List Char) (hd : t.dropWhile isDigit = []) :
    numeralLength t = (t.takeWhile isDigit).length := by
  simp [numeralLength, hd]

theorem numeralLength_single (t : List Char) (x : Char) (hd : t.dropWhile isDigit = [x]) :
    numeralLength t = (t.takeWhile isDigit).length := by
  simp [numeralLength, hd]

theorem numeralLength_no (t : List Char) (x d : Char) (more : List Char)
    (hd : t.dropWhile isDigit = x :: d :: more) (hx : ¬ (x = '.' ∧ isDigit d = true)) :
    numeralLength t = (t.takeWhile isDigit).length := by
  simp only [numeralLength, hd, hx, if_false]

theorem numeralLength_yes (t : List Char) (x d : Char) (more : List Char)
    (hd : t.dropWhile isDigit = x :: d :: more) (hx : x = '.' ∧ isDigit d = true) :
    numeralLength t =
      (t.takeWhile isDigit).length + 1 + ((d :: more).takeWhile isDigit).length := by
  simp only [numeralLength, hd, hx, and_self, if_true]

theorem numeralLength_cons (c : Char) (t : List Char) (hc : isDigit c = true) :
    numeralLength (c :: t) = 1 + numeralLength t := by
  simp only [numeralLength, List.dropWhile_cons_of_pos hc, List.takeWhile_cons_of_pos hc,
    List.length_cons]
  split
  · split <;> omega
  · omega

/-- The two digit loops of `number`, started after the first digit, consume the
rest of the numeral. -/
theorem number_scan (s : scanner ν) (t : List Char) (h : s.rest = t) :
    (do
      let s ← s.digits
      (do
        if (← s.peek) == '.' && isDigit (← s.peekNext) then
          let (_, s) ← s.advance
          s.digits
        else pure s)) = Except.ok (s.moved (numeralLength t) 0) := by
  have hr2 : (s.moved (t.takeWhile isDigit).length 0).rest = t.dropWhile isDigit := by
    simp [h, drop_length_takeWhile]
  rw [digits_eq, h]
  simp only [run_ok_bind, peek_eq, peekNext_eq, hr2]
  cases hd : t.dropWhile isDigit with
  | nil =>
    simp [nul_ne_dot, numeralLength_nil t hd]
  | cons x l =>
    cases l with
    | nil =>
      simp [isDigit_nul, numeralLength_single t x hd]
    | cons d more =>
      by_cases hx : x = '.' ∧ isDigit d = true
      · rw [hd] at hr2
        have hr3 : ((s.moved (t.takeWhile isDigit).length 0).moved 1 0).rest = d :: more := by
          rw [moved_rest, hr2]; rfl
        obtain ⟨hx1, hx2⟩ := hx
        subst hx1
        simp only [List.headD_cons, List.tail_cons, hx2, beq_self_eq_true, Bool.and_self,
          if_true, advance_of_rest_cons hr2, run_ok_bind, digits_eq, hr3,
          numeralLength_yes t '.' d more hd ⟨rfl, hx2⟩]
        simp only [moved_moved]
      · rw [numeralLength_no t x d more hd hx]
        have : ((x == '.') && isDigit d) = false := by
          by_cases h1 : x = '.'
          · simp [h1] at hx ⊢; exact hx
          · simp [h1]
        simp [this]

theorem number_moved (ParseFloat : List Char → Except String ν) (s : scanner ν)
    (hs : s.start = s.current) (c : Char) (t : List Char) (h : s.rest = c :: t)
    (hc : isDigit c = true) :
    (s.moved 1 0).number ParseFloat = s.apply (lexNumber ParseFloat (c :: t)) := by
  have hcur := current_le_of_rest_ne_nil s (by rw [h]; simp)
  have hlen : numeralLength (c :: t) ≤ s.rest.length := by
    rw [h]; exact numeralLength_le _
  have hscan := number_scan (s.moved 1 0) t (by simp [h])
  rw [moved_moved, ← numeralLength_cons c t hc] at hscan
  have hslice := goSlice_moved s hs _ hlen hcur
  have hadd := fun literal =>
    addTokenWithLiteral_moved s hs _ 0 hlen hcur TokenType.NUMBER literal
  unfold scanner.number
  have hassoc : ∀ {α β γ : Type} (x : Run α) (f : α → Run β) (g : β → Run γ),
      (x >>= fun a => f a >>= g) = ((x >>= f) >>= g) := by
    intro α β γ x f g
    cases x <;> rfl
  rw [hassoc, hscan]
  simp only [run_ok_bind, moved_source, moved_start, moved_current, hslice, h,
    lexNumber]
  cases ParseFloat (List.take (numeralLength (c :: t)) (c :: t)) with
  | error e => simp [scanner.apply]
  | ok v => simp [scanner.apply, hadd, h]

theorem apply_wrap (s : scanner ν) (st : Step ν) :
    (do
      let (s, errs) ← (do
        let (s, err) ← s.apply st
        match err with
        | some e => pure (s, [e])
        | none => pure (s, []))
      if errs.length > 0 then pure (s, Combine errs)
      else pure (s, none)) = s.apply st := by
  cases st with
  | token n kind literal => simp [scanner.apply]
  | move n dl err => cases err <;> simp [scanner.apply, Combine]
  | panic a => simp [scanner.apply]

/-- One call of `scanToken`, on a scanner whose `start` is its cursor, does what
`lexStep` reads off the unconsumed text. -/
theorem scanToken_eq (ParseFloat : List Char → Except String ν) (s : scanner ν)
    (hs : s.start = s.current) :
    s.scanToken ParseFloat = s.apply (lexStep ParseFloat s.line s.rest) := by
  cases h : s.rest with
  | nil => simp [scanner.scanToken, advance_of_rest_nil h, lexStep, scanner.apply]
  | cons c t =>
    have hcur := current_le_of_rest_ne_nil s (by rw [h]; simp)
    have h1 : 1 ≤ s.rest.length := by rw [h]; simp
    have hadd1 := fun kind => addToken_moved s hs 1 0 h1 hcur kind
    have hadd2 : ∀ x, t.head? = some x → ∀ kind, (s.moved 2 0).addToken kind =
        Except.ok { s with current := s.current + 2, line := s.line + 0, tokens := s.tokens ++
          [{ TokenType := kind, Lexeme := s.rest.take 2, Literal := Literal.null,
             Line := s.line + 0 }] } := by
      intro x hx kind
      have h2 : 2 ≤ s.rest.length := by
        rw [h]; cases t with
        | nil => simp at hx
        | cons a l => simp
      exact addToken_moved s hs 2 0 h2 hcur kind
    have hr1 : (s.moved 1 0).rest = t := by simp [h]
    have hr2 : (s.moved 2 0).rest = t.tail := by
      simp [h]
    have hnum := number_moved ParseFloat s hs c t h
    have hid := identifier_moved s hs c t h
    rw [scanner.scanToken, advance_of_rest_cons h]
    simp only [run_ok_bind]
    unfold scanner.switch
    rw [show lexStep ParseFloat s.line (c :: t) = lexUnit ParseFloat s.line c t from rfl]
    unfold lexUnit
    by_cases hc1 : c = '('
    · simp only [if_pos hc1]
      simp [scanner.apply, hadd1, Combine, h]
    simp only [if_neg hc1]
    by_cases hc2 : c = ')'
    · simp only [if_pos hc2]
      simp [scanner.apply, hadd1, Combine, h]
    simp only [if_neg hc2]
    by_cases hc3 : c = '\x7b'
    · simp only [if_pos hc3]
      simp [scanner.apply, hadd1, Combine, h]
    simp only [if_neg hc3]
    by_cases hc4 : c = '\x7d'
    · simp only [if_pos hc4]
      simp [scanner.apply, hadd1, Combine, h]
    simp only [if_neg hc4]
    by_cases hc5 : c = ','
    · simp only [if_pos hc5]
      simp [scanner.apply, hadd1, Combine, h]
    simp only [if_neg hc5]
    by_cases hc6 : c = '.'
    · simp only [if_pos hc6]
      simp [scanner.apply, hadd1, Combine, h]
    simp only [if_neg hc6]
    by_cases hc7 : c = '-'
    · simp only [if_pos hc7]
      simp [scanner.apply, hadd1, Combine, h]
    simp only [if_neg hc7]
    by_cases hc8 : c = '+'
    · simp only [if_pos hc8]
      simp [scanner.apply, hadd1, Combine, h]
    simp only [if_neg hc8]
    by_cases hc9 : c = ';'
    · simp only [if_pos hc9]
      simp [scanner.apply, hadd1, Combine, h]
    simp only [if_neg hc9]
    by_cases hc10 : c = '*'
    · simp only [if_pos hc10]
      simp [scanner.apply, hadd1, Combine, h]
    simp only [if_neg hc10]
    by_cases hc11 : c = '!'
    · simp only [if_pos hc11, match_eq, hr1]
      by_cases hm : t.head? = some '='
      · simp [hm, scanner.apply, hadd2 _ hm, Combine, h]
      · simp [hm, scanner.apply, hadd1, Combine, h]
    simp only [if_neg hc11]
    by_cases hc12 : c = '='
    · simp only [if_pos hc12, match_eq, hr1]
      by_cases hm : t.head? = some '='
      · simp [hm, scanner.apply, hadd2 _ hm, Combine, h]
      · simp [hm, scanner.apply, hadd1, Combine, h]
    simp only [if_neg hc12]
    by_cases hc13 : c = '<'
    · simp only [if_pos hc13, match_eq, hr1]
      by_cases hm : t.head? = some '='
      · simp [hm, scanner.apply, hadd2 _ hm, Combine, h]
      · simp [hm, scanner.apply, hadd1, Combine, h]
    simp only [if_neg hc13]
    by_cases hc14 : c = '>'
    · simp only [if_pos hc14, match_eq, hr1]
      by_cases hm : t.head? = some '='
      · simp [hm, scanner.apply, hadd2 _ hm, Combine, h]
      · simp [hm, scanner.apply, hadd1, Combine, h]
    simp only [if_neg hc14]
    by_cases hc15 : c = '/'
    · simp only [if_pos hc15, match_eq, hr1]
      by_cases hm : t.head? = some '/'
      · simp only [if_pos hm, run_ok_bind, moved_moved, commentLoop_eq, hr2]
        simp [scanner.apply, Combine]
      · simp [hm, scanner.apply, hadd1, Combine, h]
    simp only [if_neg hc15]
    by_cases hc16 : c = ' '
    · simp only [if_pos hc16]
      simp [scanner.apply, Combine, scanner.moved]
    simp only [if_neg hc16]
    by_cases hc17 : c = '\r'
    · simp only [if_pos hc17]
      simp [scanner.apply, Combine, scanner.moved]
    simp only [if_neg hc17]
    by_cases hc18 : c = '\t'
    · simp only [if_pos hc18]
      simp [scanner.apply, Combine, scanner.moved]
    simp only [if_neg hc18]
    by_cases hc19 : c = newline
    · simp only [if_pos hc19]
      simp [scanner.apply, Combine, scanner.moved]
    simp only [if_neg hc19]
    by_cases hc20 : c = dquote
    · simp only [if_pos hc20, string_eq, hr1]
      by_cases hm : t.dropWhile (fun x => x != dquote) = []
      · simp [hm, scanner.apply]
      · simp [hm, scanner.apply, Combine, Nat.add_comm]
    simp only [if_neg hc20]
    by_cases hd : isDigit c = true
    · simp only [if_pos hd, hnum hd]
      exact apply_wrap s _
    simp only [if_neg hd]
    by_cases ha : isAlpha c = true
    · simp only [if_pos ha, hid ha]
      exact apply_wrap s _
    simp only [if_neg ha]
    simp [scanner.apply, Combine, scanner.moved]

end StepSpec

/-! ## The loop of `ScanTokens` -/

section MainLoop

variable {ν : Type}

@[simp] theorem emit_source (s : scanner ν) (n : Nat) (k : TokenType) (l : Literal ν) :
    (s.emit n k l).source = s.source := rfl

@[simp] theorem emit_line (s : scanner ν) (n : Nat) (k : TokenType) (l : Literal ν) :
    (s.emit n k l).line = s.line := rfl

@[simp] theorem emit_current (s : scanner ν) (n : Nat) (k : TokenType) (l : Literal ν) :
    (s.emit n k l).current = s.current + n := rfl

@[simp] theorem emit_start (s : scanner ν) (n : Nat) (k : TokenType) (l : Literal ν) :
    (s.emit n k l).start = s.current := rfl

@[simp] theorem emit_tokens (s : scanner ν) (n : Nat) (k : TokenType) (l : Literal ν) :
    (s.emit n k l).tokens = s.tokens ++
      [{ TokenType := k, Lexeme := s.rest.take n, Literal := l, Line := s.line }] := rfl

@[simp] theorem emit_rest (s : scanner ν) (n : Nat) (k : TokenType) (l : Literal ν) :
    (s.emit n k l).rest = s.rest.drop n := by
  simp [scanner.rest, scanner.emit, List.drop_drop]

@[simp] theorem skip_source (s : scanner ν) (n dl : Nat) :
    (s.skip n dl).source = s.source := rfl

@[simp] theorem skip_line (s : scanner ν) (n dl : Nat) :
    (s.skip n dl).line = s.line + dl := rfl

@[simp] theorem skip_current (s : scanner ν) (n dl : Nat) :
    (s.skip n dl).current = s.current + n := rfl

@[simp] theorem skip_start (s : scanner ν) (n dl : Nat) :
    (s.skip n dl).start = s.current := rfl

@[simp] theorem skip_tokens (s : scanner ν) (n dl : Nat) :
    (s.skip n dl).tokens = s.tokens := rfl

@[simp] theorem skip_rest (s : scanner ν) (n dl : Nat) :
    (s.skip n dl).rest = s.rest.drop n := by
  simp [scanner.rest, scanner.skip, List.drop_drop]

theorem scanLoop_nil (ParseFloat : List Char → Except String ν) (fuel : Nat)
    (s : scanner ν) (h : s.rest = []) :
    scanner.scanLoop ParseFloat (fuel + 1) s = Except.ok (s, none) := by
  simp [scanner.scanLoop, isAtEnd_of_rest_nil h]

/-- One iteration of the loop of `ScanTokens` away from the end of the source:
the lexical unit at the cursor decides what happens. -/
theorem scanLoop_cons (ParseFloat : List Char → Except String ν) (fuel : Nat)
    (s : scanner ν) (c : Char) (t : List Char) (h : s.rest = c :: t) :
    scanner.scanLoop ParseFloat (fuel + 1) s =
      match lexUnit ParseFloat s.line c t with
      | Step.token n kind literal =>
        scanner.scanLoop ParseFloat fuel (s.emit n kind literal)
      | Step.move n dl none => scanner.scanLoop ParseFloat fuel (s.skip n dl)
      | Step.move n dl (some e) => Except.ok (s.skip n dl, some e)
      | Step.panic a => Except.error a := by
  have hstep := scanToken_eq ParseFloat { s with start := s.current } rfl
  have hr : ({ s with start := s.current } : scanner ν).rest = c :: t := h
  rw [hr] at hstep
  simp only [scanner.scanLoop, isAtEnd_of_rest_cons h, Bool.false_eq_true, if_false, hstep,
    lexStep]
  cases lexUnit ParseFloat s.line c t with
  | token n kind literal => simp [scanner.apply, scanner.emit, scanner.rest]
  | move n dl err => cases err <;> simp [scanner.apply, scanner.skip, scanner.moved]
  | panic a => simp [scanner.apply]

end MainLoop

/-! ## What a lexical unit consumes -/

section Units

variable {ν : Type}

theorem newlines_append (a b : List Char) : newlines (a ++ b) = newlines a + newlines b := by
  simp [newlines]

theorem newlines_takeWhile (p : Char → Bool) (hp : p newline = false) (l : List Char) :
    newlines (l.takeWhile p) = 0 := by
  simp only [newlines, List.count_eq_zero]
  intro hmem
  have := List.mem_takeWhile_imp hmem
  simp [hp] at this

theorem isDigit_newline : isDigit newline = false := by decide

theorem isAlphaNumberic_newline : isAlphaNumberic newline = false := by decide

theorem newlines_take_drop (l : List Char) (n : Nat) :
    newlines (l.take n) + newlines (l.drop n) = newlines l := by
  rw [← newlines_append, List.take_append_drop]

/-- The text of a numeral: its leading digits, then nothing or a dot and the
digits after it. -/
theorem take_numeralLength (text : List Char) :
    text.take (numeralLength text) = text.takeWhile isDigit ∨
    ∃ d more, text.dropWhile isDigit = '.' :: d :: more ∧ isDigit d = true ∧
      text.take (numeralLength text) =
        text.takeWhile isDigit ++ '.' :: (d :: more).takeWhile isDigit := by
  cases hd : text.dropWhile isDigit with
  | nil => left; rw [numeralLength_nil text hd, take_length_takeWhile]
  | cons x l =>
    cases l with
    | nil => left; rw [numeralLength_single text x hd, take_length_takeWhile]
    | cons d more =>
      by_cases hx : x = '.' ∧ isDigit d = true
      · right
        refine ⟨d, more, ?_, hx.2, ?_⟩
        · rw [hx.1]
        · rw [numeralLength_yes text x d more hd hx]
          have htext : text = text.takeWhile isDigit ++ x :: d :: more := by
            rw [← hd, List.takeWhile_append_dropWhile]
          rw [show List.take ((text.takeWhile isDigit).length + 1 +
              ((d :: more).takeWhile isDigit).length) text =
              List.take ((text.takeWhile isDigit).length + 1 +
              ((d :: more).takeWhile isDigit).length)
                (text.takeWhile isDigit ++ x :: d :: more) from by rw [← htext]]
          rw [List.take_append_eq_append_take]
          have h1 : List.take ((text.takeWhile isDigit).length + 1 +
              ((d :: more).takeWhile isDigit).length) (text.takeWhile isDigit) =
              text.takeWhile isDigit := List.take_of_length_le (by omega)
          have h2 : (text.takeWhile isDigit).length + 1 +
              ((d :: more).takeWhile isDigit).length - (text.takeWhile isDigit).length =
              ((d :: more).takeWhile isDigit).length + 1 := by omega
          rw [h1, h2, List.take_succ_cons, take_length_takeWhile, hx.1]
      · left; rw [numeralLength_no text x d more hd hx, take_length_takeWhile]

theorem newlines_numeral (text : List Char) :
    newlines (text.take (numeralLength text)) = 0 := by
  rcases take_numeralLength text with h | ⟨d, more, _, _, h⟩
  · rw [h]; exact newlines_takeWhile isDigit isDigit_newline text
  · rw [h, newlines_append, newlines_takeWhile isDigit isDigit_newline text]
    have := newlines_takeWhile isDigit isDigit_newline (d :: more)
    simp only [newlines] at this ⊢
    rw [List.count_cons, this]
    decide

theorem numeralLength_pos (c : Char) (t : List Char) (hc : isDigit c = true) :
    1 ≤ numeralLength (c :: t) := by
  rw [numeralLength_cons c t hc]; omega

theorem keywords_ne_EOF (text : List Char) : keywords text ≠ some TokenType.EOF := by
  unfold keywords
  by_cases h0 : text = "and".toList
  · rw [if_pos h0]; simp
  rw [if_neg h0]
  by_cases h1 : text = "class".toList
  · rw [if_pos h1]; simp
  rw [if_neg h1]
  by_cases h2 : text = "else".toList
  · rw [if_pos h2]; simp
  rw [if_neg h2]
  by_cases h3 : text = "false".toList
  · rw [if_pos h3]; simp
  rw [if_neg h3]
  by_cases h4 : text = "for".toList
  · rw [if_pos h4]; simp
  rw [if_neg h4]
  by_cases h5 : text = "fun".toList
  · rw [if_pos h5]; simp
  rw [if_neg h5]
  by_cases h6 : text = "if".toList
  · rw [if_pos h6]; simp
  rw [if_neg h6]
  by_cases h7 : text = "nil".toList
  · rw [if_pos h7]; simp
  rw [if_neg h7]
  by_cases h8 : text = "or".toList
  · rw [if_pos h8]; simp
  rw [if_neg h8]
  by_cases h9 : text = "print".toList
  · rw [if_pos h9]; simp
  rw [if_neg h9]
  by_cases h10 : text = "return".toList
  · rw [if_pos h10]; simp
  rw [if_neg h10]
  by_cases h11 : text = "super".toList
  · rw [if_pos h11]; simp
  rw [if_neg h11]
  by_cases h12 : text = "this".toList
  · rw [if_pos h12]; simp
  rw [if_neg h12]
  by_cases h13 : text = "true".toList
  · rw [if_pos h13]; simp
  rw [if_neg h13]
  by_cases h14 : text = "var".toList
  · rw [if_pos h14]; simp
  rw [if_neg h14]
  by_cases h15 : text = "while".toList
  · rw [if_pos h15]; simp
  rw [if_neg h15]
  simp

theorem wordKind_ne_EOF (text : List Char) : wordKind text ≠ TokenType.EOF := by
  unfold wordKind
  have := keywords_ne_EOF text
  cases h : keywords text with
  | none => simp
  | some k => rw [h] at this; simpa using this

/-- What a lexical unit consumes: at least one byte, no more than is left; a
token holds no newline, and otherwise the line counter is raised by the number
of newlines consumed. No token has kind `EOF`. -/
theorem lexUnit_sound (ParseFloat : List Char → Except String ν) (line : Nat) (c : Char)
    (t : List Char) :
    match lexUnit ParseFloat line c t with
    | Step.token n kind _ =>
      1 ≤ n ∧ n ≤ t.length + 1 ∧ newlines ((c :: t).take n) = 0 ∧ kind ≠ TokenType.EOF
    | Step.move n dl _ => 1 ≤ n ∧ n ≤ t.length + 1 ∧ newlines ((c :: t).take n) = dl
    | Step.panic a => a = Abort.indexOutOfRange := by
  unfold lexUnit
  by_cases hc1 : c = '('
  · simp only [if_pos hc1]
    subst hc1
    simp [newlines, newline]
  simp only [if_neg hc1]
  by_cases hc2 : c = ')'
  · simp only [if_pos hc2]
    subst hc2
    simp [newlines, newline]
  simp only [if_neg hc2]
  by_cases hc3 : c = '\x7b'
  · simp only [if_pos hc3]
    subst hc3
    simp [newlines, newline]
  simp only [if_neg hc3]
  by_cases hc4 : c = '\x7d'
  · simp only [if_pos hc4]
    subst hc4
    simp [newlines, newline]
  simp only [if_neg hc4]
  by_cases hc5 : c = ','
  · simp only [if_pos hc5]
    subst hc5
    simp [newlines, newline]
  simp only [if_neg hc5]
  by_cases hc6 : c = '.'
  · simp only [if_pos hc6]
    subst hc6
    simp [newlines, newline]
  simp only [if_neg hc6]
  by_cases hc7 : c = '-'
  · simp only [if_pos hc7]
    subst hc7
    simp [newlines, newline]
  simp only [if_neg hc7]
  by_cases hc8 : c = '+'
  · simp only [if_pos hc8]
    subst hc8
    simp [newlines, newline]
  simp only [if_neg hc8]
  by_cases hc9 : c = ';'
  · simp only [if_pos hc9]
    subst hc9
    simp [newlines, newline]
  simp only [if_neg hc9]
  by_cases hc10 : c = '*'
  · simp only [if_pos hc10]
    subst hc10
    simp [newlines, newline]
  simp only [if_neg hc10]
  by_cases hc11 : c = '!'
  · simp only [if_pos hc11]
    by_cases hm : t.head? = some '='
    · simp only [if_pos hm]
      cases t with
      | nil => simp at hm
      | cons a l =>
        simp at hm
        subst hm
        subst hc11
        simp [newlines, newline]
    · simp only [if_neg hm]
      subst hc11
      simp [newlines, newline]
  simp only [if_neg hc11]
  by_cases hc12 : c = '='
  · simp only [if_pos hc12]
    by_cases hm : t.head? = some '='
    · simp only [if_pos hm]
      cases t with
      | nil => simp at hm
      | cons a l =>
        simp at hm
        subst hm
        subst hc12
        simp [newlines, newline]
    · simp only [if_neg hm]
      subst hc12
      simp [newlines, newline]
  simp only [if_neg hc12]
  by_cases hc13 : c = '<'
  · simp only [if_pos hc13]
    by_cases hm : t.head? = some '='
    · simp only [if_pos hm]
      cases t with
      | nil => simp at hm
      | cons a l =>
        simp at hm
        subst hm
        subst hc13
        simp [newlines, newline]
    · simp only [if_neg hm]
      subst hc13
      simp [newlines, newline]
  simp only [if_neg hc13]
  by_cases hc14 : c = '>'
  · simp only [if_pos hc14]
    by_cases hm : t.head? = some '='
    · simp only [if_pos hm]
      cases t with
      | nil => simp at hm
      | cons a l =>
        simp at hm
        subst hm
        subst hc14
        simp [newlines, newline]
    · simp only [if_neg hm]
      subst hc14
      simp [newlines, newline]
  simp only [if_neg hc14]
  by_cases hc15 : c = '/'
  · simp only [if_pos hc15]
    by_cases hm : t.head? = some '/'
    · simp only [if_pos hm]
      cases t with
      | nil => simp at hm
      | cons a l =>
        simp at hm
        subst hm
        subst hc15
        have hl := length_takeWhile_le (fun x => x != newline) l
        have hn := newlines_takeWhile (fun x => x != newline) (by simp) l
        have ht : List.take (2 + (l.takeWhile (fun x => x != newline)).length) ('/' :: '/' :: l) =
            '/' :: '/' :: l.takeWhile (fun x => x != newline) := by
          rw [Nat.add_comm]
          simp [List.take_succ_cons, take_length_takeWhile]
        simp only [List.tail_cons, ht]
        refine ⟨by omega, by simp only [List.length_cons]; omega, ?_⟩
        simp only [newlines] at hn ⊢
        rw [List.count_cons, List.count_cons, hn]
        decide
    · simp only [if_neg hm]
      subst hc15
      simp [newlines, newline]
  simp only [if_neg hc15]
  by_cases hc16 : c = ' '
  · simp only [if_pos hc16]
    subst hc16
    simp [newlines, newline]
  simp only [if_neg hc16]
  by_cases hc17 : c = '\r'
  · simp only [if_pos hc17]
    subst hc17
    simp [newlines, newline]
  simp only [if_neg hc17]
  by_cases hc18 : c = '\t'
  · simp only [if_pos hc18]
    subst hc18
    simp [newlines, newline]
  simp only [if_neg hc18]
  by_cases hc19 : c = newline
  · simp only [if_pos hc19]
    subst hc19
    simp [newlines]
  simp only [if_neg hc19]
  by_cases hc20 : c = dquote
  · simp only [if_pos hc20]
    by_cases hq : t.dropWhile (fun x => x != dquote) = []
    · simp only [if_pos hq]
    · simp only [if_neg hq]
      subst hc20
      have hl := length_takeWhile_le (fun x => x != dquote) t
      have ht : List.take (1 + (t.takeWhile (fun x => x != dquote)).length) (dquote :: t) =
          dquote :: t.takeWhile (fun x => x != dquote) := by
        rw [Nat.add_comm]
        simp [List.take_succ_cons, take_length_takeWhile]
      refine ⟨by omega, by omega, ?_⟩
      rw [ht]
      simp only [newlines]
      rw [List.count_cons]
      simp [newline, dquote]
  simp only [if_neg hc20]
  by_cases hd : isDigit c = true
  · simp only [if_pos hd]
    have h1 := numeralLength_pos c t hd
    have h2 := numeralLength_le (c :: t)
    have h3 := newlines_numeral (c :: t)
    simp only [List.length_cons] at h2
    unfold lexNumber
    cases ParseFloat (List.take (numeralLength (c :: t)) (c :: t)) with
    | error e => exact ⟨h1, h2, h3⟩
    | ok v => exact ⟨h1, h2, h3, by simp⟩
  simp only [if_neg hd]
  by_cases ha : isAlpha c = true
  · simp only [if_pos ha]
    have ha2 : isAlphaNumberic c = true := by simp [isAlphaNumberic, ha]
    have hl := length_takeWhile_le isAlphaNumberic t
    have hn := newlines_takeWhile isAlphaNumberic isAlphaNumberic_newline (c :: t)
    simp only [lexIdentifier, take_length_takeWhile]
    refine ⟨?_, ?_, hn, wordKind_ne_EOF _⟩
    · simp [List.takeWhile_cons_of_pos ha2]
    · simp only [List.takeWhile_cons_of_pos ha2, List.length_cons]; omega
  simp only [if_neg ha]
  have hne : ¬ newline = c := fun e => hc19 e.symm
  simp [newlines, List.count_cons, hne]

end Units

/-! ## Lexical units by their first byte -/

section FirstByte

variable {ν : Type}

theorem lexUnit_dquote (ParseFloat : List Char → Except String ν) (line : Nat)
    (t : List Char) :
    lexUnit ParseFloat line dquote t =
      if t.dropWhile (fun x => x != dquote) = [] then Step.panic Abort.indexOutOfRange
      else Step.move (1 + (t.takeWhile (fun x => x != dquote)).length)
        (newlines (t.takeWhile (fun x => x != dquote)))
        (some (Error (line + newlines (t.takeWhile (fun x => x != dquote))) ""
          "Unterminated string")) := by
  simp [lexUnit, dquote, newline]

theorem char_le_iff (a b : Char) : a ≤ b ↔ a.toNat ≤ b.toNat := Iff.rfl

theorem isDigit_iff (c : Char) : isDigit c = true ↔ 48 ≤ c.toNat ∧ c.toNat ≤ 57 := by
  simp only [isDigit, Bool.and_eq_true, decide_eq_true_eq, ge_iff_le, char_le_iff]
  exact Iff.rfl

theorem isAlpha_iff (c : Char) :
    isAlpha c = true ↔
      (97 ≤ c.toNat ∧ c.toNat ≤ 122) ∨ (65 ≤ c.toNat ∧ c.toNat ≤ 90) ∨ c = '_' := by
  simp only [isAlpha, Bool.or_eq_true, Bool.and_eq_true, decide_eq_true_eq, ge_iff_le,
    char_le_iff, or_assoc]
  exact Iff.rfl

theorem isDigit_false_of_isAlpha {c : Char} (h : isAlpha c = true) : isDigit c = false := by
  rw [isAlpha_iff] at h
  rw [Bool.eq_false_iff, Ne, isDigit_iff]
  rcases h with h | h | h
  · omega
  · omega
  · subst h; decide

theorem lexUnit_alpha (ParseFloat : List Char → Except String ν) (line : Nat) (c : Char)
    (t : List Char) (h : isAlpha c = true) :
    lexUnit ParseFloat line c t = lexIdentifier (c :: t) := by
  have hd : ¬ isDigit c = true := by rw [isDigit_false_of_isAlpha h]; simp
  unfold lexUnit
  by_cases hc1 : c = '('
  · exact absurd (hc1 ▸ h) (by decide)
  simp only [if_neg hc1]
  by_cases hc2 : c = ')'
  · exact absurd (hc2 ▸ h) (by decide)
  simp only [if_neg hc2]
  by_cases hc3 : c = '\x7b'
  · exact absurd (hc3 ▸ h) (by decide)
  simp only [if_neg hc3]
  by_cases hc4 : c = '\x7d'
  · exact absurd (hc4 ▸ h) (by decide)
  simp only [if_neg hc4]
  by_cases hc5 : c = ','
  · exact absurd (hc5 ▸ h) (by decide)
  simp only [if_neg hc5]
  by_cases hc6 : c = '.'
  · exact absurd (hc6 ▸ h) (by decide)
  simp only [if_neg hc6]
  by_cases hc7 : c = '-'
  · exact absurd (hc7 ▸ h) (by decide)
  simp only [if_neg hc7]
  by_cases hc8 : c = '+'
  · exact absurd (hc8 ▸ h) (by decide)
  simp only [if_neg hc8]
  by_cases hc9 : c = ';'
  · exact absurd (hc9 ▸ h) (by decide)
  simp only [if_neg hc9]
  by_cases hc10 : c = '*'
  · exact absurd (hc10 ▸ h) (by decide)
  simp only [if_neg hc10]
  by_cases hc11 : c = '!'
  · exact absurd (hc11 ▸ h) (by decide)
  simp only [if_neg hc11]
  by_cases hc12 : c = '='
  · exact absurd (hc12 ▸ h) (by decide)
  simp only [if_neg hc12]
  by_cases hc13 : c = '<'
  · exact absurd (hc13 ▸ h) (by decide)
  simp only [if_neg hc13]
  by_cases hc14 : c = '>'
  · exact absurd (hc14 ▸ h) (by decide)
  simp only [if_neg hc14]
  by_cases hc15 : c = '/'
  · exact absurd (hc15 ▸ h) (by decide)
  simp only [if_neg hc15]
  by_cases hc16 : c = ' '
  · exact absurd (hc16 ▸ h) (by decide)
  simp only [if_neg hc16]
  by_cases hc17 : c = '\r'
  · exact absurd (hc17 ▸ h) (by decide)
  simp only [if_neg hc17]
  by_cases hc18 : c = '\t'
  · exact absurd (hc18 ▸ h) (by decide)
  simp only [if_neg hc18]
  by_cases hc19 : c = newline
  · exact absurd (hc19 ▸ h) (by decide)
  simp only [if_neg hc19]
  by_cases hc20 : c = dquote
  · exact absurd (hc20 ▸ h) (by decide)
  simp only [if_neg hc20]
  simp only [if_neg hd, if_pos h]

theorem lexUnit_digit (ParseFloat : List Char → Except String ν) (line : Nat) (c : Char)
    (t : List Char) (h : isDigit c = true) :
    lexUnit ParseFloat line c t = lexNumber ParseFloat (c :: t) := by
  unfold lexUnit
  by_cases hc1 : c = '('
  · exact absurd (hc1 ▸ h) (by decide)
  simp only [if_neg hc1]
  by_cases hc2 : c = ')'
  · exact absurd (hc2 ▸ h) (by decide)
  simp only [if_neg hc2]
  by_cases hc3 : c = '\x7b'
  · exact absurd (hc3 ▸ h) (by decide)
  simp only [if_neg hc3]
  by_cases hc4 : c = '\x7d'
  · exact absurd (hc4 ▸ h) (by decide)
  simp only [if_neg hc4]
  by_cases hc5 : c = ','
  · exact absurd (hc5 ▸ h) (by decide)
  simp only [if_neg hc5]
  by_cases hc6 : c = '.'
  · exact absurd (hc6 ▸ h) (by decide)
  simp only [if_neg hc6]
  by_cases hc7 : c = '-'
  · exact absurd (hc7 ▸ h) (by decide)
  simp only [if_neg hc7]
  by_cases hc8 : c = '+'
  · exact absurd (hc8 ▸ h) (by decide)
  simp only [if_neg hc8]
  by_cases hc9 : c = ';'
  · exact absurd (hc9 ▸ h) (by decide)
  simp only [if_neg hc9]
  by_cases hc10 : c = '*'
  · exact absurd (hc10 ▸ h) (by decide)
  simp only [if_neg hc10]
  by_cases hc11 : c = '!'
  · exact absurd (hc11 ▸ h) (by decide)
  simp only [if_neg hc11]
  by_cases hc12 : c = '='
  · exact absurd (hc12 ▸ h) (by decide)
  simp only [if_neg hc12]
  by_cases hc13 : c = '<'
  · exact absurd (hc13 ▸ h) (by decide)
  simp only [if_neg hc13]
  by_cases hc14 : c = '>'
  · exact absurd (hc14 ▸ h) (by decide)
  simp only [if_neg hc14]
  by_cases hc15 : c = '/'
  · exact absurd (hc15 ▸ h) (by decide)
  simp only [if_neg hc15]
  by_cases hc16 : c = ' '
  · exact absurd (hc16 ▸ h) (by decide)
  simp only [if_neg hc16]
  by_cases hc17 : c = '\r'
  · exact absurd (hc17 ▸ h) (by decide)
  simp only [if_neg hc17]
  by_cases hc18 : c = '\t'
  · exact absurd (hc18 ▸ h) (by decide)
  simp only [if_neg hc18]
  by_cases hc19 : c = newline
  · exact absurd (hc19 ▸ h) (by decide)
  simp only [if_neg hc19]
  by_cases hc20 : c = dquote
  · exact absurd (hc20 ▸ h) (by decide)
  simp only [if_neg hc20]
  simp only [if_pos h]

end FirstByte

/-! ## Whole scans -/

section Scans

variable {ν : Type}

theorem lexUnit_token_sound {ParseFloat : List Char → Except String ν} {line : Nat}
    {c : Char} {t : List Char} {n : Nat} {kind : TokenType} {literal : Literal ν}
    (h : lexUnit ParseFloat line c t = Step.token n kind literal) :
    1 ≤ n ∧ n ≤ t.length + 1 ∧ newlines ((c :: t).take n) = 0 ∧ kind ≠ TokenType.EOF := by
  have := lexUnit_sound ParseFloat line c t
  rw [h] at this
  exact this

theorem lexUnit_move_sound {ParseFloat : List Char → Except String ν} {line : Nat}
    {c : Char} {t : List Char} {n dl : Nat} {err : Option String}
    (h : lexUnit ParseFloat line c t = Step.move n dl err) :
    1 ≤ n ∧ n ≤ t.length + 1 ∧ newlines ((c :: t).take n) = dl := by
  have := lexUnit_sound ParseFloat line c t
  rw [h] at this
  exact this

/-- A run of the loop of `ScanTokens` that ends without error has consumed the
whole source, counted every newline of it, and appended tokens none of which is
`EOF`. -/
theorem scanLoop_ok (ParseFloat : List Char → Except String ν) (fuel : Nat) :
    ∀ (s s' : scanner ν), scanner.scanLoop ParseFloat fuel s = Except.ok (s', none) →
      s'.source = s.source ∧ s'.rest = [] ∧ s'.line = s.line + newlines s.rest ∧
      ∃ new, s'.tokens = s.tokens ++ new ∧ ∀ t ∈ new, t.TokenType ≠ TokenType.EOF := by
  induction fuel with
  | zero => intro s s' h; simp [scanner.scanLoop] at h
  | succ fuel ih =>
    intro s s' h
    cases hr : s.rest with
    | nil =>
      rw [scanLoop_nil ParseFloat fuel s hr] at h
      simp only [Except.ok.injEq, Prod.mk.injEq, and_true] at h
      subst h
      exact ⟨rfl, hr, by simp [newlines], [], by simp, by simp⟩
    | cons c t =>
      rw [scanLoop_cons ParseFloat fuel s c t hr] at h
      cases hu : lexUnit ParseFloat s.line c t with
      | token n kind literal =>
        rw [hu] at h
        obtain ⟨_, _, hn, hk⟩ := lexUnit_token_sound hu
        obtain ⟨h1, h2, h3, new, h4, h5⟩ := ih _ _ h
        refine ⟨h1, h2, ?_,
          ({ TokenType := kind, Lexeme := s.rest.take n, Literal := literal,
             Line := s.line } : Token ν) :: new, ?_, ?_⟩
        · rw [h3, emit_line, emit_rest, hr, ← newlines_take_drop (c :: t) n, hn]
          omega
        · rw [h4, emit_tokens]; simp
        · intro tk htk
          rcases List.mem_cons.mp htk with rfl | hmem
          · exact hk
          · exact h5 tk hmem
      | move n dl err =>
        rw [hu] at h
        cases err with
        | some e => simp at h
        | none =>
          obtain ⟨_, _, hn⟩ := lexUnit_move_sound hu
          obtain ⟨h1, h2, h3, new, h4, h5⟩ := ih _ _ h
          refine ⟨h1, h2, ?_, new, h4, h5⟩
          rw [h3, skip_line, skip_rest, hr, ← newlines_take_drop (c :: t) n, hn]
          omega
      | panic a =>
        rw [hu] at h
        simp at h

/-- The result of `ScanTokens` in terms of the result of its loop. -/
theorem ScanTokens_ok_iff (ParseFloat : List Char → Except String ν) (s s' : scanner ν)
    (toks : List (Token ν)) :
    s.ScanTokens ParseFloat = Except.ok (s', toks, none) ↔
      ∃ s1, scanner.scanLoop ParseFloat s.budget s = Except.ok (s1, none) ∧
        toks = s1.tokens ++
          [{ TokenType := TokenType.EOF, Lexeme := [], Literal := Literal.str [],
             Line := s1.line }] ∧
        s' = { s1 with tokens := toks } := by
  unfold scanner.ScanTokens
  cases hl : scanner.scanLoop ParseFloat s.budget s with
  | error a => simp
  | ok r =>
    obtain ⟨s1, err⟩ := r
    cases err with
    | some e => simp
    | none =>
      constructor
      · intro h
        simp only [run_ok_bind, run_pure, Except.ok.injEq, Prod.mk.injEq, and_true] at h
        obtain ⟨h1, h2⟩ := h
        exact ⟨s1, rfl, h2.symm, by rw [← h1, ← h2]⟩
      · rintro ⟨s2, h1, h2, h3⟩
        simp only [Except.ok.injEq, Prod.mk.injEq, and_true] at h1
        subst h1
        simp only [run_ok_bind, run_pure, Except.ok.injEq, Prod.mk.injEq, and_true]
        exact ⟨by rw [h3, h2], h2.symm⟩

theorem ScanTokens_of_loop_error (ParseFloat : List Char → Except String ν)
    (s s1 : scanner ν) (e : String)
    (h : scanner.scanLoop ParseFloat s.budget s = Except.ok (s1, some e)) :
    s.ScanTokens ParseFloat = Except.ok (s1, [], some e) := by
  simp [scanner.ScanTokens, h]

theorem ScanTokens_of_loop_abort (ParseFloat : List Char → Except String ν)
    (s : scanner ν) (a : Abort)
    (h : scanner.scanLoop ParseFloat s.budget s = Except.error a) :
    s.ScanTokens ParseFloat = Except.error a := by
  simp [scanner.ScanTokens, h]

theorem takeWhile_append_stop (p : Char → Bool) (g : List Char) (y : Char) (r : List Char)
    (hg : ∀ x ∈ g, p x = true) (hy : p y = false) : (g ++ y :: r).takeWhile p = g := by
  induction g with
  | nil => simp [List.takeWhile_cons, hy]
  | cons a g ih =>
    have ha : p a = true := hg a (by simp)
    rw [List.cons_append, List.takeWhile_cons_of_pos ha,
      ih (fun x hx => hg x (List.mem_cons_of_mem _ hx))]

theorem dropWhile_append_stop (p : Char → Bool) (g : List Char) (y : Char) (r : List Char)
    (hg : ∀ x ∈ g, p x = true) (hy : p y = false) : (g ++ y :: r).dropWhile p = y :: r := by
  induction g with
  | nil => simp [List.dropWhile_cons, hy]
  | cons a g ih =>
    have ha : p a = true := hg a (by simp)
    rw [List.cons_append, List.dropWhile_cons_of_pos ha,
      ih (fun x hx => hg x (List.mem_cons_of_mem _ hx))]

theorem takeWhile_all (p : Char → Bool) (g : List Char) (hg : ∀ x ∈ g, p x = true) :
    g.takeWhile p = g := by
  induction g with
  | nil => rfl
  | cons a g ih =>
    have ha : p a = true := hg a (by simp)
    rw [List.takeWhile_cons_of_pos ha, ih (fun x hx => hg x (List.mem_cons_of_mem _ hx))]

theorem dropWhile_all (p : Char → Bool) (g : List Char) (hg : ∀ x ∈ g, p x = true) :
    g.dropWhile p = [] := by
  induction g with
  | nil => rfl
  | cons a g ih =>
    have ha : p a = true := hg a (by simp)
    rw [List.dropWhile_cons_of_pos ha, ih (fun x hx => hg x (List.mem_cons_of_mem _ hx))]

theorem NewScanner_rest (src : List Char) : (NewScanner src : scanner ν).rest = src := by
  simp [NewScanner, scanner.rest]

theorem ScanTokens_of_loop_ok (ParseFloat : List Char → Except String ν)
    (s s1 : scanner ν)
    (h : scanner.scanLoop ParseFloat s.budget s = Except.ok (s1, none)) :
    s.ScanTokens ParseFloat =
      Except.ok ({ s1 with tokens := s1.tokens ++ [eofToken s1.line] },
        s1.tokens ++ [eofToken s1.line], none) := by
  simp [scanner.ScanTokens, h, eofToken]

theorem drop_of_getElem? {l : List Char} {i : Nat} {c : Char} (h : l[i]? = some c) :
    l.drop i = c :: l.drop (i + 1) := by
  obtain ⟨hi, hc⟩ := List.getElem?_eq_some.mp h
  rw [List.drop_eq_getElem_cons hi, hc]

theorem wordKind_eq (text : List Char) :
    wordKind text = (keywords text).getD TokenType.IDENTIFIER := by
  unfold wordKind
  cases keywords text <;> rfl

/-- A source that is one lexical unit, a token, scans to that token and `EOF`. -/
theorem scan_one_token (ParseFloat : List Char → Except String ν) (c : Char)
    (t : List Char) (kind : TokenType) (literal : Literal ν)
    (hu : lexUnit ParseFloat 1 c t = Step.token (t.length + 1) kind literal) :
    ∃ s', (NewScanner (c :: t)).ScanTokens ParseFloat =
      Except.ok (s', [⟨kind, c :: t, literal, 1⟩, ⟨TokenType.EOF, [], Literal.str [], 1⟩],
        none) := by
  have hr := @NewScanner_rest ν (c :: t)
  have hloop : scanner.scanLoop ParseFloat (NewScanner (c :: t) : scanner ν).budget
      (NewScanner (c :: t)) =
      Except.ok ((NewScanner (c :: t)).emit (t.length + 1) kind literal, none) := by
    have hb : (NewScanner (c :: t) : scanner ν).budget = t.length + 1 + 1 := rfl
    rw [hb, scanLoop_cons ParseFloat _ _ c t hr]
    have hl : (NewScanner (c :: t) : scanner ν).line = 1 := rfl
    rw [hl, hu]
    simp only
    apply scanLoop_nil
    rw [emit_rest, hr]
    simp
  rw [ScanTokens_of_loop_ok ParseFloat _ _ hloop]
  have htoks : ((NewScanner (c :: t) : scanner ν).emit (t.length + 1) kind literal).tokens ++
      [eofToken ((NewScanner (c :: t) : scanner ν).emit (t.length + 1) kind literal).line] =
      [⟨kind, c :: t, literal, 1⟩, ⟨TokenType.EOF, [], Literal.str [], 1⟩] := by
    simp [eofToken, NewScanner, scanner.rest]
  rw [htoks]
  exact ⟨_, rfl⟩

theorem isDigit_dot : isDigit '.' = false := by decide

/-- The numeral `number` matches at the head of a run of digits `d` followed by
a dot and a run of digits `e` is the whole text. -/
theorem numeralLength_fraction (d e : List Char) (he : e ≠ [])
    (hdd : ∀ x ∈ d, isDigit x = true) (hee : ∀ x ∈ e, isDigit x = true) :
    numeralLength (d ++ '.' :: e) = (d ++ '.' :: e).length := by
  cases e with
  | nil => exact absurd rfl he
  | cons e0 e1 =>
    have hd := dropWhile_append_stop isDigit d '.' (e0 :: e1) hdd isDigit_dot
    rw [numeralLength_yes _ '.' e0 e1 hd ⟨rfl, hee e0 (by simp)⟩,
      takeWhile_append_stop isDigit d '.' (e0 :: e1) hdd isDigit_dot,
      takeWhile_all isDigit (e0 :: e1) hee]
    simp
    omega

/-- The numeral `number` matches at the head of a run of digits `d` followed by
a lone dot is `d`. -/
theorem numeralLength_trailing_dot (d : List Char) (hdd : ∀ x ∈ d, isDigit x = true) :
    numeralLength (d ++ ['.']) = d.length := by
  have hd := dropWhile_append_stop isDigit d '.' [] hdd isDigit_dot
  rw [numeralLength_single _ '.' hd, takeWhile_append_stop isDigit d '.' [] hdd isDigit_dot]

theorem numeralLength_digits (d : List Char) (hdd : ∀ x ∈ d, isDigit x = true) :
    numeralLength d = d.length := by
  rw [numeralLength_nil d (dropWhile_all isDigit d hdd), takeWhile_all isDigit d hdd]

end Scans

/-! ## The iteration budget, and scans that differ by a line offset -/

section Simulation

variable {ν : Type}

theorem Step.alike_refl (st : Step ν) : Step.alike st st := by
  cases st <;> simp [Step.alike]

/-- The line number changes nothing in a lexical unit but the text of its
error. -/
theorem lexUnit_alike (ParseFloat : List Char → Except String ν) (l1 l2 : Nat) (c : Char)
    (t : List Char) :
    Step.alike (lexUnit ParseFloat l1 c t) (lexUnit ParseFloat l2 c t) := by
  unfold lexUnit
  by_cases hc1 : c = '('
  · simp only [if_pos hc1]; exact Step.alike_refl _
  simp only [if_neg hc1]
  by_cases hc2 : c = ')'
  · simp only [if_pos hc2]; exact Step.alike_refl _
  simp only [if_neg hc2]
  by_cases hc3 : c = '\x7b'
  · simp only [if_pos hc3]; exact Step.alike_refl _
  simp only [if_neg hc3]
  by_cases hc4 : c = '\x7d'
  · simp only [if_pos hc4]; exact Step.alike_refl _
  simp only [if_neg hc4]
  by_cases hc5 : c = ','
  · simp only [if_pos hc5]; exact Step.alike_refl _
  simp only [if_neg hc5]
  by_cases hc6 : c = '.'
  · simp only [if_pos hc6]; exact Step.alike_refl _
  simp only [if_neg hc6]
  by_cases hc7 : c = '-'
  · simp only [if_pos hc7]; exact Step.alike_refl _
  simp only [if_neg hc7]
  by_cases hc8 : c = '+'
  · simp only [if_pos hc8]; exact Step.alike_refl _
  simp only [if_neg hc8]
  by_cases hc9 : c = ';'
  · simp only [if_pos hc9]; exact Step.alike_refl _
  simp only [if_neg hc9]
  by_cases hc10 : c = '*'
  · simp only [if_pos hc10]; exact Step.alike_refl _
  simp only [if_neg hc10]
  by_cases hc11 : c = '!'
  · simp only [if_pos hc11]; exact Step.alike_refl _
  simp only [if_neg hc11]
  by_cases hc12 : c = '='
  · simp only [if_pos hc12]; exact Step.alike_refl _
  simp only [if_neg hc12]
  by_cases hc13 : c = '<'
  · simp only [if_pos hc13]; exact Step.alike_refl _
  simp only [if_neg hc13]
  by_cases hc14 : c = '>'
  · simp only [if_pos hc14]; exact Step.alike_refl _
  simp only [if_neg hc14]
  by_cases hc15 : c = '/'
  · simp only [if_pos hc15]; exact Step.alike_refl _
  simp only [if_neg hc15]
  by_cases hc16 : c = ' '
  · simp only [if_pos hc16]; exact Step.alike_refl _
  simp only [if_neg hc16]
  by_cases hc17 : c = '\r'
  · simp only [if_pos hc17]; exact Step.alike_refl _
  simp only [if_neg hc17]
  by_cases hc18 : c = '\t'
  · simp only [if_pos hc18]; exact Step.alike_refl _
  simp only [if_neg hc18]
  by_cases hc19 : c = newline
  · simp only [if_pos hc19]; exact Step.alike_refl _
  simp only [if_neg hc19]
  by_cases hq : c = dquote
  · simp only [if_pos hq]
    by_cases he : t.dropWhile (fun x => x != dquote) = []
    · simp only [if_pos he]; exact Step.alike_refl _
    · simp only [if_neg he]; simp [Step.alike]
  simp only [if_neg hq]
  by_cases hd : isDigit c = true
  · simp only [if_pos hd]; exact Step.alike_refl _
  simp only [if_neg hd]
  by_cases ha : isAlpha c = true
  · simp only [if_pos ha]; exact Step.alike_refl _
  simp only [if_neg ha]
  simp [Step.alike]

/-- More fuel does not change a run of the loop that did not run out of it. -/
theorem scanLoop_fuel_succ (ParseFloat : List Char → Except String ν) (fuel : Nat) :
    ∀ s : scanner ν, scanner.scanLoop ParseFloat fuel s ≠ Except.error Abort.outOfFuel →
      scanner.scanLoop ParseFloat (fuel + 1) s = scanner.scanLoop ParseFloat fuel s := by
  induction fuel with
  | zero => intro s h; exact absurd rfl h
  | succ fuel ih =>
    intro s h
    cases hr : s.rest with
    | nil => rw [scanLoop_nil _ _ _ hr, scanLoop_nil _ _ _ hr]
    | cons c t =>
      rw [scanLoop_cons _ _ _ c t hr] at h ⊢
      rw [scanLoop_cons _ fuel _ c t hr]
      cases hu : lexUnit ParseFloat s.line c t with
      | token n kind literal =>
        rw [hu] at h
        exact ih _ h
      | move n dl err =>
        rw [hu] at h
        cases err with
        | none => exact ih _ h
        | some e => rfl
      | panic a => rfl

/-- The loop of `ScanTokens` does not run out of fuel when given more than the
number of bytes left: every iteration consumes at least one. -/
theorem scanLoop_fuel_enough (ParseFloat : List Char → Except String ν) (fuel : Nat) :
    ∀ s : scanner ν, s.rest.length < fuel →
      scanner.scanLoop ParseFloat fuel s ≠ Except.error Abort.outOfFuel := by
  induction fuel with
  | zero => intro s h; omega
  | succ fuel ih =>
    intro s h
    cases hr : s.rest with
    | nil => rw [scanLoop_nil _ _ _ hr]; simp
    | cons c t =>
      rw [hr] at h
      simp only [List.length_cons] at h
      rw [scanLoop_cons _ _ _ c t hr]
      cases hu : lexUnit ParseFloat s.line c t with
      | token n kind literal =>
        obtain ⟨h1, h2, _, _⟩ := lexUnit_token_sound hu
        apply ih
        rw [emit_rest, hr]
        simp only [List.length_drop, List.length_cons]
        omega
      | move n dl err =>
        obtain ⟨h1, h2, _⟩ := lexUnit_move_sound hu
        cases err with
        | none =>
          apply ih
          rw [skip_rest, hr]
          simp only [List.length_drop, List.length_cons]
          omega
        | some e => simp
      | panic a =>
        intro hp
        have hp2 : a = Abort.outOfFuel := by simpa using hp
        subst hp2
        have hs := lexUnit_sound ParseFloat s.line c t
        rw [hu] at hs
        have hs2 : Abort.outOfFuel = Abort.indexOutOfRange := hs
        exact absurd hs2 (by decide)

theorem scanLoop_fuel_add (ParseFloat : List Char → Except String ν) (s : scanner ν)
    (fuel : Nat) (h : s.rest.length < fuel) (j : Nat) :
    scanner.scanLoop ParseFloat (fuel + j) s = scanner.scanLoop ParseFloat fuel s := by
  induction j with
  | zero => rfl
  | succ j ih =>
    rw [← Nat.add_assoc, scanLoop_fuel_succ ParseFloat (fuel + j) s
      (scanLoop_fuel_enough ParseFloat (fuel + j) s (by omega)), ih]

/-- The result of the loop of `ScanTokens` does not depend on the fuel, once
there is more of it than bytes left. -/
theorem scanLoop_fuel_irrelevant (ParseFloat : List Char → Except String ν) (s : scanner ν)
    (f1 f2 : Nat) (h1 : s.rest.length < f1) (h2 : s.rest.length < f2) :
    scanner.scanLoop ParseFloat f1 s = scanner.scanLoop ParseFloat f2 s := by
  have e1 := scanLoop_fuel_add ParseFloat s (s.rest.length + 1) (by omega)
    (f1 - (s.rest.length + 1))
  have e2 := scanLoop_fuel_add ParseFloat s (s.rest.length + 1) (by omega)
    (f2 - (s.rest.length + 1))
  have a1 : s.rest.length + 1 + (f1 - (s.rest.length + 1)) = f1 := by omega
  have a2 : s.rest.length + 1 + (f2 - (s.rest.length + 1)) = f2 := by omega
  rw [a1] at e1
  rw [a2] at e2
  rw [e1, e2]

theorem Sim.emit {k : Nat} {u v : scanner ν} (h : Sim k u v) (n : Nat) (kind : TokenType)
    (literal : Literal ν) : Sim k (u.emit n kind literal) (v.emit n kind literal) := by
  obtain ⟨hr, hl, ht⟩ := h
  refine ⟨by rw [emit_rest, emit_rest, hr], by rw [emit_line, emit_line, hl], ?_⟩
  rw [emit_tokens, emit_tokens, ht, hr, hl]
  simp [bumpLine]

theorem Sim.skip {k : Nat} {u v : scanner ν} (h : Sim k u v) (n dl : Nat) :
    Sim k (u.skip n dl) (v.skip n dl) := by
  obtain ⟨hr, hl, ht⟩ := h
  refine ⟨by rw [skip_rest, skip_rest, hr], ?_, by rw [skip_tokens, skip_tokens, ht]⟩
  rw [skip_line, skip_line, hl]
  omega

/-- Two scanners with the same text left, the first `k` lines further down, run
the loop of `ScanTokens` alike: both end without error (and keep the relation),
or both end with an error, or both stop with the same panic. -/
theorem scanLoop_sim (ParseFloat : List Char → Except String ν) (k : Nat) (fuel : Nat) :
    ∀ u v : scanner ν, Sim k u v →
      match scanner.scanLoop ParseFloat fuel v with
      | Except.ok (v', none) =>
        ∃ u', scanner.scanLoop ParseFloat fuel u = Except.ok (u', none) ∧ Sim k u' v'
      | Except.ok (_, some _) =>
        ∃ u' e', scanner.scanLoop ParseFloat fuel u = Except.ok (u', some e')
      | Except.error a => scanner.scanLoop ParseFloat fuel u = Except.error a := by
  induction fuel with
  | zero => intro u v _; simp [scanner.scanLoop]
  | succ fuel ih =>
    intro u v hsim
    have hr := hsim.1
    cases hv : v.rest with
    | nil =>
      rw [hv] at hr
      rw [scanLoop_nil _ _ _ hv, scanLoop_nil _ _ _ hr]
      exact ⟨u, rfl, hsim⟩
    | cons c t =>
      rw [hv] at hr
      rw [scanLoop_cons _ _ _ c t hv, scanLoop_cons _ _ _ c t hr]
      have ha := lexUnit_alike ParseFloat v.line u.line c t
      cases h1 : lexUnit ParseFloat v.line c t with
      | token n kind literal =>
        cases h2 : lexUnit ParseFloat u.line c t with
        | token m kind2 literal2 =>
          rw [h1, h2] at ha
          obtain ⟨rfl, rfl, rfl⟩ := ha
          exact ih _ _ (hsim.emit n kind literal)
        | move m dk err2 => rw [h1, h2] at ha; exact ha.elim
        | panic b => rw [h1, h2] at ha; exact ha.elim
      | move n dl err =>
        cases h2 : lexUnit ParseFloat u.line c t with
        | token m kind2 literal2 => rw [h1, h2] at ha; exact ha.elim
        | move m dk err2 =>
          rw [h1, h2] at ha
          obtain ⟨rfl, rfl, he⟩ := ha
          cases err with
          | none =>
            have : err2 = none := he.mp rfl
            subst this
            exact ih _ _ (hsim.skip n dl)
          | some e =>
            cases err2 with
            | none => exact absurd (he.mpr rfl) (by simp)
            | some e2 => exact ⟨_, _, rfl⟩
        | panic b => rw [h1, h2] at ha; exact ha.elim
      | panic a =>
        cases h2 : lexUnit ParseFloat u.line c t with
        | token m kind2 literal2 => rw [h1, h2] at ha; exact ha.elim
        | move m dk err2 => rw [h1, h2] at ha; exact ha.elim
        | panic b =>
          rw [h1, h2] at ha
          have hab : a = b := ha
          subst hab
          rfl

theorem lexUnit_comment (ParseFloat : List Char → Except String ν) (line : Nat)
    (t : List Char) :
    lexUnit ParseFloat line '/' ('/' :: t) =
      Step.move (2 + (t.takeWhile (fun x => x != newline)).length) 0 none := by
  simp [lexUnit]

theorem lexUnit_newline (ParseFloat : List Char → Except String ν) (line : Nat)
    (t : List Char) : lexUnit ParseFloat line newline t = Step.move 1 1 none := by
  simp [lexUnit, newline]

/-- The loop of `ScanTokens` on a source that starts with a line comment and
its newline: two iterations bring the scanner to the text after the newline, at
line 2 and without a token. -/
theorem scanLoop_comment_line (ParseFloat : List Char → Except String ν)
    (cm r : List Char) (hcm : newline ∉ cm) (fuel : Nat) :
    scanner.scanLoop ParseFloat (fuel + 2) (NewScanner ('/' :: '/' :: cm ++ newline :: r)) =
      scanner.scanLoop ParseFloat fuel
        (((NewScanner ('/' :: '/' :: cm ++ newline :: r) : scanner ν).skip
          (2 + cm.length) 0).skip 1 1) := by
  have hp : ∀ x ∈ cm, (fun x => x != newline) x = true := by
    intro x hx
    have : x ≠ newline := fun e => hcm (e ▸ hx)
    simpa using this
  have hr0 : (NewScanner ('/' :: '/' :: cm ++ newline :: r) : scanner ν).rest =
      '/' :: ('/' :: (cm ++ newline :: r)) := by simp [NewScanner_rest]
  have hr1 : ((NewScanner ('/' :: '/' :: cm ++ newline :: r) : scanner ν).skip
      (2 + cm.length) 0).rest = newline :: r := by
    rw [skip_rest, hr0, Nat.add_comm 2]
    simp
  rw [scanLoop_cons ParseFloat _ _ _ _ hr0, lexUnit_comment,
    takeWhile_append_stop _ cm newline r hp (by simp)]
  simp only
  rw [scanLoop_cons ParseFloat _ _ _ _ hr1, lexUnit_newline]

end Simulation

/-! ## Scanning up to the first byte that starts no lexical unit -/

section Plain

variable {ν : Type}

/-- A byte that starts no lexical unit and is not a double quote is an
`Unexpected character.` error. -/
theorem lexUnit_bad (ParseFloat : List Char → Except String ν) (line : Nat) (c : Char)
    (t : List Char) (h : plainByte c = false) (hq : c ≠ dquote) :
    lexUnit ParseFloat line c t =
      Step.move 1 0 (some (Error line "" "Unexpected character.")) := by
  have hd : ¬ isDigit c = true := by
    intro hd
    simp [plainByte, hd] at h
  have ha : ¬ isAlpha c = true := by
    intro ha
    simp [plainByte, ha] at h
  unfold lexUnit
  by_cases hc1 : c = '('
  · exact absurd (hc1 ▸ h) (by decide)
  simp only [if_neg hc1]
  by_cases hc2 : c = ')'
  · exact absurd (hc2 ▸ h) (by decide)
  simp only [if_neg hc2]
  by_cases hc3 : c = '\x7b'
  · exact absurd (hc3 ▸ h) (by decide)
  simp only [if_neg hc3]
  by_cases hc4 : c = '\x7d'
  · exact absurd (hc4 ▸ h) (by decide)
  simp only [if_neg hc4]
  by_cases hc5 : c = ','
  · exact absurd (hc5 ▸ h) (by decide)
  simp only [if_neg hc5]
  by_cases hc6 : c = '.'
  · exact absurd (hc6 ▸ h) (by decide)
  simp only [if_neg hc6]
  by_cases hc7 : c = '-'
  · exact absurd (hc7 ▸ h) (by decide)
  simp only [if_neg hc7]
  by_cases hc8 : c = '+'
  · exact absurd (hc8 ▸ h) (by decide)
  simp only [if_neg hc8]
  by_cases hc9 : c = ';'
  · exact absurd (hc9 ▸ h) (by decide)
  simp only [if_neg hc9]
  by_cases hc10 : c = '*'
  · exact absurd (hc10 ▸ h) (by decide)
  simp only [if_neg hc10]
  by_cases hc11 : c = '!'
  · exact absurd (hc11 ▸ h) (by decide)
  simp only [if_neg hc11]
  by_cases hc12 : c = '='
  · exact absurd (hc12 ▸ h) (by decide)
  simp only [if_neg hc12]
  by_cases hc13 : c = '<'
  · exact absurd (hc13 ▸ h) (by decide)
  simp only [if_neg hc13]
  by_cases hc14 : c = '>'
  · exact absurd (hc14 ▸ h) (by decide)
  simp only [if_neg hc14]
  by_cases hc15 : c = '/'
  · exact absurd (hc15 ▸ h) (by decide)
  simp only [if_neg hc15]
  by_cases hc16 : c = ' '
  · exact absurd (hc16 ▸ h) (by decide)
  simp only [if_neg hc16]
  by_cases hc17 : c = '\r'
  · exact absurd (hc17 ▸ h) (by decide)
  simp only [if_neg hc17]
  by_cases hc18 : c = '\t'
  · exact absurd (hc18 ▸ h) (by decide)
  simp only [if_neg hc18]
  by_cases hc19 : c = newline
  · exact absurd (hc19 ▸ h) (by decide)
  simp only [if_neg hc19]
  simp only [if_neg hq, if_neg hd, if_neg ha]

theorem length_takeWhile_append_le (p : Char → Bool) (g : List Char) (y : Char)
    (r : List Char) (hy : p y = false) : ((g ++ y :: r).takeWhile p).length ≤ g.length := by
  induction g with
  | nil => simp [List.takeWhile_cons, hy]
  | cons a g ih =>
    rw [List.cons_append, List.takeWhile_cons]
    split
    · simp only [List.length_cons]; omega
    · simp

theorem mem_take_numeralLength (text : List Char) :
    ∀ x ∈ text.take (numeralLength text), isDigit x = true ∨ x = '.' := by
  intro x hx
  rcases take_numeralLength text with h | ⟨d, more, _, _, h⟩
  · rw [h] at hx
    exact Or.inl (List.mem_takeWhile_imp hx)
  · rw [h] at hx
    rcases List.mem_append.mp hx with h1 | h1
    · exact Or.inl (List.mem_takeWhile_imp h1)
    · rcases List.mem_cons.mp h1 with h2 | h2
      · exact Or.inr h2
      · exact Or.inl (List.mem_takeWhile_imp h2)

/-- A numeral stops before a byte that is neither a digit nor a dot. -/
theorem numeralLength_stop (g : List Char) (y : Char) (r : List Char)
    (hy : isDigit y = false) (hdot : y ≠ '.') : numeralLength (g ++ y :: r) ≤ g.length := by
  by_contra hlt
  have hlt2 : g.length < numeralLength (g ++ y :: r) := by omega
  have hmem : y ∈ (g ++ y :: r).take (numeralLength (g ++ y :: r)) := by
    rw [List.take_append_eq_append_take]
    apply List.mem_append_right
    obtain ⟨k, hk⟩ : ∃ k, numeralLength (g ++ y :: r) - g.length = k + 1 :=
      ⟨numeralLength (g ++ y :: r) - g.length - 1, by omega⟩
    rw [hk, List.take_succ_cons]
    simp
  rcases mem_take_numeralLength _ y hmem with h | h
  · rw [hy] at h; exact absurd h (by simp)
  · exact hdot h

/-- The text `number` hands to `ParseFloat` is a numeral. -/
theorem isNumeral_take_numeralLength (c : Char) (t : List Char) (hc : isDigit c = true) :
    isNumeral ((c :: t).take (numeralLength (c :: t))) = true := by
  have hne : (c :: t).takeWhile isDigit ≠ [] := by
    rw [List.takeWhile_cons_of_pos hc]; simp
  have hall : ∀ x ∈ (c :: t).takeWhile isDigit, isDigit x = true :=
    fun x hx => List.mem_takeWhile_imp hx
  rcases take_numeralLength (c :: t) with h | ⟨d, more, _, hd, h⟩
  · rw [h]
    unfold isNumeral
    rw [dropWhile_all isDigit _ hall, takeWhile_all isDigit _ hall]
    simpa [List.isEmpty_iff] using hne
  · rw [h]
    unfold isNumeral
    rw [dropWhile_append_stop isDigit _ '.' _ hall isDigit_dot,
      takeWhile_append_stop isDigit _ '.' _ hall isDigit_dot]
    have hall2 : ∀ x ∈ (d :: more).takeWhile isDigit, isDigit x = true :=
      fun x hx => List.mem_takeWhile_imp hx
    have hne2 : (d :: more).takeWhile isDigit ≠ [] := by
      rw [List.takeWhile_cons_of_pos hd]; simp
    simp only [Bool.and_eq_true, Bool.not_eq_true', List.isEmpty_eq_false, beq_self_eq_true,
      List.all_eq_true]
    exact ⟨⟨⟨by simpa using hne, trivial⟩, by simpa using hne2⟩, hall2⟩

/-- The text of the `Unexpected character.` error of `errors.Error`. -/
theorem Error_unexpected (n : Nat) :
    Error n "" "Unexpected character." =
      "[line " ++ Nat.repr n ++ "] Error : Unexpected character." := by
  simp only [Error, String.append_assoc]
  rfl

/-- The decimal reading `readDecimal` accepts every numeral. -/
theorem readDecimal_isNumeral (t : List Char) (h : isNumeral t = true) :
    ∃ v, readDecimal t = Except.ok v := by
  have hsplit := List.takeWhile_append_dropWhile isDigit t
  have htw : ∀ x ∈ t.takeWhile isDigit, isDigit x = true :=
    fun x hx => List.mem_takeWhile_imp hx
  have hcond : (t.all (fun c => isDigit c || c == '.') && t.any isDigit) = true := by
    unfold isNumeral at h
    cases hd : t.dropWhile isDigit with
    | nil =>
      rw [hd] at h hsplit
      simp only [Bool.not_eq_true', List.isEmpty_eq_false] at h
      obtain ⟨a, l, hal⟩ := List.exists_cons_of_ne_nil h
      rw [List.append_nil] at hsplit
      rw [Bool.and_eq_true, List.all_eq_true, List.any_eq_true]
      refine ⟨fun x hx => ?_, a, ?_, ?_⟩
      · rw [← hsplit] at hx
        simp [htw x hx]
      · rw [← hsplit, hal]; simp
      · exact htw a (by rw [hal]; simp)
    | cons y es =>
      rw [hd] at h hsplit
      simp only [Bool.and_eq_true, Bool.not_eq_true', List.isEmpty_eq_false, beq_iff_eq,
        List.all_eq_true] at h
      obtain ⟨⟨⟨h1, h2⟩, _⟩, h4⟩ := h
      obtain ⟨a, l, hal⟩ := List.exists_cons_of_ne_nil h1
      rw [Bool.and_eq_true, List.all_eq_true, List.any_eq_true]
      refine ⟨fun x hx => ?_, a, ?_, ?_⟩
      · rw [← hsplit] at hx
        rcases List.mem_append.mp hx with hx1 | hx1
        · simp [htw x hx1]
        · rcases List.mem_cons.mp hx1 with hx2 | hx2
          · simp [hx2, h2]
          · simp [h4 x hx2]
      · rw [← hsplit, hal]; simp
      · exact htw a (by rw [hal]; simp)
  unfold readDecimal
  rw [if_pos hcond]
  exact ⟨_, rfl⟩

end Plain

/-! ## Scans that the loop cannot tell apart -/

section Indistinguishable

variable {ν : Type}

theorem result_eq (ParseFloat : List Char → Except String ν) (s : scanner ν) :
    s.result ParseFloat =
      match scanner.scanLoop ParseFloat s.budget s with
      | Except.ok (s1, none) => Except.ok (s1.tokens ++ [eofToken s1.line], none)
      | Except.ok (_, some e) => Except.ok ([], some e)
      | Except.error a => Except.error a := by
  unfold scanner.result scanner.ScanTokens
  cases hl : scanner.scanLoop ParseFloat s.budget s with
  | error a => rfl
  | ok res =>
    obtain ⟨s1, err⟩ := res
    cases err with
    | none => rfl
    | some e => rfl

theorem same_emit {u v : scanner ν} (h : Same u v) (n : Nat) (kind : TokenType)
    (literal : Literal ν) : Same (u.emit n kind literal) (v.emit n kind literal) := by
  obtain ⟨hr, hl, ht⟩ := h
  refine ⟨by rw [emit_rest, emit_rest, hr], by rw [emit_line, emit_line, hl], ?_⟩
  rw [emit_tokens, emit_tokens, ht, hr, hl]

theorem same_skip {u v : scanner ν} (h : Same u v) (n dl : Nat) :
    Same (u.skip n dl) (v.skip n dl) := by
  obtain ⟨hr, hl, ht⟩ := h
  exact ⟨by rw [skip_rest, skip_rest, hr], by rw [skip_line, skip_line, hl],
    by rw [skip_tokens, skip_tokens, ht]⟩

/-- Two scanners with the same text left, line and tokens run the loop of
`ScanTokens` to the same end: the same error or none, related scanners, or the
same panic. -/
theorem scanLoop_same (ParseFloat : List Char → Except String ν) (fuel : Nat) :
    ∀ u v : scanner ν, Same u v →
      match scanner.scanLoop ParseFloat fuel v with
      | Except.ok (v', err) =>
        ∃ u', scanner.scanLoop ParseFloat fuel u = Except.ok (u', err) ∧ Same u' v'
      | Except.error a => scanner.scanLoop ParseFloat fuel u = Except.error a := by
  induction fuel with
  | zero => intro u v _; simp [scanner.scanLoop]
  | succ fuel ih =>
    intro u v hsame
    have hr := hsame.1
    have hline := hsame.2.1
    cases hv : v.rest with
    | nil =>
      rw [hv] at hr
      rw [scanLoop_nil _ _ _ hv, scanLoop_nil _ _ _ hr]
      exact ⟨u, rfl, hsame⟩
    | cons c t =>
      rw [hv] at hr
      rw [scanLoop_cons _ _ _ c t hv, scanLoop_cons _ _ _ c t hr, hline]
      cases h1 : lexUnit ParseFloat v.line c t with
      | token n kind literal => exact ih _ _ (same_emit hsame n kind literal)
      | move n dl err =>
        cases err with
        | none => exact ih _ _ (same_skip hsame n dl)
        | some e => exact ⟨_, rfl, same_skip hsame n dl⟩
      | panic a => rfl

theorem lexUnit_blank (ParseFloat : List Char → Except String ν) (line : Nat) (c : Char)
    (t : List Char) (hc : c = ' ' ∨ c = '\t' ∨ c = '\r') :
    lexUnit ParseFloat line c t = Step.move 1 0 none := by
  rcases hc with rfl | rfl | rfl <;> simp [lexUnit]

/-- The result of `ScanTokens` on a fresh scanner whose first unit is discarded:
the result of the loop on the text that follows, run from the line reached. -/
theorem result_after_skip (ParseFloat : List Char → Except String ν) (c : Char)
    (r : List Char) (dl : Nat) (hu : lexUnit ParseFloat 1 c r = Step.move 1 dl none) :
    (NewScanner (c :: r) : scanner ν).result ParseFloat =
      match scanner.scanLoop ParseFloat (r.length + 1)
          ((NewScanner (c :: r) : scanner ν).skip 1 dl) with
      | Except.ok (s1, none) => Except.ok (s1.tokens ++ [eofToken s1.line], none)
      | Except.ok (_, some e) => Except.ok ([], some e)
      | Except.error a => Except.error a := by
  rw [result_eq]
  have hb : (NewScanner (c :: r) : scanner ν).budget = r.length + 1 + 1 := rfl
  have hl : (NewScanner (c :: r) : scanner ν).line = 1 := rfl
  rw [hb, scanLoop_cons ParseFloat _ _ c r (NewScanner_rest _), hl, hu]

end Indistinguishable

/-! ## The classes of bytes -/

section ByteClasses

variable {ν : Type}

theorem plainByte_eq (c : Char) :
    plainByte c = (punctByte c || c == '/' || blankByte c || isDigit c || isAlpha c) := by
  simp only [plainByte, punctByte, blankByte, Bool.or_assoc]

/-- Every byte is of one of seven classes. -/
theorem byte_class (c : Char) :
    punctByte c = true ∨ c = '/' ∨ blankByte c = true ∨ c = dquote ∨ isDigit c = true ∨
      isAlpha c = true ∨ (plainByte c = false ∧ c ≠ dquote) := by
  by_cases h1 : punctByte c = true
  · exact Or.inl h1
  by_cases h2 : c = '/'
  · exact Or.inr (Or.inl h2)
  by_cases h3 : blankByte c = true
  · exact Or.inr (Or.inr (Or.inl h3))
  by_cases h4 : c = dquote
  · exact Or.inr (Or.inr (Or.inr (Or.inl h4)))
  by_cases h5 : isDigit c = true
  · exact Or.inr (Or.inr (Or.inr (Or.inr (Or.inl h5))))
  by_cases h6 : isAlpha c = true
  · exact Or.inr (Or.inr (Or.inr (Or.inr (Or.inr (Or.inl h6)))))
  refine Or.inr (Or.inr (Or.inr (Or.inr (Or.inr (Or.inr ⟨?_, h4⟩)))))
  rw [plainByte_eq]
  simp [h1, h2, h3, h5, h6]

theorem punctByte_cases {c : Char} (h : punctByte c = true) :
    c = '(' ∨ c = ')' ∨ c = '\x7b' ∨ c = '\x7d' ∨ c = ',' ∨ c = '.' ∨ c = '-' ∨ c = '+' ∨
      c = ';' ∨ c = '*' ∨ c = '!' ∨ c = '=' ∨ c = '<' ∨ c = '>' := by
  simpa [punctByte, or_assoc] using h

theorem blankByte_cases {c : Char} (h : blankByte c = true) :
    c = ' ' ∨ c = '\r' ∨ c = '\t' ∨ c = newline := by
  simpa [blankByte, or_assoc] using h

/-- A punctuation or operator byte other than the slash starts a token without
literal: of that byte alone, or of that byte and the `=` after it. -/
theorem lexUnit_punct (ParseFloat : List Char → Except String ν) (line : Nat) (c : Char)
    (t : List Char) (h : punctByte c = true) :
    ∃ kind, kind ≠ TokenType.NUMBER ∧ kind ≠ TokenType.STRING ∧
      (lexUnit ParseFloat line c t = Step.token 1 kind Literal.null ∨
        (t.head? = some '=' ∧ lexUnit ParseFloat line c t = Step.token 2 kind Literal.null)) := by
  rcases punctByte_cases h with rfl | rfl | rfl | rfl | rfl | rfl | rfl | rfl | rfl | rfl |
    rfl | rfl | rfl | rfl
  · exact ⟨TokenType.LEFT_PAREN, by decide, by decide, Or.inl (by simp [lexUnit])⟩
  · exact ⟨TokenType.RIGHT_PAREN, by decide, by decide, Or.inl (by simp [lexUnit])⟩
  · exact ⟨TokenType.LEFT_BRACE, by decide, by decide, Or.inl (by simp [lexUnit])⟩
  · exact ⟨TokenType.RIGHT_BRACE, by decide, by decide, Or.inl (by simp [lexUnit])⟩
  · exact ⟨TokenType.COMMA, by decide, by decide, Or.inl (by simp [lexUnit])⟩
  · exact ⟨TokenType.DOT, by decide, by decide, Or.inl (by simp [lexUnit])⟩
  · exact ⟨TokenType.MINUS, by decide, by decide, Or.inl (by simp [lexUnit])⟩
  · exact ⟨TokenType.PLUS, by decide, by decide, Or.inl (by simp [lexUnit])⟩
  · exact ⟨TokenType.SEMICOLON, by decide, by decide, Or.inl (by simp [lexUnit])⟩
  · exact ⟨TokenType.STAR, by decide, by decide, Or.inl (by simp [lexUnit])⟩
  · by_cases hm : t.head? = some '='
    · exact ⟨TokenType.BANG_EQUAL, by decide, by decide, Or.inr ⟨hm, by simp [lexUnit, hm]⟩⟩
    · exact ⟨TokenType.BANG, by decide, by decide, Or.inl (by simp [lexUnit, hm])⟩
  · by_cases hm : t.head? = some '='
    · exact ⟨TokenType.EQUAL_EQUAL, by decide, by decide, Or.inr ⟨hm, by simp [lexUnit, hm]⟩⟩
    · exact ⟨TokenType.EQUAL, by decide, by decide, Or.inl (by simp [lexUnit, hm])⟩
  · by_cases hm : t.head? = some '='
    · exact ⟨TokenType.LESS_EQUAL, by decide, by decide, Or.inr ⟨hm, by simp [lexUnit, hm]⟩⟩
    · exact ⟨TokenType.LESS, by decide, by decide, Or.inl (by simp [lexUnit, hm])⟩
  · by_cases hm : t.head? = some '='
    · exact ⟨TokenType.GREATER_EQUAL, by decide, by decide, Or.inr ⟨hm, by simp [lexUnit, hm]⟩⟩
    · exact ⟨TokenType.GREATER, by decide, by decide, Or.inl (by simp [lexUnit, hm])⟩

/-- A slash not followed by a slash is a `SLASH` token. -/
theorem lexUnit_slash (ParseFloat : List Char → Except String ν) (line : Nat)
    (t : List Char) (h : t.head? ≠ some '/') :
    lexUnit ParseFloat line '/' t = Step.token 1 TokenType.SLASH Literal.null := by
  simp [lexUnit, h]

/-- A white-space byte is discarded; the newline raises the line counter. -/
theorem lexUnit_blankByte (ParseFloat : List Char → Except String ν) (line : Nat) (c : Char)
    (t : List Char) (h : blankByte c = true) :
    lexUnit ParseFloat line c t = Step.move 1 (if c = newline then 1 else 0) none := by
  rcases blankByte_cases h with rfl | rfl | rfl | rfl
  · simp [lexUnit, newline]
  · simp [lexUnit, newline]
  · simp [lexUnit, newline]
  · simp [lexUnit, newline]

end ByteClasses

/-! ## The shape of a lexical unit -/

section Shapes

variable {ν : Type}

theorem keywords_ne_literal (text : List Char) :
    keywords text ≠ some TokenType.NUMBER ∧ keywords text ≠ some TokenType.STRING := by
  unfold keywords
  by_cases h0 : text = "and".toList
  · rw [if_pos h0]; simp
  rw [if_neg h0]
  by_cases h1 : text = "class".toList
  · rw [if_pos h1]; simp
  rw [if_neg h1]
  by_cases h2 : text = "else".toList
  · rw [if_pos h2]; simp
  rw [if_neg h2]
  by_cases h3 : text = "false".toList
  · rw [if_pos h3]; simp
  rw [if_neg h3]
  by_cases h4 : text = "for".toList
  · rw [if_pos h4]; simp
  rw [if_neg h4]
  by_cases h5 : text = "fun".toList
  · rw [if_pos h5]; simp
  rw [if_neg h5]
  by_cases h6 : text = "if".toList
  · rw [if_pos h6]; simp
  rw [if_neg h6]
  by_cases h7 : text = "nil".toList
  · rw [if_pos h7]; simp
  rw [if_neg h7]
  by_cases h8 : text = "or".toList
  · rw [if_pos h8]; simp
  rw [if_neg h8]
  by_cases h9 : text = "print".toList
  · rw [if_pos h9]; simp
  rw [if_neg h9]
  by_cases h10 : text = "return".toList
  · rw [if_pos h10]; simp
  rw [if_neg h10]
  by_cases h11 : text = "super".toList
  · rw [if_pos h11]; simp
  rw [if_neg h11]
  by_cases h12 : text = "this".toList
  · rw [if_pos h12]; simp
  rw [if_neg h12]
  by_cases h13 : text = "true".toList
  · rw [if_pos h13]; simp
  rw [if_neg h13]
  by_cases h14 : text = "var".toList
  · rw [if_pos h14]; simp
  rw [if_neg h14]
  by_cases h15 : text = "while".toList
  · rw [if_pos h15]; simp
  rw [if_neg h15]
  simp

theorem wordKind_ne_literal (text : List Char) :
    wordKind text ≠ TokenType.NUMBER ∧ wordKind text ≠ TokenType.STRING := by
  unfold wordKind
  have h := keywords_ne_literal text
  cases hk : keywords text with
  | none => simp
  | some k =>
    rw [hk] at h
    simpa using h

theorem isAlphaNumberic_dquote : isAlphaNumberic dquote = false := by decide

theorem isDigit_dquote : isDigit dquote = false := by decide

theorem mem_takeWhile_imp (p : Char → Bool) (l : List Char) :
    ∀ x ∈ l.takeWhile p, p x = true := by
  intro x hx
  exact List.mem_takeWhile_imp hx

/-- The token a lexical unit makes holds no double quote; it is a `NUMBER` with
a numeric literal, or a token of a kind other than `NUMBER` and `STRING` without
literal. -/
theorem lexUnit_token_shape {ParseFloat : List Char → Except String ν} {line : Nat}
    {c : Char} {t : List Char} {n : Nat} {kind : TokenType} {literal : Literal ν}
    (h : lexUnit ParseFloat line c t = Step.token n kind literal) :
    dquote ∉ (c :: t).take n ∧
    ((kind = TokenType.NUMBER ∧ ∃ v, literal = Literal.num v) ∨
      (kind ≠ TokenType.NUMBER ∧ kind ≠ TokenType.STRING ∧ literal = Literal.null)) := by
  rcases byte_class c with hp | hs | hb | hq | hd | ha | ⟨hbad, hnq⟩
  · have hcq : c ≠ dquote := by
      intro e
      rw [e] at hp
      exact absurd hp (by decide)
    obtain ⟨k, hk1, hk2, hu | ⟨hm, hu⟩⟩ := lexUnit_punct ParseFloat line c t hp
    · rw [hu] at h
      simp only [Step.token.injEq] at h
      obtain ⟨rfl, rfl, rfl⟩ := h
      refine ⟨?_, Or.inr ⟨hk1, hk2, rfl⟩⟩
      simp [Ne.symm hcq]
    · rw [hu] at h
      simp only [Step.token.injEq] at h
      obtain ⟨rfl, rfl, rfl⟩ := h
      refine ⟨?_, Or.inr ⟨hk1, hk2, rfl⟩⟩
      cases t with
      | nil => simp at hm
      | cons x t' =>
        simp only [List.head?_cons, Option.some.injEq] at hm
        subst hm
        have hcq2 : ¬ dquote = c := fun e => hcq e.symm
        simp only [List.take_succ_cons, List.take_zero, List.mem_cons, List.mem_nil_iff,
          or_false, not_or]
        exact ⟨hcq2, by decide⟩
  · subst hs
    by_cases hm : t.head? = some '/'
    · cases t with
      | nil => simp at hm
      | cons x t' =>
        simp only [List.head?_cons, Option.some.injEq] at hm
        subst hm
        rw [lexUnit_comment] at h
        simp at h
    · rw [lexUnit_slash ParseFloat line t hm] at h
      simp only [Step.token.injEq] at h
      obtain ⟨rfl, rfl, rfl⟩ := h
      exact ⟨by simp [dquote], Or.inr ⟨by decide, by decide, rfl⟩⟩
  · rw [lexUnit_blankByte ParseFloat line c t hb] at h
    simp at h
  · subst hq
    rw [lexUnit_dquote] at h
    split at h <;> simp at h
  · rw [lexUnit_digit ParseFloat line c t hd, lexNumber] at h
    cases hv : ParseFloat (List.take (numeralLength (c :: t)) (c :: t)) with
    | error e => rw [hv] at h; simp at h
    | ok v =>
      rw [hv] at h
      simp only [Step.token.injEq] at h
      obtain ⟨rfl, rfl, rfl⟩ := h
      refine ⟨?_, Or.inl ⟨rfl, v, rfl⟩⟩
      intro hmem
      rcases mem_take_numeralLength (c :: t) dquote hmem with h1 | h1
      · rw [isDigit_dquote] at h1
        simp at h1
      · exact absurd h1 (by decide)
  · rw [lexUnit_alpha ParseFloat line c t ha, lexIdentifier] at h
    simp only [Step.token.injEq] at h
    obtain ⟨rfl, rfl, rfl⟩ := h
    have hw := wordKind_ne_literal (List.takeWhile isAlphaNumberic (c :: t))
    refine ⟨?_, Or.inr ⟨hw.1, hw.2, rfl⟩⟩
    rw [take_length_takeWhile]
    intro hmem
    have := mem_takeWhile_imp isAlphaNumberic (c :: t) dquote hmem
    rw [isAlphaNumberic_dquote] at this
    simp at this
  · rw [lexUnit_bad ParseFloat line c t hbad hnq] at h
    simp at h

/-- A lexical unit that is discarded without error is one white-space byte, or
a line comment up to the next newline or the end of the text. -/
theorem lexUnit_move_shape {ParseFloat : List Char → Except String ν} {line : Nat}
    {c : Char} {t : List Char} {n dl : Nat}
    (h : lexUnit ParseFloat line c t = Step.move n dl none) :
    (blankByte c = true ∧ n = 1) ∨
    (c = '/' ∧ ∃ t', t = '/' :: t' ∧
      n = 2 + (t'.takeWhile (fun x => x != newline)).length) := by
  rcases byte_class c with hp | hs | hb | hq | hd | ha | ⟨hbad, hnq⟩
  · obtain ⟨k, _, _, hu | ⟨_, hu⟩⟩ := lexUnit_punct ParseFloat line c t hp
    · rw [hu] at h; simp at h
    · rw [hu] at h; simp at h
  · subst hs
    by_cases hm : t.head? = some '/'
    · cases t with
      | nil => simp at hm
      | cons x t' =>
        simp only [List.head?_cons, Option.some.injEq] at hm
        subst hm
        rw [lexUnit_comment] at h
        simp only [Step.move.injEq] at h
        exact Or.inr ⟨rfl, t', rfl, h.1.symm⟩
    · rw [lexUnit_slash ParseFloat line t hm] at h
      simp at h
  · rw [lexUnit_blankByte ParseFloat line c t hb] at h
    simp only [Step.move.injEq] at h
    exact Or.inl ⟨hb, h.1.symm⟩
  · subst hq
    rw [lexUnit_dquote] at h
    split at h <;> simp at h
  · rw [lexUnit_digit ParseFloat line c t hd, lexNumber] at h
    cases hv : ParseFloat (List.take (numeralLength (c :: t)) (c :: t)) with
    | error e => rw [hv] at h; simp at h
    | ok v => rw [hv] at h; simp at h
  · rw [lexUnit_alpha ParseFloat line c t ha, lexIdentifier] at h
    simp at h
  · rw [lexUnit_bad ParseFloat line c t hbad hnq] at h
    simp at h

/-- A plain byte that is not white space and does not start a comment starts a
token, provided the numeral it may start parses. -/
theorem lexUnit_token_of_plain (ParseFloat : List Char → Except String ν) (line : Nat)
    (c : Char) (t : List Char) (hc : plainByte c = true) (hb : blankByte c = false)
    (hs : ¬ (c = '/' ∧ t.head? = some '/'))
    (hnum : isDigit c = true →
      ∃ v, ParseFloat ((c :: t).take (numeralLength (c :: t))) = Except.ok v) :
    ∃ n kind literal, lexUnit ParseFloat line c t = Step.token n kind literal := by
  rcases byte_class c with hp | hsl | hbl | hq | hd | ha | ⟨hbad, _⟩
  · obtain ⟨k, _, _, hu | ⟨_, hu⟩⟩ := lexUnit_punct ParseFloat line c t hp
    · exact ⟨_, _, _, hu⟩
    · exact ⟨_, _, _, hu⟩
  · subst hsl
    have hm : t.head? ≠ some '/' := fun e => hs ⟨rfl, e⟩
    exact ⟨_, _, _, lexUnit_slash ParseFloat line t hm⟩
  · rw [hb] at hbl
    simp at hbl
  · subst hq
    exact absurd hc (by decide)
  · obtain ⟨v, hv⟩ := hnum hd
    refine ⟨numeralLength (c :: t), TokenType.NUMBER, Literal.num v, ?_⟩
    rw [lexUnit_digit ParseFloat line c t hd, lexNumber, hv]
  · exact ⟨_, _, _, (lexUnit_alpha ParseFloat line c t ha).trans rfl⟩
  · rw [hc] at hbad
    simp at hbad

/-- A plain byte starts a unit that is a token or is discarded, provided the
numeral it may start parses. -/
theorem lexUnit_plain_ok (ParseFloat : List Char → Except String ν) (line : Nat)
    (c : Char) (t : List Char) (hc : plainByte c = true)
    (hnum : isDigit c = true →
      ∃ v, ParseFloat ((c :: t).take (numeralLength (c :: t))) = Except.ok v) :
    (∃ n kind literal, lexUnit ParseFloat line c t = Step.token n kind literal) ∨
    (∃ n dl, lexUnit ParseFloat line c t = Step.move n dl none) := by
  by_cases hb : blankByte c = true
  · exact Or.inr ⟨_, _, lexUnit_blankByte ParseFloat line c t hb⟩
  by_cases hs : c = '/' ∧ t.head? = some '/'
  · obtain ⟨rfl, hm⟩ := hs
    cases t with
    | nil => simp at hm
    | cons x t' =>
      simp only [List.head?_cons, Option.some.injEq] at hm
      subst hm
      exact Or.inr ⟨_, _, lexUnit_comment ParseFloat line t'⟩
  · exact Or.inl (lexUnit_token_of_plain ParseFloat line c t hc (by simpa using hb) hs hnum)

end Shapes

/-! ## The pieces of a source text -/

section Pieces

variable {ν : Type}

@[simp] theorem piecesText_nil : piecesText [] = [] := rfl

@[simp] theorem piecesText_cons (p : Piece) (ps : List Piece) :
    piecesText (p :: ps) = p.text ++ piecesText ps := by
  simp [piecesText]

theorem piecesText_append (ps qs : List Piece) :
    piecesText (ps ++ qs) = piecesText ps ++ piecesText qs := by
  simp [piecesText]

@[simp] theorem piecesLexemes_nil : piecesLexemes [] = [] := rfl

@[simp] theorem piecesLexemes_lexeme (l : List Char) (ps : List Piece) :
    piecesLexemes (Piece.lexeme l :: ps) = l :: piecesLexemes ps := by
  simp [piecesLexemes, Piece.lexemeOf]

@[simp] theorem piecesLexemes_blank (c : Char) (ps : List Piece) :
    piecesLexemes (Piece.blank c :: ps) = piecesLexemes ps := by
  simp [piecesLexemes, Piece.lexemeOf]

@[simp] theorem piecesLexemes_comment (cm : List Char) (ps : List Piece) :
    piecesLexemes (Piece.comment cm :: ps) = piecesLexemes ps := by
  simp [piecesLexemes, Piece.lexemeOf]

theorem startLines_lexeme (line : Nat) (l : List Char) (ps : List Piece) :
    startLines line (Piece.lexeme l :: ps) = (l, line) :: startLines (line + newlines l) ps := by
  simp [startLines]

theorem startLines_blank (line : Nat) (c : Char) (ps : List Piece) :
    startLines line (Piece.blank c :: ps) = startLines (line + newlines [c]) ps := by
  simp [startLines, Piece.text]

theorem startLines_comment (line : Nat) (cm : List Char) (ps : List Piece) :
    startLines line (Piece.comment cm :: ps) =
      startLines (line + newlines ('/' :: '/' :: cm)) ps := by
  simp [startLines, Piece.text]

/-- The lexemes listed with their lines are the lexemes of the pieces. -/
theorem startLines_fst (ps : List Piece) :
    ∀ line, (startLines line ps).map Prod.fst = piecesLexemes ps := by
  induction ps with
  | nil => intro line; rfl
  | cons p ps ih =>
    intro line
    cases p with
    | blank c => rw [startLines_blank, piecesLexemes_blank, ih]
    | comment cm => rw [startLines_comment, piecesLexemes_comment, ih]
    | lexeme l => rw [startLines_lexeme, piecesLexemes_lexeme, List.map_cons, ih]

/-- The line listed for a lexeme is the line of the first piece plus the
newlines of the text before the lexeme. -/
theorem startLines_split (pre : List Piece) (l : List Char) (post : List Piece) :
    ∀ line, (startLines line (pre ++ Piece.lexeme l :: post))[(piecesLexemes pre).length]? =
      some (l, line + newlines (piecesText pre)) := by
  induction pre with
  | nil =>
    intro line
    simp [startLines_lexeme, newlines]
  | cons p pre ih =>
    intro line
    cases p with
    | blank c =>
      rw [List.cons_append, startLines_blank, piecesLexemes_blank, ih, piecesText_cons,
        newlines_append, Piece.text, Nat.add_assoc]
    | comment cm =>
      rw [List.cons_append, startLines_comment, piecesLexemes_comment, ih, piecesText_cons,
        newlines_append, Piece.text, Nat.add_assoc]
    | lexeme l2 =>
      rw [List.cons_append, startLines_lexeme, piecesLexemes_lexeme, List.length_cons,
        List.getElem?_cons_succ, ih, piecesText_cons, newlines_append, Piece.text,
        Nat.add_assoc]

theorem wellFormed_lexeme_ne_nil (ps : List Piece) (h : wellFormed ps = true) :
    ∀ l ∈ piecesLexemes ps, l ≠ [] := by
  induction ps with
  | nil => intro l hl; simp at hl
  | cons p ps ih =>
    cases p with
    | blank c =>
      simp only [wellFormed, Bool.and_eq_true] at h
      rw [piecesLexemes_blank]
      exact ih h.2
    | comment cm =>
      simp only [wellFormed, Bool.and_eq_true] at h
      rw [piecesLexemes_comment]
      exact ih h.2
    | lexeme l2 =>
      simp only [wellFormed, Bool.and_eq_true] at h
      rw [piecesLexemes_lexeme]
      intro l hl
      rcases List.mem_cons.mp hl with rfl | hm
      · intro e
        rw [e] at h
        simp at h
      · exact ih h.2 l hm

end Pieces

/-! ## The loop of `ScanTokens` cuts the source into pieces -/

section LoopPieces

variable {ν : Type}

/-- Every token a run of the loop of `ScanTokens` appends has a property that
every token of a lexical unit has. -/
theorem scanLoop_tokens_all (ParseFloat : List Char → Except String ν)
    (P : Token ν → Prop)
    (hP : ∀ (line : Nat) (c : Char) (t : List Char) (n : Nat) (kind : TokenType)
      (literal : Literal ν), lexUnit ParseFloat line c t = Step.token n kind literal →
      P ⟨kind, (c :: t).take n, literal, line⟩)
    (fuel : Nat) :
    ∀ (s s' : scanner ν), scanner.scanLoop ParseFloat fuel s = Except.ok (s', none) →
      ∃ new, s'.tokens = s.tokens ++ new ∧ ∀ tk ∈ new, P tk := by
  induction fuel with
  | zero => intro s s' h; simp [scanner.scanLoop] at h
  | succ fuel ih =>
    intro s s' h
    cases hr : s.rest with
    | nil =>
      rw [scanLoop_nil ParseFloat fuel s hr] at h
      simp only [Except.ok.injEq, Prod.mk.injEq, and_true] at h
      subst h
      exact ⟨[], by simp, by simp⟩
    | cons c t =>
      rw [scanLoop_cons ParseFloat fuel s c t hr] at h
      cases hu : lexUnit ParseFloat s.line c t with
      | token n kind literal =>
        rw [hu] at h
        obtain ⟨new, h4, h5⟩ := ih _ _ h
        refine ⟨(⟨kind, s.rest.take n, literal, s.line⟩ : Token ν) :: new, ?_, ?_⟩
        · rw [h4, emit_tokens]; simp
        · intro tk htk
          rcases List.mem_cons.mp htk with rfl | hmem
          · rw [hr]
            exact hP _ _ _ _ _ _ hu
          · exact h5 tk hmem
      | move n dl err =>
        rw [hu] at h
        cases err with
        | some e => simp at h
        | none => exact ih (s.skip n dl) s' h
      | panic a =>
        rw [hu] at h
        simp at h

theorem take_comment (t : List Char) :
    List.take (2 + (t.takeWhile (fun x => x != newline)).length) ('/' :: '/' :: t) =
      '/' :: '/' :: t.takeWhile (fun x => x != newline) := by
  rw [Nat.add_comm]
  simp [List.take_succ_cons, take_length_takeWhile]

theorem drop_comment (t : List Char) :
    List.drop (2 + (t.takeWhile (fun x => x != newline)).length) ('/' :: '/' :: t) =
      t.dropWhile (fun x => x != newline) := by
  rw [Nat.add_comm]
  simp [drop_length_takeWhile]

theorem head_dropWhile_newline (t : List Char) :
    ((t.dropWhile (fun x => x != newline)).isEmpty ||
      (t.dropWhile (fun x => x != newline)).head? == some newline) = true := by
  induction t with
  | nil => rfl
  | cons x t ih =>
    by_cases hx : x = newline
    · subst hx
      simp [List.dropWhile]
    · have e : (x :: t).dropWhile (fun x => x != newline) =
          t.dropWhile (fun x => x != newline) := by
        simp [List.dropWhile_cons, hx]
      rw [e]
      exact ih

theorem not_contains_takeWhile_newline (t : List Char) :
    (t.takeWhile (fun x => x != newline)).contains newline = false := by
  cases h : (t.takeWhile (fun x => x != newline)).contains newline with
  | false => rfl
  | true =>
    have hm : newline ∈ t.takeWhile (fun x => x != newline) := by simpa using h
    have := mem_takeWhile_imp (fun x => x != newline) t newline hm
    simp at this

/-- A run of the loop of `ScanTokens` that ends without error cuts the text it
consumes into well-formed pieces: the tokens it appends are the lexeme pieces,
each with the line it starts on, and a double quote lies in a comment only. -/
theorem scanLoop_pieces (ParseFloat : List Char → Except String ν) (fuel : Nat) :
    ∀ (s s' : scanner ν), scanner.scanLoop ParseFloat fuel s = Except.ok (s', none) →
      ∃ ps new, s'.tokens = s.tokens ++ new ∧ wellFormed ps = true ∧
        piecesText ps = s.rest ∧
        new.map (fun tk => (tk.Lexeme, tk.Line)) = startLines s.line ps ∧
        ∀ p ∈ ps, dquote ∈ p.text → ∃ cm, p = Piece.comment cm := by
  induction fuel with
  | zero => intro s s' h; simp [scanner.scanLoop] at h
  | succ fuel ih =>
    intro s s' h
    cases hr : s.rest with
    | nil =>
      rw [scanLoop_nil ParseFloat fuel s hr] at h
      simp only [Except.ok.injEq, Prod.mk.injEq, and_true] at h
      subst h
      exact ⟨[], [], by simp, rfl, rfl, rfl, by simp⟩
    | cons c t =>
      rw [scanLoop_cons ParseFloat fuel s c t hr] at h
      cases hu : lexUnit ParseFloat s.line c t with
      | token n kind literal =>
        rw [hu] at h
        obtain ⟨hn1, hn2, hn, _⟩ := lexUnit_token_sound hu
        obtain ⟨hq, _⟩ := lexUnit_token_shape hu
        obtain ⟨ps, new, h1, h2, h3, h4, h5⟩ := ih _ _ h
        rw [emit_rest, hr] at h3
        rw [emit_line] at h4
        refine ⟨Piece.lexeme ((c :: t).take n) :: ps,
          (⟨kind, s.rest.take n, literal, s.line⟩ : Token ν) :: new, ?_, ?_, ?_, ?_, ?_⟩
        · rw [h1, emit_tokens]; simp
        · have hne : ((c :: t).take n).isEmpty = false := by
            cases n with
            | zero => omega
            | succ m => rfl
          simp [wellFormed, hne, h2]
        · rw [piecesText_cons, h3, Piece.text, List.take_append_drop]
        · rw [startLines_lexeme, hn, Nat.add_zero, List.map_cons, h4, hr]
        · intro p hp hd
          rcases List.mem_cons.mp hp with rfl | hmem
          · exact absurd hd hq
          · exact h5 p hmem hd
      | move n dl err =>
        rw [hu] at h
        cases err with
        | some e => simp at h
        | none =>
          obtain ⟨_, _, hn⟩ := lexUnit_move_sound hu
          obtain ⟨ps, new, h1, h2, h3, h4, h5⟩ := ih _ _ h
          rw [skip_rest, hr] at h3
          rw [skip_line] at h4
          rw [skip_tokens] at h1
          rcases lexUnit_move_shape hu with ⟨hb, rfl⟩ | ⟨rfl, t', rfl, rfl⟩
          · refine ⟨Piece.blank c :: ps, new, h1, ?_, ?_, ?_, ?_⟩
            · simp [wellFormed, hb, h2]
            · rw [piecesText_cons, h3, Piece.text]
              rfl
            · rw [startLines_blank, h4, ← hn]
              rfl
            · intro p hp hd
              rcases List.mem_cons.mp hp with rfl | hmem
              · simp only [Piece.text, List.mem_singleton] at hd
                rw [← hd] at hb
                exact absurd hb (by decide)
              · exact h5 p hmem hd
          · rw [drop_comment] at h3
            rw [take_comment] at hn
            refine ⟨Piece.comment (t'.takeWhile (fun x => x != newline)) :: ps, new, h1,
              ?_, ?_, ?_, ?_⟩
            · simp only [wellFormed, Bool.and_eq_true, Bool.not_eq_true']
              refine ⟨⟨not_contains_takeWhile_newline t', ?_⟩, h2⟩
              rw [h3]
              exact head_dropWhile_newline t'
            · rw [piecesText_cons, h3, Piece.text]
              simp [List.takeWhile_append_dropWhile]
            · rw [startLines_comment, h4, hn]
            · intro p hp hd
              rcases List.mem_cons.mp hp with rfl | hmem
              · exact ⟨_, rfl⟩
              · exact h5 p hmem hd
      | panic a =>
        rw [hu] at h
        simp at h

/-- The parts of a successful scan: the tokens before `EOF` and the pieces the
loop cut the source into. -/
theorem ScanTokens_pieces (ParseFloat : List Char → Except String ν)
    (src : List Char) (s' : scanner ν) (toks : List (Token ν))
    (h : (NewScanner src).ScanTokens ParseFloat = Except.ok (s', toks, none)) :
    ∃ init last ps, toks = init ++ [last] ∧ last.TokenType = TokenType.EOF ∧
      wellFormed ps = true ∧ piecesText ps = src ∧
      init.map (fun tk => (tk.Lexeme, tk.Line)) = startLines 1 ps ∧
      ∀ p ∈ ps, dquote ∈ p.text → ∃ cm, p = Piece.comment cm := by
  obtain ⟨s1, hl, ht, _⟩ := (ScanTokens_ok_iff ParseFloat _ _ _).mp h
  obtain ⟨ps, new, h1, h2, h3, h4, h5⟩ := scanLoop_pieces ParseFloat _ _ _ hl
  rw [NewScanner_rest] at h3
  have h1' : s1.tokens = new := by simpa [NewScanner] using h1
  refine ⟨s1.tokens, _, ps, ht, rfl, h2, h3, ?_, h5⟩
  rw [h1']
  exact h4

end LoopPieces

/-! ## A `!` and the byte after it -/

section Bang

variable {ν : Type}

theorem lexUnit_bang (ParseFloat : List Char → Except String ν) (line : Nat) (x : Char)
    (t : List Char) (hx : x ≠ '=') :
    lexUnit ParseFloat line '!' (x :: t) = Step.token 1 TokenType.BANG Literal.null := by
  simp [lexUnit, hx]

/-- The loop of `ScanTokens` on `!` followed by a byte `x` other than `=`: a
`BANG` token, then the lexical unit `x` starts. -/
theorem scanLoop_bang (ParseFloat : List Char → Except String ν) (x : Char) (hx : x ≠ '=') :
    scanner.scanLoop ParseFloat (NewScanner ['!', x] : scanner ν).budget (NewScanner ['!', x]) =
      match lexUnit ParseFloat 1 x [] with
      | Step.token n kind literal =>
        scanner.scanLoop ParseFloat 1
          (((NewScanner ['!', x] : scanner ν).emit 1 TokenType.BANG Literal.null).emit
            n kind literal)
      | Step.move n dl none =>
        scanner.scanLoop ParseFloat 1
          (((NewScanner ['!', x] : scanner ν).emit 1 TokenType.BANG Literal.null).skip n dl)
      | Step.move n dl (some e) =>
        Except.ok (((NewScanner ['!', x] : scanner ν).emit 1 TokenType.BANG Literal.null).skip
          n dl, some e)
      | Step.panic a => Except.error a := by
  have hb : (NewScanner ['!', x] : scanner ν).budget = 1 + 1 + 1 := rfl
  have hl : (NewScanner ['!', x] : scanner ν).line = 1 := rfl
  have hr2 : ((NewScanner ['!', x] : scanner ν).emit 1 TokenType.BANG Literal.null).rest =
      [x] := by
    rw [emit_rest, NewScanner_rest]
    rfl
  rw [hb, scanLoop_cons ParseFloat _ _ '!' [x] (NewScanner_rest _), hl,
    lexUnit_bang ParseFloat 1 x [] hx]
  simp only
  rw [scanLoop_cons ParseFloat _ _ x [] hr2]
  rfl

end Bang

/-! ## Numerals and their parse -/

section Numerals

variable {ν : Type}

/-- A numeral is a non-empty run of digits, or two such runs with a dot
between them. -/
theorem isNumeral_cases (text : List Char) (h : isNumeral text = true) :
    (text ≠ [] ∧ ∀ x ∈ text, isDigit x = true) ∨
    (∃ d e, text = d ++ '.' :: e ∧ d ≠ [] ∧ e ≠ [] ∧ (∀ x ∈ d, isDigit x = true) ∧
      ∀ x ∈ e, isDigit x = true) := by
  have hsplit := List.takeWhile_append_dropWhile isDigit text
  have htw : ∀ x ∈ text.takeWhile isDigit, isDigit x = true :=
    fun x hx => List.mem_takeWhile_imp hx
  unfold isNumeral at h
  cases hd : text.dropWhile isDigit with
  | nil =>
    rw [hd] at h hsplit
    simp only [Bool.not_eq_true', List.isEmpty_eq_false] at h
    rw [List.append_nil] at hsplit
    rw [hsplit] at h htw
    exact Or.inl ⟨h, htw⟩
  | cons y es =>
    rw [hd] at h hsplit
    simp only [Bool.and_eq_true, Bool.not_eq_true', List.isEmpty_eq_false, beq_iff_eq,
      List.all_eq_true] at h
    obtain ⟨⟨⟨h1, h2⟩, h3⟩, h4⟩ := h
    subst h2
    exact Or.inr ⟨_, es, hsplit.symm, h1, h3, htw, h4⟩

theorem numeralLength_of_isNumeral (text : List Char) (h : isNumeral text = true) :
    numeralLength text = text.length := by
  rcases isNumeral_cases text h with ⟨_, hall⟩ | ⟨d, e, rfl, _, he, hd, hee⟩
  · exact numeralLength_digits text hall
  · exact numeralLength_fraction d e he hd hee

theorem isNumeral_head (text : List Char) (h : isNumeral text = true) :
    ∃ c t, text = c :: t ∧ isDigit c = true := by
  rcases isNumeral_cases text h with ⟨hne, hall⟩ | ⟨d, e, rfl, hd, _, hdd, _⟩
  · obtain ⟨c, t, rfl⟩ := List.exists_cons_of_ne_nil hne
    exact ⟨c, t, rfl, hall c (by simp)⟩
  · obtain ⟨c, t, rfl⟩ := List.exists_cons_of_ne_nil hd
    exact ⟨c, t ++ '.' :: e, rfl, hdd c (by simp)⟩

/-- The scan of a source that is one numeral: a `NUMBER` token and `EOF` when
`ParseFloat` accepts the numeral, its error and no token when it does not. -/
theorem scan_numeral (ParseFloat : List Char → Except String ν) (text : List Char)
    (h : isNumeral text = true) :
    (∀ v, ParseFloat text = Except.ok v →
      ∃ s', (NewScanner text).ScanTokens ParseFloat =
        Except.ok (s', [⟨TokenType.NUMBER, text, Literal.num v, 1⟩,
          ⟨TokenType.EOF, [], Literal.str [], 1⟩], none)) ∧
    (∀ e, ParseFloat text = Except.error e →
      ∃ s', (NewScanner text).ScanTokens ParseFloat = Except.ok (s', [], some e)) := by
  obtain ⟨c, t, rfl, hc⟩ := isNumeral_head text h
  have hn := numeralLength_of_isNumeral (c :: t) h
  have hu : lexUnit ParseFloat 1 c t =
      match ParseFloat (c :: t) with
      | Except.error err => Step.move (t.length + 1) 0 (some err)
      | Except.ok value => Step.token (t.length + 1) TokenType.NUMBER (Literal.num value) := by
    rw [lexUnit_digit ParseFloat 1 c t hc, lexNumber, hn, List.take_length]
    rfl
  refine ⟨?_, ?_⟩
  · intro v hv
    rw [hv] at hu
    exact scan_one_token ParseFloat c t _ _ hu
  · intro e he
    rw [he] at hu
    have hb : (NewScanner (c :: t) : scanner ν).budget = t.length + 1 + 1 := rfl
    have hl : (NewScanner (c :: t) : scanner ν).line = 1 := rfl
    have hloop : scanner.scanLoop ParseFloat (NewScanner (c :: t) : scanner ν).budget
        (NewScanner (c :: t)) =
        Except.ok ((NewScanner (c :: t) : scanner ν).skip (t.length + 1) 0, some e) := by
      rw [hb, scanLoop_cons ParseFloat _ _ c t (NewScanner_rest _), hl, hu]
    rw [ScanTokens_of_loop_error ParseFloat _ _ _ hloop]
    exact ⟨_, rfl⟩

/-- The number a run of digits writes, read after `acc`, is below the power of
ten of its length, times ten per digit read before. -/
theorem foldl_digits_lt (ds : List Char) (hds : ∀ x ∈ ds, isDigit x = true) :
    ∀ (acc j : Nat), acc < 10 ^ j →
      ds.foldl (fun n c => 10 * n + (c.toNat - 48)) acc < 10 ^ (j + ds.length) := by
  induction ds with
  | nil => intro acc j h; simpa using h
  | cons c ds ih =>
    intro acc j h
    have hc := (isDigit_iff c).mp (hds c (by simp))
    have hstep : 10 * acc + (c.toNat - 48) < 10 ^ (j + 1) := by
      rw [Nat.pow_succ]
      omega
    have := ih (fun x hx => hds x (by simp [hx])) _ _ hstep
    rw [List.foldl_cons, List.length_cons]
    rw [show j + (ds.length + 1) = j + 1 + ds.length from by omega]
    exact this

theorem filter_isDigit_length (text : List Char) :
    (text.filter isDigit).length =
      (text.takeWhile isDigit).length + ((text.dropWhile isDigit).filter isDigit).length := by
  have hsplit := List.takeWhile_append_dropWhile isDigit text
  have htw : ∀ x ∈ text.takeWhile isDigit, isDigit x = true :=
    fun x hx => List.mem_takeWhile_imp hx
  have e : (text.takeWhile isDigit).filter isDigit = text.takeWhile isDigit :=
    List.filter_eq_self.mpr htw
  conv_lhs => rw [← hsplit]
  rw [List.filter_append, List.length_append, e]

/-- The decimal reading of a numeral: its value is below ten to the number of
its digits. -/
theorem readDecimal_lt (text : List Char) (h : isNumeral text = true) :
    ∃ n k, readDecimal text = Except.ok (n, k) ∧
      n < 10 ^ ((text.takeWhile isDigit).length + k) := by
  obtain ⟨v, hv⟩ := readDecimal_isNumeral text h
  have hcond : (text.all (fun c => isDigit c || c == '.') && text.any isDigit) = true := by
    cases hb : (text.all (fun c => isDigit c || c == '.') && text.any isDigit) with
    | true => rfl
    | false =>
      unfold readDecimal at hv
      rw [hb] at hv
      simp at hv
  refine ⟨(text.filter isDigit).foldl (fun n c => 10 * n + (c.toNat - 48)) 0,
    ((text.dropWhile isDigit).filter isDigit).length, ?_, ?_⟩
  · unfold readDecimal
    rw [if_pos hcond]
  · rw [← filter_isDigit_length text]
    have := foldl_digits_lt (text.filter isDigit) (fun x hx => (List.mem_filter.mp hx).2)
      0 0 (by norm_num)
    simpa using this

set_option exponentiation.threshold 2000 in
theorem float64Bound_ge : 10 ^ 308 ≤ float64Bound := by
  unfold float64Bound
  norm_num

end Numerals

/-! ## A `scanToken` call at a double quote -/

section Strings

variable {ν : Type}

/-- A `scanToken` call at a double quote, whatever `start` is: the error
`Unterminated string` and no token when another double quote follows, a read
past the end of the source when none does. -/
theorem scanToken_dquote (ParseFloat : List Char → Except String ν) (s : scanner ν)
    (t : List Char) (h : s.rest = dquote :: t) :
    s.scanToken ParseFloat =
      if t.dropWhile (fun x => x != dquote) = [] then Except.error Abort.indexOutOfRange
      else Except.ok (s.moved (1 + (t.takeWhile (fun x => x != dquote)).length)
          (newlines (t.takeWhile (fun x => x != dquote))),
        some (Error (s.line + newlines (t.takeWhile (fun x => x != dquote))) ""
          "Unterminated string")) := by
  have hr : (s.moved 1 0).rest = t := by rw [moved_rest, h]; rfl
  unfold scanner.scanToken
  rw [advance_of_rest_cons h]
  simp only [run_ok_bind]
  unfold scanner.switch
  simp only [dquote, newline, Char.reduceEq, if_false, if_true]
  have hs := string_eq (s.moved 1 0)
  simp only [dquote] at hs hr
  rw [hs, hr]
  by_cases he : t.dropWhile (fun x => x != '\x22') = []
  · simp [he]
  · simp [he, Combine, Nat.add_comm]

theorem dropWhile_ne_eq_nil_iff (x : Char) (t : List Char) :
    t.dropWhile (fun y => y != x) = [] ↔ x ∉ t := by
  induction t with
  | nil => simp
  | cons y t ih =>
    by_cases hy : y = x
    · subst hy
      simp [List.dropWhile]
    · have e : (y :: t).dropWhile (fun z => z != x) = t.dropWhile (fun z => z != x) := by
        simp [List.dropWhile_cons, hy]
      rw [e, ih]
      simp [Ne.symm hy]

end Strings

/-! ## The numeric literals of a source -/

section NumericLiterals

variable {ν : Type}

theorem numericLiteralsFrom_digit (fuel : Nat) (c : Char) (t : List Char)
    (hc : isDigit c = true) :
    numericLiteralsFrom (fuel + 1) (c :: t) =
      (c :: t).take (numeralLength (c :: t)) ::
        numericLiteralsFrom fuel ((c :: t).drop (numeralLength (c :: t))) := by
  rw [numericLiteralsFrom, if_pos hc]

/-- A byte that is skipped alone: no digit, no letter, not the start of a
comment or of a two-byte operator, no double quote. -/
theorem numericLiteralsFrom_single (fuel : Nat) (c : Char) (t : List Char)
    (hd : isDigit c = false) (ha : isAlpha c = false)
    (hs : ¬ (c = '/' ∧ t.head? = some '/'))
    (ho : ¬ ((c = '!' ∨ c = '=' ∨ c = '<' ∨ c = '>') ∧ t.head? = some '='))
    (hq : c ≠ dquote) :
    numericLiteralsFrom (fuel + 1) (c :: t) = numericLiteralsFrom fuel t := by
  rw [numericLiteralsFrom, if_neg (by simp [hd]), if_neg (by simp [ha]), if_neg hs, if_neg ho,
    if_neg hq]

/-- One of `!`, `=`, `<`, `>` followed by `=` is skipped with it. -/
theorem numericLiteralsFrom_pair (fuel : Nat) (c : Char) (t : List Char)
    (hd : isDigit c = false) (ha : isAlpha c = false) (hs : c ≠ '/')
    (ho : c = '!' ∨ c = '=' ∨ c = '<' ∨ c = '>') :
    numericLiteralsFrom (fuel + 1) (c :: '=' :: t) = numericLiteralsFrom fuel t := by
  rw [numericLiteralsFrom, if_neg (by simp [hd]), if_neg (by simp [ha]),
    if_neg (fun h => hs h.1), if_pos ⟨ho, rfl⟩]
  rfl

/-- The numeric literals of a text that starts with a token that is no numeral,
or with a discarded unit, are those of the text after the unit. -/
theorem numericLiteralsFrom_unit (ParseFloat : List Char → Except String ν) (line : Nat)
    (c : Char) (t : List Char) (n : Nat) (fuel : Nat) (hd : isDigit c = false)
    (hu : (∃ kind literal, lexUnit ParseFloat line c t = Step.token n kind literal) ∨
      ∃ dl, lexUnit ParseFloat line c t = Step.move n dl none) :
    numericLiteralsFrom (fuel + 1) (c :: t) = numericLiteralsFrom fuel ((c :: t).drop n) := by
  have hn : ∀ (m : Nat) (st : Step ν), lexUnit ParseFloat line c t = st →
      ((∃ kind literal, st = Step.token m kind literal) ∨ ∃ dl, st = Step.move m dl none) →
      n = m := by
    intro m st hst hm
    rw [hst] at hu
    rcases hu with ⟨k1, l1, h1⟩ | ⟨d1, h1⟩ <;> rcases hm with ⟨k2, l2, h2⟩ | ⟨d2, h2⟩ <;>
      rw [h1] at h2 <;> simp at h2
    · exact h2.1
    · exact h2.1
  rcases byte_class c with hp | hs | hb | hq | hdg | ha | ⟨hbad, hnq⟩
  · rcases punctByte_cases hp with rfl | rfl | rfl | rfl | rfl | rfl | rfl | rfl | rfl | rfl |
      rfl | rfl | rfl | rfl
    · have e := hn 1 _ (by simp [lexUnit]) (Or.inl ⟨TokenType.LEFT_PAREN, Literal.null, rfl⟩)
      subst e
      exact numericLiteralsFrom_single fuel _ t (by decide) (by decide) (by simp) (by simp)
        (by decide)
    · have e := hn 1 _ (by simp [lexUnit]) (Or.inl ⟨TokenType.RIGHT_PAREN, Literal.null, rfl⟩)
      subst e
      exact numericLiteralsFrom_single fuel _ t (by decide) (by decide) (by simp) (by simp)
        (by decide)
    · have e := hn 1 _ (by simp [lexUnit]) (Or.inl ⟨TokenType.LEFT_BRACE, Literal.null, rfl⟩)
      subst e
      exact numericLiteralsFrom_single fuel _ t (by decide) (by decide) (by simp) (by simp)
        (by decide)
    · have e := hn 1 _ (by simp [lexUnit]) (Or.inl ⟨TokenType.RIGHT_BRACE, Literal.null, rfl⟩)
      subst e
      exact numericLiteralsFrom_single fuel _ t (by decide) (by decide) (by simp) (by simp)
        (by decide)
    · have e := hn 1 _ (by simp [lexUnit]) (Or.inl ⟨TokenType.COMMA, Literal.null, rfl⟩)
      subst e
      exact numericLiteralsFrom_single fuel _ t (by decide) (by decide) (by simp) (by simp)
        (by decide)
    · have e := hn 1 _ (by simp [lexUnit]) (Or.inl ⟨TokenType.DOT, Literal.null, rfl⟩)
      subst e
      exact numericLiteralsFrom_single fuel _ t (by decide) (by decide) (by simp) (by simp)
        (by decide)
    · have e := hn 1 _ (by simp [lexUnit]) (Or.inl ⟨TokenType.MINUS, Literal.null, rfl⟩)
      subst e
      exact numericLiteralsFrom_single fuel _ t (by decide) (by decide) (by simp) (by simp)
        (by decide)
    · have e := hn 1 _ (by simp [lexUnit]) (Or.inl ⟨TokenType.PLUS, Literal.null, rfl⟩)
      subst e
      exact numericLiteralsFrom_single fuel _ t (by decide) (by decide) (by simp) (by simp)
        (by decide)
    · have e := hn 1 _ (by simp [lexUnit]) (Or.inl ⟨TokenType.SEMICOLON, Literal.null, rfl⟩)
      subst e
      exact numericLiteralsFrom_single fuel _ t (by decide) (by decide) (by simp) (by simp)
        (by decide)
    · have e := hn 1 _ (by simp [lexUnit]) (Or.inl ⟨TokenType.STAR, Literal.null, rfl⟩)
      subst e
      exact numericLiteralsFrom_single fuel _ t (by decide) (by decide) (by simp) (by simp)
        (by decide)
    · by_cases hm : t.head? = some '='
      · have e := hn 2 _ (by simp [lexUnit, hm]) (Or.inl ⟨TokenType.BANG_EQUAL, Literal.null, rfl⟩)
        subst e
        cases t with
        | nil => simp at hm
        | cons x t' =>
          simp only [List.head?_cons, Option.some.injEq] at hm
          subst hm
          exact numericLiteralsFrom_pair fuel _ t' (by decide) (by decide) (by decide)
            (by simp)
      · have e := hn 1 _ (by simp [lexUnit, hm]) (Or.inl ⟨TokenType.BANG, Literal.null, rfl⟩)
        subst e
        exact numericLiteralsFrom_single fuel _ t (by decide) (by decide) (by simp)
          (by simp [hm]) (by decide)
    · by_cases hm : t.head? = some '='
      · have e := hn 2 _ (by simp [lexUnit, hm]) (Or.inl ⟨TokenType.EQUAL_EQUAL, Literal.null, rfl⟩)
        subst e
        cases t with
        | nil => simp at hm
        | cons x t' =>
          simp only [List.head?_cons, Option.some.injEq] at hm
          subst hm
          exact numericLiteralsFrom_pair fuel _ t' (by decide) (by decide) (by decide)
            (by simp)
      · have e := hn 1 _ (by simp [lexUnit, hm]) (Or.inl ⟨TokenType.EQUAL, Literal.null, rfl⟩)
        subst e
        exact numericLiteralsFrom_single fuel _ t (by decide) (by decide) (by simp)
          (by simp [hm]) (by decide)
    · by_cases hm : t.head? = some '='
      · have e := hn 2 _ (by simp [lexUnit, hm]) (Or.inl ⟨TokenType.LESS_EQUAL, Literal.null, rfl⟩)
        subst e
        cases t with
        | nil => simp at hm
        | cons x t' =>
          simp only [List.head?_cons, Option.some.injEq] at hm
          subst hm
          exact numericLiteralsFrom_pair fuel _ t' (by decide) (by decide) (by decide)
            (by simp)
      · have e := hn 1 _ (by simp [lexUnit, hm]) (Or.inl ⟨TokenType.LESS, Literal.null, rfl⟩)
        subst e
        exact numericLiteralsFrom_single fuel _ t (by decide) (by decide) (by simp)
          (by simp [hm]) (by decide)
    · by_cases hm : t.head? = some '='
      · have e := hn 2 _ (by simp [lexUnit, hm]) (Or.inl ⟨TokenType.GREATER_EQUAL, Literal.null, rfl⟩)
        subst e
        cases t with
        | nil => simp at hm
        | cons x t' =>
          simp only [List.head?_cons, Option.some.injEq] at hm
          subst hm
          exact numericLiteralsFrom_pair fuel _ t' (by decide) (by decide) (by decide)
            (by simp)
      · have e := hn 1 _ (by simp [lexUnit, hm]) (Or.inl ⟨TokenType.GREATER, Literal.null, rfl⟩)
        subst e
        exact numericLiteralsFrom_single fuel _ t (by decide) (by decide) (by simp)
          (by simp [hm]) (by decide)
  · subst hs
    by_cases hm : t.head? = some '/'
    · cases t with
      | nil => simp at hm
      | cons x t' =>
        simp only [List.head?_cons, Option.some.injEq] at hm
        subst hm
        have e := hn _ _ (lexUnit_comment ParseFloat line t') (Or.inr ⟨0, rfl⟩)
        subst e
        rw [drop_comment, numericLiteralsFrom, if_neg (by decide), if_neg (by decide),
          if_pos ⟨rfl, rfl⟩]
        have e2 : ('/' :: t').dropWhile (fun x => x != newline) =
            t'.dropWhile (fun x => x != newline) := by
          simp [List.dropWhile_cons, newline]
        rw [e2]
    · have e := hn 1 _ (lexUnit_slash ParseFloat line t hm)
        (Or.inl ⟨TokenType.SLASH, Literal.null, rfl⟩)
      subst e
      exact numericLiteralsFrom_single fuel _ t (by decide) (by decide) (by simp [hm])
        (by simp) (by decide)
  · have e := hn 1 _ (lexUnit_blankByte ParseFloat line c t hb) (Or.inr ⟨_, rfl⟩)
    subst e
    rcases blankByte_cases hb with rfl | rfl | rfl | rfl
    · exact numericLiteralsFrom_single fuel _ t (by decide) (by decide) (by simp) (by simp)
        (by decide)
    · exact numericLiteralsFrom_single fuel _ t (by decide) (by decide) (by simp) (by simp)
        (by decide)
    · exact numericLiteralsFrom_single fuel _ t (by decide) (by decide) (by simp) (by simp)
        (by decide)
    · exact numericLiteralsFrom_single fuel _ t (by decide) (by decide) (by simp [newline])
        (by simp [newline]) (by decide)
  · subst hq
    exfalso
    rw [lexUnit_dquote] at hu
    rcases hu with ⟨k1, l1, h1⟩ | ⟨d1, h1⟩
    · split at h1 <;> simp at h1
    · split at h1 <;> simp at h1
  · rw [hd] at hdg
    simp at hdg
  · have hu2 := lexUnit_alpha ParseFloat line c t ha
    have e := hn _ _ hu2 (Or.inl ⟨_, _, rfl⟩)
    subst e
    have han : isAlphaNumberic c = true := by simp [isAlphaNumberic, ha]
    rw [drop_length_takeWhile, List.dropWhile_cons_of_pos han, numericLiteralsFrom,
      if_neg (by simp [hd]), if_pos ha]
  · exfalso
    rw [lexUnit_bad ParseFloat line c t hbad hnq] at hu
    rcases hu with ⟨k1, l1, h1⟩ | ⟨d1, h1⟩
    · simp at h1
    · simp at h1

/-- The numeric literals of the text after a token or a discarded unit are
numeric literals of the text. -/
theorem numericLiteralsFrom_sub (ParseFloat : List Char → Except String ν) (line : Nat)
    (c : Char) (t : List Char) (n : Nat) (fuel : Nat)
    (hu : (∃ kind literal, lexUnit ParseFloat line c t = Step.token n kind literal) ∨
      ∃ dl, lexUnit ParseFloat line c t = Step.move n dl none) :
    ∀ x ∈ numericLiteralsFrom fuel ((c :: t).drop n),
      x ∈ numericLiteralsFrom (fuel + 1) (c :: t) := by
  intro x hx
  cases hd : isDigit c with
  | false =>
    rw [numericLiteralsFrom_unit ParseFloat line c t n fuel hd hu]
    exact hx
  | true =>
    have hn : n = numeralLength (c :: t) := by
      rw [lexUnit_digit ParseFloat line c t hd, lexNumber] at hu
      cases hv : ParseFloat (List.take (numeralLength (c :: t)) (c :: t)) with
      | error e =>
        rw [hv] at hu
        rcases hu with ⟨_, _, h1⟩ | ⟨_, h1⟩ <;> simp at h1
      | ok v =>
        rw [hv] at hu
        rcases hu with ⟨_, _, h1⟩ | ⟨_, h1⟩
        · simp only [Step.token.injEq] at h1
          exact h1.1.symm
        · simp at h1
    rw [numericLiteralsFrom_digit fuel c t hd, ← hn]
    exact List.mem_cons_of_mem _ hx

/-- A lexical unit that starts at a plain byte, in a text whose first byte that
is not plain is `b`, is a token or a skip that ends before `b`, provided it is
not a comment and its numeral, if it is one, parses. -/
theorem lexUnit_plain (ParseFloat : List Char → Except String ν) (line : Nat) (c : Char)
    (g : List Char) (b : Char) (r t : List Char) (ht : t = g ++ b :: r)
    (hc : plainByte c = true) (hb : plainByte b = false)
    (hss : ¬ (c = '/' ∧ t.head? = some '/'))
    (hnum : isDigit c = true →
      ∃ v, ParseFloat ((c :: t).take (numeralLength (c :: t))) = Except.ok v) :
    (∃ n kind literal, lexUnit ParseFloat line c t = Step.token n kind literal ∧
      n ≤ g.length + 1) ∨
    (∃ n dl, lexUnit ParseFloat line c t = Step.move n dl none ∧ n ≤ g.length + 1) := by
  have hbd : isDigit b = false := by
    cases h : isDigit b with
    | false => rfl
    | true => simp [plainByte, h] at hb
  have hba : isAlpha b = false := by
    cases h : isAlpha b with
    | false => rfl
    | true => simp [plainByte, h] at hb
  have hbn : isAlphaNumberic b = false := by simp [isAlphaNumberic, hbd, hba]
  have hbdot : b ≠ '.' := fun e => absurd (e ▸ hb) (by decide)
  unfold lexUnit
  by_cases hc1 : c = '('
  · simp only [if_pos hc1]
    exact Or.inl ⟨1, _, _, rfl, by omega⟩
  simp only [if_neg hc1]
  by_cases hc2 : c = ')'
  · simp only [if_pos hc2]
    exact Or.inl ⟨1, _, _, rfl, by omega⟩
  simp only [if_neg hc2]
  by_cases hc3 : c = '\x7b'
  · simp only [if_pos hc3]
    exact Or.inl ⟨1, _, _, rfl, by omega⟩
  simp only [if_neg hc3]
  by_cases hc4 : c = '\x7d'
  · simp only [if_pos hc4]
    exact Or.inl ⟨1, _, _, rfl, by omega⟩
  simp only [if_neg hc4]
  by_cases hc5 : c = ','
  · simp only [if_pos hc5]
    exact Or.inl ⟨1, _, _, rfl, by omega⟩
  simp only [if_neg hc5]
  by_cases hc6 : c = '.'
  · simp only [if_pos hc6]
    exact Or.inl ⟨1, _, _, rfl, by omega⟩
  simp only [if_neg hc6]
  by_cases hc7 : c = '-'
  · simp only [if_pos hc7]
    exact Or.inl ⟨1, _, _, rfl, by omega⟩
  simp only [if_neg hc7]
  by_cases hc8 : c = '+'
  · simp only [if_pos hc8]
    exact Or.inl ⟨1, _, _, rfl, by omega⟩
  simp only [if_neg hc8]
  by_cases hc9 : c = ';'
  · simp only [if_pos hc9]
    exact Or.inl ⟨1, _, _, rfl, by omega⟩
  simp only [if_neg hc9]
  by_cases hc10 : c = '*'
  · simp only [if_pos hc10]
    exact Or.inl ⟨1, _, _, rfl, by omega⟩
  simp only [if_neg hc10]
  by_cases hc11 : c = '!'
  · simp only [if_pos hc11]
    by_cases hm : t.head? = some '='
    · simp only [if_pos hm]
      cases g with
      | nil =>
        rw [ht] at hm
        simp only [List.nil_append, List.head?_cons, Option.some.injEq] at hm
        exact absurd (hm ▸ hb) (by decide)
      | cons a l => exact Or.inl ⟨2, _, _, rfl, by simp⟩
    · simp only [if_neg hm]
      exact Or.inl ⟨1, _, _, rfl, by omega⟩
  simp only [if_neg hc11]
  by_cases hc12 : c = '='
  · simp only [if_pos hc12]
    by_cases hm : t.head? = some '='
    · simp only [if_pos hm]
      cases g with
      | nil =>
        rw [ht] at hm
        simp only [List.nil_append, List.head?_cons, Option.some.injEq] at hm
        exact absurd (hm ▸ hb) (by decide)
      | cons a l => exact Or.inl ⟨2, _, _, rfl, by simp⟩
    · simp only [if_neg hm]
      exact Or.inl ⟨1, _, _, rfl, by omega⟩
  simp only [if_neg hc12]
  by_cases hc13 : c = '<'
  · simp only [if_pos hc13]
    by_cases hm : t.head? = some '='
    · simp only [if_pos hm]
      cases g with
      | nil =>
        rw [ht] at hm
        simp only [List.nil_append, List.head?_cons, Option.some.injEq] at hm
        exact absurd (hm ▸ hb) (by decide)
      | cons a l => exact Or.inl ⟨2, _, _, rfl, by simp⟩
    · simp only [if_neg hm]
      exact Or.inl ⟨1, _, _, rfl, by omega⟩
  simp only [if_neg hc13]
  by_cases hc14 : c = '>'
  · simp only [if_pos hc14]
    by_cases hm : t.head? = some '='
    · simp only [if_pos hm]
      cases g with
      | nil =>
        rw [ht] at hm
        simp only [List.nil_append, List.head?_cons, Option.some.injEq] at hm
        exact absurd (hm ▸ hb) (by decide)
      | cons a l => exact Or.inl ⟨2, _, _, rfl, by simp⟩
    · simp only [if_neg hm]
      exact Or.inl ⟨1, _, _, rfl, by omega⟩
  simp only [if_neg hc14]
  by_cases hc15 : c = '/'
  · simp only [if_pos hc15]
    by_cases hm : t.head? = some '/'
    · simp only [if_pos hm]
      exact absurd ⟨hc15, hm⟩ hss
    · simp only [if_neg hm]
      exact Or.inl ⟨1, _, _, rfl, by omega⟩
  simp only [if_neg hc15]
  by_cases hc16 : c = ' '
  · simp only [if_pos hc16]
    exact Or.inr ⟨1, 0, rfl, by omega⟩
  simp only [if_neg hc16]
  by_cases hc17 : c = '\r'
  · simp only [if_pos hc17]
    exact Or.inr ⟨1, 0, rfl, by omega⟩
  simp only [if_neg hc17]
  by_cases hc18 : c = '\t'
  · simp only [if_pos hc18]
    exact Or.inr ⟨1, 0, rfl, by omega⟩
  simp only [if_neg hc18]
  by_cases hc19 : c = newline
  · simp only [if_pos hc19]
    exact Or.inr ⟨1, 1, rfl, by omega⟩
  simp only [if_neg hc19]
  by_cases hc20 : c = dquote
  · simp only [if_pos hc20]
    exact absurd (hc20 ▸ hc) (by decide)
  simp only [if_neg hc20]
  by_cases hd : isDigit c = true
  · simp only [if_pos hd]
    have hlen : numeralLength (c :: t) ≤ g.length + 1 := by
      rw [ht]
      exact numeralLength_stop (c :: g) b r hbd hbdot
    obtain ⟨v, hv⟩ := hnum hd
    refine Or.inl ⟨_, TokenType.NUMBER, Literal.num v, ?_, hlen⟩
    rw [lexNumber, hv]
  simp only [if_neg hd]
  by_cases ha : isAlpha c = true
  · simp only [if_pos ha]
    refine Or.inl ⟨_, _, _, rfl, ?_⟩
    rw [ht]
    exact length_takeWhile_append_le isAlphaNumberic (c :: g) b r hbn
  simp only [if_neg ha]
  exfalso
  simp [plainByte, hd, ha, hc1, hc2, hc3, hc4, hc5, hc6, hc7, hc8, hc9, hc10, hc11, hc12, hc13,
    hc14, hc15, hc16, hc17, hc18, hc19] at hc

/-- The loop of `ScanTokens`, started in a text made of plain bytes `g` and then
a byte `b` that starts no lexical unit, returns the `Unexpected character.`
error at the line of `b`, provided no comment starts in the text and the
numeric literals of the text parse. -/
theorem scanLoop_plain (ParseFloat : List Char → Except String ν) (b : Char)
    (r : List Char) (hb : plainByte b = false) (hbq : b ≠ dquote) (k : Nat) :
    ∀ (g : List Char) (s : scanner ν) (fuel : Nat), g.length ≤ k → g.length < fuel →
      s.rest = g ++ b :: r → (∀ x ∈ g, plainByte x = true) →
      ¬ ['/', '/'] <:+: g ++ b :: r →
      (∀ t ∈ numericLiteralsFrom fuel (g ++ b :: r), ∃ v, ParseFloat t = Except.ok v) →
      ∃ s', scanner.scanLoop ParseFloat fuel s =
        Except.ok (s', some (Error (s.line + newlines g) "" "Unexpected character.")) := by
  induction k with
  | zero =>
    intro g s fuel hk hfuel hr _ _ _
    have hg : g = [] := List.length_eq_zero.mp (by omega)
    subst hg
    obtain ⟨f, rfl⟩ : ∃ f, fuel = f + 1 := ⟨fuel - 1, by omega⟩
    rw [scanLoop_cons ParseFloat f s b r hr, lexUnit_bad ParseFloat s.line b r hb hbq]
    exact ⟨s.skip 1 0, by simp [newlines]⟩
  | succ k ih =>
    intro g s fuel hk hfuel hr hg hss hnum
    cases g with
    | nil =>
      obtain ⟨f, rfl⟩ : ∃ f, fuel = f + 1 := ⟨fuel - 1, by omega⟩
      rw [scanLoop_cons ParseFloat f s b r hr, lexUnit_bad ParseFloat s.line b r hb hbq]
      exact ⟨s.skip 1 0, by simp [newlines]⟩
    | cons c g =>
      obtain ⟨f, rfl⟩ : ∃ f, fuel = f + 1 := ⟨fuel - 1, by omega⟩
      simp only [List.length_cons] at hk hfuel
      have hr' : s.rest = c :: (g ++ b :: r) := hr
      have hsuf : ∀ n, List.drop n (c :: g) ++ b :: r <:+ c :: g ++ b :: r := by
        intro n
        exact ⟨List.take n (c :: g), by rw [← List.append_assoc, List.take_append_drop]⟩
      have hstep : ∀ (n : Nat) (s1 : scanner ν), 1 ≤ n → n ≤ g.length + 1 →
          s1.rest = (s.rest).drop n →
          s1.line = s.line + newlines ((c :: (g ++ b :: r)).take n) →
          (∀ t ∈ numericLiteralsFrom f ((c :: (g ++ b :: r)).drop n),
            t ∈ numericLiteralsFrom (f + 1) (c :: (g ++ b :: r))) →
          ∃ s', scanner.scanLoop ParseFloat f s1 =
            Except.ok (s', some (Error (s.line + newlines (c :: g)) ""
              "Unexpected character.")) := by
        intro n s1 h1 h2 hrest hline hsub
        have hdrop0 : (c :: (g ++ b :: r)).drop n = List.drop n (c :: g) ++ b :: r := by
          rw [show c :: (g ++ b :: r) = (c :: g) ++ b :: r from rfl]
          exact List.drop_append_of_le_length (by simp only [List.length_cons]; omega)
        have hdrop : s1.rest = List.drop n (c :: g) ++ b :: r := by
          rw [hrest, hr]
          exact List.drop_append_of_le_length (by simp only [List.length_cons]; omega)
        have htake : (c :: (g ++ b :: r)).take n = (c :: g).take n := by
          rw [show c :: (g ++ b :: r) = (c :: g) ++ b :: r from rfl]
          exact List.take_append_of_le_length (by simp only [List.length_cons]; omega)
        obtain ⟨s', hs'⟩ := ih (List.drop n (c :: g)) s1 f
          (by simp only [List.length_drop, List.length_cons]; omega)
          (by simp only [List.length_drop, List.length_cons]; omega)
          hdrop
          (fun x hx => hg x (List.mem_of_mem_drop hx))
          (fun hi => hss (hi.trans (hsuf n).isInfix))
          (fun t ht => hnum t (hsub t (by rw [hdrop0]; exact ht)))
        refine ⟨s', ?_⟩
        rw [hs', hline, htake, Nat.add_assoc, newlines_take_drop]
      have hplain := lexUnit_plain ParseFloat s.line c g b r _ rfl (hg c (by simp)) hb
        (by
          rintro ⟨h1, h2⟩
          apply hss
          subst h1
          cases hgb : g ++ b :: r with
          | nil => rw [hgb] at h2; simp at h2
          | cons a l =>
            rw [hgb] at h2
            simp only [List.head?_cons, Option.some.injEq] at h2
            subst h2
            rw [show '/' :: g ++ b :: r = '/' :: (g ++ b :: r) from rfl, hgb]
            exact (List.prefix_iff_eq_append.mpr (by simp)).isInfix)
        (fun hd => hnum _ (by
          rw [show c :: g ++ b :: r = c :: (g ++ b :: r) from rfl,
            numericLiteralsFrom_digit f c _ hd]
          exact List.mem_cons_self _ _))
      rw [scanLoop_cons ParseFloat f s c (g ++ b :: r) hr']
      rcases hplain with ⟨n, kind, literal, hu, hn⟩ | ⟨n, dl, hu, hn⟩
      · obtain ⟨h1, _, h3, _⟩ := lexUnit_token_sound hu
        rw [hu]
        simp only
        exact hstep n _ h1 hn (emit_rest s n kind literal) (by rw [emit_line, h3]; rfl)
          (numericLiteralsFrom_sub ParseFloat s.line c _ n f (Or.inl ⟨kind, literal, hu⟩))
      · obtain ⟨h1, _, h3⟩ := lexUnit_move_sound hu
        rw [hu]
        simp only
        exact hstep n _ h1 hn (skip_rest s n dl) (by rw [skip_line, h3])
          (numericLiteralsFrom_sub ParseFloat s.line c _ n f (Or.inr ⟨dl, hu⟩))

end NumericLiterals

/-! ## Double quotes of a scanned source, and sources of plain bytes -/

section Occurrences

variable {ν : Type}

/-- A byte of the text of a sequence of pieces lies in one of the pieces. -/
theorem piecesText_split (x : Char) (post : List Char) (ps : List Piece) :
    ∀ pre : List Char, piecesText ps = pre ++ x :: post →
      ∃ ps1 p ps2 a b, ps = ps1 ++ p :: ps2 ∧ p.text = a ++ x :: b ∧
        pre = piecesText ps1 ++ a := by
  induction ps with
  | nil => intro pre h; simp at h
  | cons p ps ih =>
    intro pre h
    rw [piecesText_cons] at h
    rcases List.append_eq_append_iff.mp h with ⟨a', h1, h2⟩ | ⟨c', h1, h2⟩
    · obtain ⟨ps1, q, ps2, a, b, e1, e2, e3⟩ := ih a' h2
      refine ⟨p :: ps1, q, ps2, a, b, by rw [e1]; rfl, e2, ?_⟩
      rw [h1, e3, piecesText_cons, List.append_assoc]
    · cases c' with
      | nil =>
        rw [List.nil_append] at h2
        obtain ⟨ps1, q, ps2, a, b, e1, e2, e3⟩ := ih [] h2.symm
        refine ⟨p :: ps1, q, ps2, a, b, by rw [e1]; rfl, e2, ?_⟩
        rw [piecesText_cons, List.append_assoc, ← e3, h1]
        simp
      | cons y c'' =>
        simp only [List.cons_append, List.cons.injEq] at h2
        refine ⟨[], p, ps, pre, c'', rfl, ?_, by simp⟩
        rw [h1, h2.1]

theorem wellFormed_comment (ps : List Piece) (h : wellFormed ps = true) :
    ∀ cm, Piece.comment cm ∈ ps → newline ∉ cm := by
  induction ps with
  | nil => intro cm hm; simp at hm
  | cons p ps ih =>
    intro cm hm
    cases p with
    | blank c =>
      simp only [wellFormed, Bool.and_eq_true] at h
      rcases List.mem_cons.mp hm with e | hm2
      · simp at e
      · exact ih h.2 cm hm2
    | comment cm2 =>
      simp only [wellFormed, Bool.and_eq_true, Bool.not_eq_true'] at h
      rcases List.mem_cons.mp hm with e | hm2
      · simp only [Piece.comment.injEq] at e
        subst e
        intro hin
        have : cm.contains newline = true := by simpa using hin
        rw [h.1.1] at this
        simp at this
      · exact ih h.2 cm hm2
    | lexeme l =>
      simp only [wellFormed, Bool.and_eq_true] at h
      rcases List.mem_cons.mp hm with e | hm2
      · simp at e
      · exact ih h.2 cm hm2

/-- In well-formed pieces where a double quote lies in comments only, every
double quote of the text comes after two slashes of its line. -/
theorem dquote_after_slashes (ps : List Piece) (hw : wellFormed ps = true)
    (hq : ∀ p ∈ ps, dquote ∈ p.text → ∃ cm, p = Piece.comment cm)
    (pre post : List Char) (h : piecesText ps = pre ++ dquote :: post) :
    ∃ a cm, pre = a ++ '/' :: '/' :: cm ∧ newline ∉ cm := by
  obtain ⟨ps1, p, ps2, a, b, e1, e2, e3⟩ := piecesText_split dquote post ps pre h
  have hp : p ∈ ps := by rw [e1]; simp
  obtain ⟨cm, rfl⟩ := hq p hp (by rw [e2]; simp)
  have hn := wellFormed_comment ps hw cm hp
  simp only [Piece.text] at e2
  cases a with
  | nil =>
    simp only [List.nil_append, List.cons.injEq] at e2
    exact absurd e2.1 (by decide)
  | cons y a1 =>
    cases a1 with
    | nil =>
      simp only [List.cons_append, List.nil_append, List.cons.injEq] at e2
      exact absurd e2.2.1 (by decide)
    | cons z a2 =>
      simp only [List.cons_append, List.cons.injEq] at e2
      obtain ⟨rfl, rfl, e4⟩ := e2
      refine ⟨piecesText ps1, a2, e3, ?_⟩
      intro hin
      apply hn
      rw [e4]
      simp [hin]

/-- The loop of `ScanTokens` on a text of plain bytes whose numeric literals
parse ends without error. -/
theorem scanLoop_plain_ok (ParseFloat : List Char → Except String ν) (fuel : Nat) :
    ∀ s : scanner ν, s.rest.length < fuel → (∀ x ∈ s.rest, plainByte x = true) →
      (∀ t ∈ numericLiteralsFrom fuel s.rest, ∃ v, ParseFloat t = Except.ok v) →
      ∃ s', scanner.scanLoop ParseFloat fuel s = Except.ok (s', none) := by
  induction fuel with
  | zero => intro s h; omega
  | succ fuel ih =>
    intro s hlen hplain hnum
    cases hr : s.rest with
    | nil => exact ⟨s, scanLoop_nil ParseFloat fuel s hr⟩
    | cons c t =>
      rw [hr] at hlen hplain hnum
      simp only [List.length_cons] at hlen
      rw [scanLoop_cons ParseFloat fuel s c t hr]
      have hsuffix : ∀ n, ∀ x ∈ (c :: t).drop n, plainByte x = true :=
        fun n x hx => hplain x (List.mem_of_mem_drop hx)
      rcases lexUnit_plain_ok ParseFloat s.line c t (hplain c (by simp))
        (fun hd => hnum _ (by
          rw [numericLiteralsFrom_digit fuel c t hd]
          exact List.mem_cons_self _ _)) with ⟨n, kind, literal, hu⟩ | ⟨n, dl, hu⟩
      · obtain ⟨h1, h2, _, _⟩ := lexUnit_token_sound hu
        rw [hu]
        simp only
        apply ih
        · rw [emit_rest, hr]
          simp only [List.length_drop, List.length_cons]
          omega
        · rw [emit_rest, hr]
          exact hsuffix n
        · rw [emit_rest, hr]
          exact fun u hx => hnum u
            (numericLiteralsFrom_sub ParseFloat s.line c t n fuel (Or.inl ⟨kind, literal, hu⟩)
              u hx)
      · obtain ⟨h1, h2, _⟩ := lexUnit_move_sound hu
        rw [hu]
        simp only
        apply ih
        · rw [skip_rest, hr]
          simp only [List.length_drop, List.length_cons]
          omega
        · rw [skip_rest, hr]
          exact hsuffix n
        · rw [skip_rest, hr]
          exact fun u hx => hnum u
            (numericLiteralsFrom_sub ParseFloat s.line c t n fuel (Or.inr ⟨dl, hu⟩) u hx)

end Occurrences

/-! ## The `float64` a numeral is stored as -/

section Float64

variable {ν : Type}

theorem roundHalfEven_one (a : Nat) : roundHalfEven a 1 = a := by
  simp [roundHalfEven, Nat.mod_one]

theorem log2Floor_spec (fuel : Nat) :
    ∀ n, 0 < n → n ≤ fuel →
      2 ^ log2Floor fuel n ≤ n ∧ n < 2 ^ (log2Floor fuel n + 1) := by
  induction fuel with
  | zero => intro n h1 h2; omega
  | succ fuel ih =>
    intro n h1 h2
    by_cases hn : n < 2
    · have e : n = 1 := by omega
      subst e
      simp [log2Floor]
    · rw [log2Floor, if_neg hn]
      obtain ⟨h3, h4⟩ := ih (n / 2) (by omega) (by omega)
      simp only [Nat.pow_succ] at h4 ⊢
      generalize 2 ^ log2Floor fuel (n / 2) = p at h3 h4 ⊢
      omega

theorem log2Floor_one : log2Floor (10 ^ 0) (10 ^ 0) = 0 := by decide

set_option exponentiation.threshold 2000 in
/-- An integer below `2^53` is a `float64`: the nearest `float64` has its
value. -/
theorem nearestFloat64_exact (n : Nat) (h : n < 2 ^ 53) :
    float64Is (nearestFloat64 n 0) n 0 := by
  by_cases h0 : n = 0
  · subst h0
    have e : nearestFloat64 0 0 = (0, -1074) := by simp [nearestFloat64]
    rw [e]
    simp [float64Is]
  obtain ⟨h1, h2⟩ := log2Floor_spec n n (by omega) (Nat.le_refl n)
  have hl : log2Floor n n ≤ 52 := by
    by_contra hc
    have : 2 ^ 53 ≤ 2 ^ log2Floor n n := Nat.pow_le_pow_right (by norm_num) (by omega)
    omega
  obtain ⟨j, hj⟩ : ∃ j, log2Floor n n + j = 52 := ⟨52 - log2Floor n n, by omega⟩
  have hbe : binaryExponent n 0 = (log2Floor n n : Int) := by
    unfold binaryExponent
    rw [log2Floor_one]
    have e : ((log2Floor n n : Nat) : Int) - ((0 : Nat) : Int) = (log2Floor n n : Int) := by simp
    rw [e]
    have hs : scaleDecimal n 0 (log2Floor n n : Int) = (n, 2 ^ log2Floor n n) := by
      simp [scaleDecimal]
    rw [hs]
    simp [h1]
  have hlp : lastPlace n 0 = -(j : Int) := by
    unfold lastPlace
    rw [hbe]
    omega
  have hsc : scaleDecimal n 0 (-(j : Int)) = (n * 2 ^ j, 1) := by
    unfold scaleDecimal
    by_cases hj0 : j = 0
    · subst hj0
      simp
    · have : ¬ (0 : Int) ≤ -(j : Int) := by omega
      rw [if_neg this]
      simp
  have hm : n * 2 ^ j < 2 ^ 53 := by
    have : 2 ^ 53 = 2 ^ (log2Floor n n + 1) * 2 ^ j := by
      rw [← Nat.pow_add]
      congr 1
      omega
    rw [this]
    exact Nat.mul_lt_mul_of_lt_of_le h2 (Nat.le_refl _) (Nat.two_pow_pos j)
  have hnf : nearestFloat64 n 0 = (n * 2 ^ j, -(j : Int)) := by
    unfold nearestFloat64
    rw [if_neg h0, hlp, hsc, roundHalfEven_one, if_neg (by omega)]
  rw [hnf]
  unfold float64Is
  by_cases hj0 : j = 0
  · subst hj0
    simp
  · have : ¬ (0 : Int) ≤ -(j : Int) := by omega
    simp only [this, if_false]
    simp

theorem ParseFloat64_ok (text : List Char) (n k : Nat)
    (h : ParseFloat64 text = Except.ok (n, k)) :
    readDecimal text = Except.ok (n, k) ∧ n < float64Bound * 10 ^ k := by
  unfold ParseFloat64 at h
  by_cases hn : isNumeral text = true
  · rw [if_pos hn] at h
    cases hr : readDecimal text with
    | error e => rw [hr] at h; simp at h
    | ok v =>
      obtain ⟨n1, k1⟩ := v
      rw [hr] at h
      simp only at h
      by_cases hb : float64Bound * 10 ^ k1 ≤ n1
      · rw [if_pos hb] at h
        simp at h
      · rw [if_neg hb] at h
        simp only [Except.ok.injEq, Prod.mk.injEq] at h
        obtain ⟨rfl, rfl⟩ := h
        exact ⟨rfl, by omega⟩
  · rw [if_neg hn] at h
    simp at h

/-- What `ParseFloat64Value` returns for a text it accepts: the `float64`
nearest to the decimal read from the text, which is in range. -/
theorem ParseFloat64Value_ok (text : List Char) (v : Nat × Int)
    (h : ParseFloat64Value text = Except.ok v) :
    ∃ n k, readDecimal text = Except.ok (n, k) ∧ n < float64Bound * 10 ^ k ∧
      v = nearestFloat64 n k := by
  unfold ParseFloat64Value at h
  cases hp : ParseFloat64 text with
  | error e => rw [hp] at h; simp at h
  | ok w =>
    obtain ⟨n, k⟩ := w
    rw [hp] at h
    simp only [Except.ok.injEq] at h
    obtain ⟨h1, h2⟩ := ParseFloat64_ok text n k hp
    exact ⟨n, k, h1, h2, h.symm⟩

/-- The decimal read from a run of digits has no digit after the dot. -/
theorem readDecimal_digits (d : List Char) (hdd : ∀ x ∈ d, isDigit x = true) (n k : Nat)
    (h : readDecimal d = Except.ok (n, k)) : k = 0 := by
  unfold readDecimal at h
  split at h
  · simp only [Except.ok.injEq, Prod.mk.injEq] at h
    rw [← h.2, dropWhile_all isDigit d hdd]
    rfl
  · simp at h

/-- The scans of a run of digits `d`, of `d.e` and of `d.` with a trailing dot,
for texts `ParseFloat` accepts: the literal of each `NUMBER` token is the value
`ParseFloat` returns for its lexeme. -/
theorem scan_number_literals (ParseFloat : List Char → Except String ν)
    (d e : List Char) (hd : d ≠ []) (he : e ≠ [])
    (hdd : ∀ x ∈ d, isDigit x = true) (hee : ∀ x ∈ e, isDigit x = true)
    (v v2 : ν) (hv : ParseFloat d = Except.ok v)
    (hv2 : ParseFloat (d ++ '.' :: e) = Except.ok v2) :
    (∃ s', (NewScanner d).ScanTokens ParseFloat =
      Except.ok (s', [⟨TokenType.NUMBER, d, Literal.num v, 1⟩,
        ⟨TokenType.EOF, [], Literal.str [], 1⟩], none)) ∧
    (∃ s', (NewScanner (d ++ '.' :: e)).ScanTokens ParseFloat =
      Except.ok (s', [⟨TokenType.NUMBER, d ++ '.' :: e, Literal.num v2, 1⟩,
        ⟨TokenType.EOF, [], Literal.str [], 1⟩], none)) ∧
    (∃ s', (NewScanner (d ++ ['.'])).ScanTokens ParseFloat =
      Except.ok (s', [⟨TokenType.NUMBER, d, Literal.num v, 1⟩,
        ⟨TokenType.DOT, ['.'], Literal.null, 1⟩,
        ⟨TokenType.EOF, [], Literal.str [], 1⟩], none)) := by
  cases d with
  | nil => exact absurd rfl hd
  | cons c t =>
    have hc : isDigit c = true := hdd c (by simp)
    refine ⟨?_, ?_, ?_⟩
    · apply scan_one_token
      rw [lexUnit_digit ParseFloat 1 c t hc, lexNumber, numeralLength_digits (c :: t) hdd,
        List.take_length, hv]
      rfl
    · have hn := numeralLength_fraction (c :: t) e he hdd hee
      have hu : lexUnit ParseFloat 1 c (t ++ '.' :: e) =
          Step.token ((t ++ '.' :: e).length + 1) TokenType.NUMBER (Literal.num v2) := by
        rw [lexUnit_digit ParseFloat 1 c _ hc, lexNumber]
        rw [show c :: (t ++ '.' :: e) = (c :: t) ++ '.' :: e from rfl, hn, List.take_length,
          hv2]
        rfl
      exact scan_one_token ParseFloat c (t ++ '.' :: e) _ _ hu
    · have hn := numeralLength_trailing_dot (c :: t) hdd
      have hu : lexUnit ParseFloat 1 c (t ++ ['.']) =
          Step.token (t.length + 1) TokenType.NUMBER (Literal.num v) := by
        rw [lexUnit_digit ParseFloat 1 c _ hc, lexNumber]
        rw [show c :: (t ++ ['.']) = (c :: t) ++ ['.'] from rfl, hn, List.take_left, hv]
        rfl
      have hr := @NewScanner_rest ν (c :: t ++ ['.'])
      have hloop : scanner.scanLoop ParseFloat (NewScanner (c :: t ++ ['.']) : scanner ν).budget
          (NewScanner (c :: t ++ ['.'])) =
          Except.ok (((NewScanner (c :: t ++ ['.'])).emit (t.length + 1) TokenType.NUMBER
            (Literal.num v)).emit 1 TokenType.DOT Literal.null, none) := by
        have hb : (NewScanner (c :: t ++ ['.']) : scanner ν).budget = t.length + 1 + 1 + 1 := by
          simp [scanner.budget, NewScanner]
        have hl : (NewScanner (c :: t ++ ['.']) : scanner ν).line = 1 := rfl
        rw [hb, scanLoop_cons ParseFloat _ _ c (t ++ ['.']) hr, hl, hu]
        simp only
        have hr2 : ((NewScanner (c :: t ++ ['.']) : scanner ν).emit (t.length + 1)
            TokenType.NUMBER (Literal.num v)).rest = ['.'] := by
          rw [emit_rest, hr]
          simp
        rw [scanLoop_cons ParseFloat _ _ '.' [] hr2]
        have hu2 : lexUnit ParseFloat ((NewScanner (c :: t ++ ['.']) : scanner ν).emit
            (t.length + 1) TokenType.NUMBER (Literal.num v)).line '.' [] =
            Step.token 1 TokenType.DOT Literal.null := by
          simp [lexUnit]
        rw [hu2]
        simp only
        apply scanLoop_nil
        rw [emit_rest, hr2]
        rfl
      rw [ScanTokens_of_loop_ok ParseFloat _ _ hloop]
      have htoks : (((NewScanner (c :: t ++ ['.']) : scanner ν).emit (t.length + 1)
          TokenType.NUMBER (Literal.num v)).emit 1 TokenType.DOT Literal.null).tokens ++
          [eofToken (((NewScanner (c :: t ++ ['.']) : scanner ν).emit (t.length + 1)
            TokenType.NUMBER (Literal.num v)).emit 1 TokenType.DOT Literal.null).line] =
          [⟨TokenType.NUMBER, c :: t, Literal.num v, 1⟩,
           ⟨TokenType.DOT, ['.'], Literal.null, 1⟩,
           ⟨TokenType.EOF, [], Literal.str [], 1⟩] := by
        simp [eofToken, NewScanner, scanner.rest, scanner.emit]
      rw [htoks]
      exact ⟨_, rfl⟩

end Float64

/-! ## The claims -/

section Claims

variable {ν : Type}

/-- C1: for every source on which `ScanTokens` of a fresh scanner succeeds, the
returned token sequence is not empty, its last token has kind `EOF` and an empty
lexeme, and no other token of the sequence has kind `EOF`. -/
theorem C1_ends_with_single_EOF (ParseFloat : List Char → Except String ν)
    (src : List Char) (s' : scanner ν) (toks : List (Token ν))
    (h : (NewScanner src).ScanTokens ParseFloat = Except.ok (s', toks, none)) :
    toks ≠ [] ∧ ∃ init last, toks = init ++ [last] ∧
      last.TokenType = TokenType.EOF ∧ last.Lexeme = [] ∧
      ∀ t ∈ init, t.TokenType ≠ TokenType.EOF := by
  obtain ⟨s1, hl, ht, _⟩ := (ScanTokens_ok_iff ParseFloat _ _ _).mp h
  obtain ⟨_, _, _, new, hn, hne⟩ := scanLoop_ok ParseFloat _ _ _ hl
  refine ⟨by rw [ht]; simp, s1.tokens, _, ht, rfl, rfl, ?_⟩
  intro t hmem
  rw [hn] at hmem
  simp only [NewScanner, List.nil_append] at hmem
  exact hne t hmem

/-- C2: for every source on which `ScanTokens` of a fresh scanner succeeds, the
line of the final (`EOF`) token is 1 plus the number of newline characters of
the whole source. -/
theorem C2_EOF_line_counts_newlines (ParseFloat : List Char → Except String ν)
    (src : List Char) (s' : scanner ν) (toks : List (Token ν))
    (h : (NewScanner src).ScanTokens ParseFloat = Except.ok (s', toks, none)) :
    ∃ last, toks.getLast? = some last ∧ last.TokenType = TokenType.EOF ∧
      last.Line = 1 + src.count newline := by
  obtain ⟨s1, hl, ht, _⟩ := (ScanTokens_ok_iff ParseFloat _ _ _).mp h
  obtain ⟨_, _, hline, _⟩ := scanLoop_ok ParseFloat _ _ _ hl
  refine ⟨⟨TokenType.EOF, [], Literal.str [], s1.line⟩, by rw [ht]; simp, rfl, ?_⟩
  simpa [NewScanner, scanner.rest, newlines] using hline

/-- C6: whenever `ScanTokens` returns an error, the token sequence it returns is
nil, whatever tokens the scanner had already recognised. -/
theorem C6_no_tokens_on_error (ParseFloat : List Char → Except String ν)
    (src : List Char) (s' : scanner ν) (toks : List (Token ν)) (e : String)
    (h : (NewScanner src).ScanTokens ParseFloat = Except.ok (s', toks, some e)) :
    toks = [] := by
  unfold scanner.ScanTokens at h
  cases hl : scanner.scanLoop ParseFloat (NewScanner src).budget (NewScanner src) with
  | error a => rw [hl] at h; simp at h
  | ok r =>
    obtain ⟨s1, err⟩ := r
    rw [hl] at h
    cases err with
    | some e1 =>
      simp only [run_ok_bind, run_pure, Except.ok.injEq, Prod.mk.injEq] at h
      exact h.2.1.symm
    | none => simp at h

theorem C1_ends_with_single_EOF_witness :
    (NewScanner "(a)".toList).ScanTokens readDecimal =
      Except.ok (⟨"(a)".toList, 2, 3, 1,
        [⟨TokenType.LEFT_PAREN, "(".toList, Literal.null, 1⟩,
         ⟨TokenType.IDENTIFIER, "a".toList, Literal.null, 1⟩,
         ⟨TokenType.RIGHT_PAREN, ")".toList, Literal.null, 1⟩,
         ⟨TokenType.EOF, [], Literal.str [], 1⟩]⟩,
        [⟨TokenType.LEFT_PAREN, "(".toList, Literal.null, 1⟩,
         ⟨TokenType.IDENTIFIER, "a".toList, Literal.null, 1⟩,
         ⟨TokenType.RIGHT_PAREN, ")".toList, Literal.null, 1⟩,
         ⟨TokenType.EOF, [], Literal.str [], 1⟩], none) ∧
    ([⟨TokenType.LEFT_PAREN, "(".toList, Literal.null, 1⟩,
      ⟨TokenType.IDENTIFIER, "a".toList, Literal.null, 1⟩,
      ⟨TokenType.RIGHT_PAREN, ")".toList, Literal.null, 1⟩,
      ⟨TokenType.EOF, [], Literal.str [], 1⟩] ≠ ([] : List (Token (Nat × Nat))) ∧
    ∃ (init : List (Token (Nat × Nat))) (last : Token (Nat × Nat)),
      [⟨TokenType.LEFT_PAREN, "(".toList, Literal.null, 1⟩,
       ⟨TokenType.IDENTIFIER, "a".toList, Literal.null, 1⟩,
       ⟨TokenType.RIGHT_PAREN, ")".toList, Literal.null, 1⟩,
       ⟨TokenType.EOF, [], Literal.str [], 1⟩] = init ++ [last] ∧
      last.TokenType = TokenType.EOF ∧ last.Lexeme = [] ∧
      ∀ t ∈ init, t.TokenType ≠ TokenType.EOF) :=
  ⟨rfl, C1_ends_with_single_EOF readDecimal "(a)".toList _ _ rfl⟩

theorem C2_EOF_line_counts_newlines_witness :
    (NewScanner "// c\n(\n".toList).ScanTokens readDecimal =
      Except.ok (⟨"// c\n(\n".toList, 6, 7, 3,
        [⟨TokenType.LEFT_PAREN, "(".toList, Literal.null, 2⟩,
         ⟨TokenType.EOF, [], Literal.str [], 3⟩]⟩,
        [⟨TokenType.LEFT_PAREN, "(".toList, Literal.null, 2⟩,
         ⟨TokenType.EOF, [], Literal.str [], 3⟩], none) ∧
    ∃ last : Token (Nat × Nat),
      [⟨TokenType.LEFT_PAREN, "(".toList, Literal.null, 2⟩,
       ⟨TokenType.EOF, [], Literal.str [], 3⟩].getLast? = some last ∧
      last.TokenType = TokenType.EOF ∧ last.Line = 1 + "// c\n(\n".toList.count newline :=
  ⟨rfl, C2_EOF_line_counts_newlines readDecimal "// c\n(\n".toList _ _ rfl⟩

/-- C3: a string literal with both its quotes is not scanned to a `STRING`
token. For every `b` without a double quote, on the source made of a double
quote, `b` and a double quote, `string` stops at the closing quote, finds that
the cursor is not at the end, and returns the error `Unterminated string` (at
line 1 plus the newlines of `b`); `ScanTokens` returns that error and no token. -/
theorem C3_terminated_string_is_rejected (ParseFloat : List Char → Except String ν)
    (b : List Char) (hb : dquote ∉ b) :
    (NewScanner (dquote :: b ++ [dquote])).ScanTokens ParseFloat =
      Except.ok (⟨dquote :: b ++ [dquote], 0, 1 + b.length, 1 + newlines b, []⟩, [],
        some (Error (1 + newlines b) "" "Unterminated string")) := by
  have hp : ∀ x ∈ b, (fun x => x != dquote) x = true := by
    intro x hx
    have : x ≠ dquote := fun e => hb (e ▸ hx)
    simpa using this
  have hr : (NewScanner (dquote :: b ++ [dquote]) : scanner ν).rest =
      dquote :: (b ++ [dquote]) := by simp [NewScanner_rest]
  apply ScanTokens_of_loop_error
  rw [scanner.budget, scanLoop_cons ParseFloat _ _ dquote _ hr,
    lexUnit_dquote, dropWhile_append_stop _ b dquote [] hp (by simp),
    takeWhile_append_stop _ b dquote [] hp (by simp)]
  simp [scanner.skip, NewScanner]

theorem C3_terminated_string_is_rejected_witness :
    dquote ∉ "ab".toList ∧
    (NewScanner "\"ab\"".toList).ScanTokens readDecimal =
      Except.ok (⟨"\"ab\"".toList, 0, 3, 1, []⟩, [],
        some "[line 1] Error : Unterminated string") :=
  ⟨by decide, C3_terminated_string_is_rejected readDecimal "ab".toList (by decide)⟩

/-- C4: a string literal without its closing quote makes the scan panic. For
every `b` without a double quote, on the source made of a double quote and `b`,
`string` reaches the end of the source and then calls `advance`, which reads
`source[len(source)]`: the run stops with an index-out-of-range panic, and no
`Unterminated string` error is returned. -/
theorem C4_unterminated_string_panics (ParseFloat : List Char → Except String ν)
    (b : List Char) (hb : dquote ∉ b) :
    (NewScanner (dquote :: b)).ScanTokens ParseFloat =
      Except.error Abort.indexOutOfRange := by
  have hp : ∀ x ∈ b, (fun x => x != dquote) x = true := by
    intro x hx
    have : x ≠ dquote := fun e => hb (e ▸ hx)
    simpa using this
  apply ScanTokens_of_loop_abort
  rw [scanner.budget, scanLoop_cons ParseFloat _ _ dquote _ (NewScanner_rest _),
    lexUnit_dquote, dropWhile_all _ b hp]
  simp

theorem C4_unterminated_string_panics_witness :
    dquote ∉ "ab".toList ∧
    (NewScanner "\"ab".toList).ScanTokens readDecimal =
      Except.error Abort.indexOutOfRange :=
  ⟨by decide, C4_unterminated_string_panics readDecimal "ab".toList (by decide)⟩

theorem C6_no_tokens_on_error_witness :
    (NewScanner "(@)".toList).ScanTokens readDecimal =
      Except.ok (⟨"(@)".toList, 1, 2, 1,
        [⟨TokenType.LEFT_PAREN, "(".toList, Literal.null, 1⟩]⟩, [],
        some "[line 1] Error : Unexpected character.") ∧
    ([] : List (Token (Nat × Nat))) = [] :=
  ⟨rfl, C6_no_tokens_on_error readDecimal "(@)".toList _ _ _ rfl⟩

/-- C7: for every non-empty word `w` of ASCII letters, digits and underscores
that does not start with a digit, scanning `w` succeeds and yields two tokens:
one with lexeme `w`, line 1 and no literal, whose kind is the entry of `w` in
the keyword table when there is one and `IDENTIFIER` otherwise, then `EOF`. -/
theorem C7_identifier_or_keyword (ParseFloat : List Char → Except String ν)
    (w : List Char) (hne : w ≠ []) (hall : ∀ x ∈ w, isAlphaNumberic x = true)
    (hfirst : ∀ c, w.head? = some c → isDigit c = false) :
    ∃ s', (NewScanner w).ScanTokens ParseFloat =
      Except.ok (s',
        [⟨(keywords w).getD TokenType.IDENTIFIER, w, Literal.null, 1⟩,
         ⟨TokenType.EOF, [], Literal.str [], 1⟩], none) := by
  cases w with
  | nil => exact absurd rfl hne
  | cons c t =>
    have hc : isAlpha c = true := by
      have h1 := hall c (by simp)
      have h2 := hfirst c rfl
      simpa [isAlphaNumberic, h2] using h1
    have htw := takeWhile_all isAlphaNumberic (c :: t) hall
    have hu : lexUnit ParseFloat 1 c t =
        Step.token (t.length + 1) (wordKind (c :: t)) Literal.null := by
      rw [lexUnit_alpha ParseFloat 1 c t hc, lexIdentifier, htw]
      rfl
    have hloop : scanner.scanLoop ParseFloat (NewScanner (c :: t) : scanner ν).budget
        (NewScanner (c :: t)) =
        Except.ok ((NewScanner (c :: t)).emit (t.length + 1) (wordKind (c :: t)) Literal.null,
          none) := by
      have hr := @NewScanner_rest ν (c :: t)
      have hb : (NewScanner (c :: t) : scanner ν).budget = t.length + 1 + 1 := rfl
      rw [hb, scanLoop_cons ParseFloat _ _ c t hr]
      have hl : (NewScanner (c :: t) : scanner ν).line = 1 := rfl
      rw [hl, hu]
      simp only
      apply scanLoop_nil
      rw [emit_rest, hr]
      simp
    rw [ScanTokens_of_loop_ok ParseFloat _ _ hloop]
    have htoks : ((NewScanner (c :: t) : scanner ν).emit (t.length + 1) (wordKind (c :: t))
        Literal.null).tokens ++ [eofToken ((NewScanner (c :: t) : scanner ν).emit
          (t.length + 1) (wordKind (c :: t)) Literal.null).line] =
        [⟨(keywords (c :: t)).getD TokenType.IDENTIFIER, c :: t, Literal.null, 1⟩,
         ⟨TokenType.EOF, [], Literal.str [], 1⟩] := by
      simp [eofToken, wordKind_eq, NewScanner, scanner.rest]
    rw [htoks]
    exact ⟨_, rfl⟩

theorem C7_identifier_or_keyword_witness :
    ("and".toList ≠ [] ∧ (∀ x ∈ "and".toList, isAlphaNumberic x = true) ∧
      (∀ c, "and".toList.head? = some c → isDigit c = false)) ∧
    (∃ s', (NewScanner "and".toList).ScanTokens readDecimal =
      Except.ok (s',
        [⟨(keywords "and".toList).getD TokenType.IDENTIFIER, "and".toList, Literal.null, 1⟩,
         ⟨TokenType.EOF, [], Literal.str [], 1⟩], none)) ∧
    (keywords "and".toList).getD TokenType.IDENTIFIER = TokenType.AND ∧
    (keywords "android".toList).getD TokenType.IDENTIFIER = TokenType.IDENTIFIER :=
  ⟨⟨by decide, by decide, by decide⟩,
   C7_identifier_or_keyword readDecimal "and".toList (by decide) (by decide) (by decide),
   by decide, by decide⟩

/-- C9: for each `c` among `!`, `=`, `<`, `>` and every scanner whose cursor is
at an occurrence of `c`, one iteration of the loop of `ScanTokens` (mark the
start, call `scanToken`) returns no error and appends exactly one token at the
current line and without literal: when the next byte is `=`, the compound kind
with the two-byte lexeme, the cursor advancing by 2; otherwise (another byte or
the end of the source) the single kind with lexeme `c`, the cursor advancing
by 1. -/
theorem C9_one_or_two_character_operator (ParseFloat : List Char → Except String ν)
    (s : scanner ν) (c : Char) (single compound : TokenType)
    (hk : operatorKinds c = some (single, compound))
    (hcur : s.source[s.current]? = some c) :
    scanner.scanToken ParseFloat { s with start := s.current } =
      if s.source[s.current + 1]? = some '=' then
        Except.ok ({ s with start := s.current, current := s.current + 2, tokens := s.tokens ++
          [⟨compound, [c, '='], Literal.null, s.line⟩] }, none)
      else
        Except.ok ({ s with start := s.current, current := s.current + 1, tokens := s.tokens ++
          [⟨single, [c], Literal.null, s.line⟩] }, none) := by
  have hr : ({ s with start := s.current } : scanner ν).rest =
      c :: s.source.drop (s.current + 1) := drop_of_getElem? hcur
  have hh : (s.source.drop (s.current + 1)).head? = s.source[s.current + 1]? := by
    rw [List.head?_drop]
  rw [scanToken_eq ParseFloat _ rfl, hr, lexStep]
  unfold operatorKinds at hk
  by_cases h1 : c = '!'
  · subst h1
    simp only [if_true, Option.some.injEq, Prod.mk.injEq] at hk
    obtain ⟨rfl, rfl⟩ := hk
    by_cases hn : s.source[s.current + 1]? = some '='
    · have ht := drop_of_getElem? hn
      simp [lexUnit, hh, hn, scanner.apply, hr, ht]
    · simp [lexUnit, hh, hn, scanner.apply, hr]
  rw [if_neg h1] at hk
  by_cases h2 : c = '='
  · subst h2
    simp only [if_true, Option.some.injEq, Prod.mk.injEq] at hk
    obtain ⟨rfl, rfl⟩ := hk
    by_cases hn : s.source[s.current + 1]? = some '='
    · have ht := drop_of_getElem? hn
      simp [lexUnit, hh, hn, scanner.apply, hr, ht]
    · simp [lexUnit, hh, hn, scanner.apply, hr]
  rw [if_neg h2] at hk
  by_cases h3 : c = '<'
  · subst h3
    simp only [if_true, Option.some.injEq, Prod.mk.injEq] at hk
    obtain ⟨rfl, rfl⟩ := hk
    by_cases hn : s.source[s.current + 1]? = some '='
    · have ht := drop_of_getElem? hn
      simp [lexUnit, hh, hn, scanner.apply, hr, ht]
    · simp [lexUnit, hh, hn, scanner.apply, hr]
  rw [if_neg h3] at hk
  by_cases h4 : c = '>'
  · subst h4
    simp only [if_true, Option.some.injEq, Prod.mk.injEq] at hk
    obtain ⟨rfl, rfl⟩ := hk
    by_cases hn : s.source[s.current + 1]? = some '='
    · have ht := drop_of_getElem? hn
      simp [lexUnit, hh, hn, scanner.apply, hr, ht]
    · simp [lexUnit, hh, hn, scanner.apply, hr]
  rw [if_neg h4] at hk
  simp at hk

theorem C9_one_or_two_character_operator_witness :
    (operatorKinds '=' = some (TokenType.EQUAL, TokenType.EQUAL_EQUAL) ∧
      "===".toList[0]? = some '=') ∧
    scanner.scanToken readDecimal (NewScanner "===".toList) =
      Except.ok (⟨"===".toList, 0, 2, 1,
        [⟨TokenType.EQUAL_EQUAL, "==".toList, Literal.null, 1⟩]⟩, none) ∧
    (NewScanner "===".toList).ScanTokens readDecimal =
      Except.ok (⟨"===".toList, 2, 3, 1,
        [⟨TokenType.EQUAL_EQUAL, "==".toList, Literal.null, 1⟩,
         ⟨TokenType.EQUAL, "=".toList, Literal.null, 1⟩,
         ⟨TokenType.EOF, [], Literal.str [], 1⟩]⟩,
        [⟨TokenType.EQUAL_EQUAL, "==".toList, Literal.null, 1⟩,
         ⟨TokenType.EQUAL, "=".toList, Literal.null, 1⟩,
         ⟨TokenType.EOF, [], Literal.str [], 1⟩], none) :=
  ⟨⟨rfl, rfl⟩,
   C9_one_or_two_character_operator readDecimal (NewScanner "===".toList) '='
     TokenType.EQUAL TokenType.EQUAL_EQUAL rfl rfl,
   rfl⟩

/-- C8, as amended: for all non-empty runs of ASCII digits `d` and `e` whose
texts `strconv.ParseFloat` accepts: scanning `d` yields a `NUMBER` token with
lexeme `d`, then `EOF`; scanning `d.e` yields a `NUMBER` token with lexeme
`d.e`, then `EOF`; scanning `d.` yields a `NUMBER` token with lexeme `d`, a
`DOT` token with lexeme `.`, then `EOF`. The literal of each `NUMBER` token is
the `float64` nearest to the decimal value of its lexeme (ties to even): it is
that decimal value when `d` is an integer below `2^53`, and need not be it
otherwise. -/
theorem C8_number_literals (d e : List Char) (hd : d ≠ []) (he : e ≠ [])
    (hdd : ∀ x ∈ d, isDigit x = true) (hee : ∀ x ∈ e, isDigit x = true)
    (v v2 : Nat × Int) (hv : ParseFloat64Value d = Except.ok v)
    (hv2 : ParseFloat64Value (d ++ '.' :: e) = Except.ok v2) :
    (∃ s', (NewScanner d).ScanTokens ParseFloat64Value =
      Except.ok (s', [⟨TokenType.NUMBER, d, Literal.num v, 1⟩,
        ⟨TokenType.EOF, [], Literal.str [], 1⟩], none)) ∧
    (∃ s', (NewScanner (d ++ '.' :: e)).ScanTokens ParseFloat64Value =
      Except.ok (s', [⟨TokenType.NUMBER, d ++ '.' :: e, Literal.num v2, 1⟩,
        ⟨TokenType.EOF, [], Literal.str [], 1⟩], none)) ∧
    (∃ s', (NewScanner (d ++ ['.'])).ScanTokens ParseFloat64Value =
      Except.ok (s', [⟨TokenType.NUMBER, d, Literal.num v, 1⟩,
        ⟨TokenType.DOT, ['.'], Literal.null, 1⟩,
        ⟨TokenType.EOF, [], Literal.str [], 1⟩], none)) ∧
    (∃ n, readDecimal d = Except.ok (n, 0) ∧ v = nearestFloat64 n 0 ∧
      (n < 2 ^ 53 → float64Is v n 0)) ∧
    (∃ n2 k2, readDecimal (d ++ '.' :: e) = Except.ok (n2, k2) ∧
      v2 = nearestFloat64 n2 k2) := by
  obtain ⟨h1, h2, h3⟩ := scan_number_literals ParseFloat64Value d e hd he hdd hee v v2 hv hv2
  obtain ⟨n, k, hr, _, hn⟩ := ParseFloat64Value_ok d v hv
  obtain ⟨n2, k2, hr2, _, hn2⟩ := ParseFloat64Value_ok (d ++ '.' :: e) v2 hv2
  have hk : k = 0 := readDecimal_digits d hdd n k hr
  subst hk
  refine ⟨h1, h2, h3, ⟨n, hr, hn, ?_⟩, n2, k2, hr2, hn2⟩
  intro hlt
  rw [hn]
  exact nearestFloat64_exact n hlt

set_option maxRecDepth 100000 in
set_option exponentiation.threshold 2000 in
theorem C8_number_literals_witness :
    ("1".toList ≠ [] ∧ "5".toList ≠ [] ∧ (∀ x ∈ "1".toList, isDigit x = true) ∧
      (∀ x ∈ "5".toList, isDigit x = true) ∧
      ParseFloat64Value "1".toList = Except.ok (4503599627370496, -52) ∧
      ParseFloat64Value ("1".toList ++ '.' :: "5".toList) =
        Except.ok (6755399441055744, -52)) ∧
    ((∃ s', (NewScanner "1".toList).ScanTokens ParseFloat64Value =
      Except.ok (s', [⟨TokenType.NUMBER, "1".toList, Literal.num (4503599627370496, -52), 1⟩,
        ⟨TokenType.EOF, [], Literal.str [], 1⟩], none)) ∧
    (∃ s', (NewScanner ("1".toList ++ '.' :: "5".toList)).ScanTokens ParseFloat64Value =
      Except.ok (s', [⟨TokenType.NUMBER, "1".toList ++ '.' :: "5".toList,
        Literal.num (6755399441055744, -52), 1⟩,
        ⟨TokenType.EOF, [], Literal.str [], 1⟩], none)) ∧
    (∃ s', (NewScanner ("1".toList ++ ['.'])).ScanTokens ParseFloat64Value =
      Except.ok (s', [⟨TokenType.NUMBER, "1".toList, Literal.num (4503599627370496, -52), 1⟩,
        ⟨TokenType.DOT, ['.'], Literal.null, 1⟩,
        ⟨TokenType.EOF, [], Literal.str [], 1⟩], none)) ∧
    (∃ n, readDecimal "1".toList = Except.ok (n, 0) ∧
      ((4503599627370496, -52) : Nat × Int) = nearestFloat64 n 0 ∧
      (n < 2 ^ 53 → float64Is (4503599627370496, -52) n 0)) ∧
    (∃ n2 k2, readDecimal ("1".toList ++ '.' :: "5".toList) = Except.ok (n2, k2) ∧
      ((6755399441055744, -52) : Nat × Int) = nearestFloat64 n2 k2)) ∧
    float64Is (4503599627370496, -52) 1 0 ∧ float64Is (6755399441055744, -52) 15 1 :=
  ⟨⟨by decide, by decide, by decide, by decide, by rfl, by rfl⟩,
   C8_number_literals "1".toList "5".toList (by decide) (by decide) (by decide) (by decide)
     (4503599627370496, -52) (6755399441055744, -52) (by rfl) (by rfl),
   by decide, by decide⟩

set_option maxRecDepth 100000 in
set_option exponentiation.threshold 2000 in
/-- C8, as stated, fails for the digits `9007199254740993` (`2^53 + 1`): the
scan yields a `NUMBER` token with that lexeme whose literal is the `float64`
`4503599627370496 * 2^1`, that is `9007199254740992`, not the decimal value of
the lexeme. -/
theorem C8_counterexample :
    ("9007199254740993".toList ≠ [] ∧ ∀ x ∈ "9007199254740993".toList, isDigit x = true) ∧
    (NewScanner "9007199254740993".toList).ScanTokens ParseFloat64Value =
      Except.ok (⟨"9007199254740993".toList, 0, 16, 1,
        [⟨TokenType.NUMBER, "9007199254740993".toList, Literal.num (4503599627370496, 1), 1⟩,
         ⟨TokenType.EOF, [], Literal.str [], 1⟩]⟩,
        [⟨TokenType.NUMBER, "9007199254740993".toList, Literal.num (4503599627370496, 1), 1⟩,
         ⟨TokenType.EOF, [], Literal.str [], 1⟩], none) ∧
    readDecimal "9007199254740993".toList = Except.ok (9007199254740993, 0) ∧
    ¬ float64Is (4503599627370496, 1) 9007199254740993 0 ∧
    float64Is (4503599627370496, 1) 9007199254740992 0 :=
  ⟨⟨by decide, by decide⟩, by rfl, by rfl, by decide, by decide⟩

/-- C10: for every comment text `cm` without a newline and every source `r`:
scanning `//`, `cm`, a newline and `r` succeeds exactly when scanning `r`
succeeds, and then returns the tokens of `r` (same order, kinds, lexemes and
literals) with every line number raised by one; and scanning `//` followed by
`cm` alone returns only the `EOF` token, at line 1. -/
theorem C10_line_comment (ParseFloat : List Char → Except String ν) (cm r : List Char)
    (hcm : newline ∉ cm) :
    (∀ s2 toks, (NewScanner r).ScanTokens ParseFloat = Except.ok (s2, toks, none) →
      ∃ s1, (NewScanner ('/' :: '/' :: cm ++ newline :: r)).ScanTokens ParseFloat =
        Except.ok (s1, toks.map (bumpLine 1), none)) ∧
    (∀ s1 toks1,
      (NewScanner ('/' :: '/' :: cm ++ newline :: r)).ScanTokens ParseFloat =
        Except.ok (s1, toks1, none) →
      ∃ s2 toks, (NewScanner r).ScanTokens ParseFloat = Except.ok (s2, toks, none) ∧
        toks1 = toks.map (bumpLine 1)) ∧
    (∃ s1, (NewScanner ('/' :: '/' :: cm)).ScanTokens ParseFloat =
      Except.ok (s1, [⟨TokenType.EOF, [], Literal.str [], 1⟩], none)) := by
  have hb : (NewScanner ('/' :: '/' :: cm ++ newline :: r) : scanner ν).budget =
      cm.length + r.length + 2 + 2 := by
    simp [scanner.budget, NewScanner]
    omega
  have hpre := scanLoop_comment_line ParseFloat cm r hcm (cm.length + r.length + 2)
  rw [← hb] at hpre
  have hsim : Sim 1 (((NewScanner ('/' :: '/' :: cm ++ newline :: r) : scanner ν).skip
      (2 + cm.length) 0).skip 1 1) (NewScanner r) := by
    refine ⟨?_, rfl, rfl⟩
    rw [skip_rest, skip_rest, NewScanner_rest, NewScanner_rest, Nat.add_comm 2]
    simp
  have hfuel : scanner.scanLoop ParseFloat (cm.length + r.length + 2) (NewScanner r) =
      scanner.scanLoop ParseFloat (NewScanner r : scanner ν).budget (NewScanner r) :=
    scanLoop_fuel_irrelevant ParseFloat _ _ _
      (by rw [NewScanner_rest]; omega)
      (by rw [NewScanner_rest]; simp [scanner.budget, NewScanner])
  have hs := scanLoop_sim ParseFloat 1 (cm.length + r.length + 2) _ _ hsim
  rw [hfuel] at hs
  have key : ∀ v', scanner.scanLoop ParseFloat (NewScanner r : scanner ν).budget
      (NewScanner r) = Except.ok (v', none) →
      ∃ s1, (NewScanner ('/' :: '/' :: cm ++ newline :: r)).ScanTokens ParseFloat =
        Except.ok (s1, (v'.tokens ++ [eofToken v'.line]).map (bumpLine 1), none) := by
    intro v' hv
    rw [hv] at hs
    obtain ⟨u', hu, _, hl, ht⟩ := hs
    rw [← hpre] at hu
    have e : List.map (bumpLine 1) v'.tokens ++ [eofToken (v'.line + 1)] =
        (v'.tokens ++ [eofToken v'.line]).map (bumpLine 1) := by
      simp [bumpLine, eofToken]
    rw [ScanTokens_of_loop_ok ParseFloat _ _ hu, ht, hl, e]
    exact ⟨_, rfl⟩
  refine ⟨?_, ?_, ?_⟩
  · intro s2 toks h
    obtain ⟨v', hv, htoks, _⟩ := (ScanTokens_ok_iff ParseFloat _ _ _).mp h
    obtain ⟨s1, h1⟩ := key v' hv
    refine ⟨s1, ?_⟩
    rw [h1, htoks]
    rfl
  · intro s1 toks1 h
    obtain ⟨u', hu, htoks, _⟩ := (ScanTokens_ok_iff ParseFloat _ _ _).mp h
    rw [hpre] at hu
    cases hv : scanner.scanLoop ParseFloat (NewScanner r : scanner ν).budget (NewScanner r) with
    | error a =>
      rw [hv] at hs
      rw [hu] at hs
      simp at hs
    | ok res =>
      obtain ⟨v', err⟩ := res
      cases err with
      | some e =>
        rw [hv] at hs
        obtain ⟨u2, e2, h2⟩ := hs
        rw [hu] at h2
        simp at h2
      | none =>
        obtain ⟨s1', h1⟩ := key v' hv
        rw [h] at h1
        simp only [Except.ok.injEq, Prod.mk.injEq, and_true] at h1
        refine ⟨_, _, ScanTokens_of_loop_ok ParseFloat _ _ hv, ?_⟩
        rw [h1.2]
  · have hp : ∀ x ∈ cm, (fun x => x != newline) x = true := by
      intro x hx
      have : x ≠ newline := fun e => hcm (e ▸ hx)
      simpa using this
    have hr0 := @NewScanner_rest ν ('/' :: '/' :: cm)
    have hloop : scanner.scanLoop ParseFloat (NewScanner ('/' :: '/' :: cm) : scanner ν).budget
        (NewScanner ('/' :: '/' :: cm)) =
        Except.ok ((NewScanner ('/' :: '/' :: cm) : scanner ν).skip (2 + cm.length) 0,
          none) := by
      have hb3 : (NewScanner ('/' :: '/' :: cm) : scanner ν).budget = cm.length + 2 + 1 := rfl
      rw [hb3, scanLoop_cons ParseFloat _ _ _ _ hr0, lexUnit_comment, takeWhile_all _ cm hp]
      simp only
      apply scanLoop_nil
      rw [skip_rest, hr0, Nat.add_comm 2]
      simp
    rw [ScanTokens_of_loop_ok ParseFloat _ _ hloop]
    exact ⟨_, rfl⟩

theorem C10_line_comment_witness :
    newline ∉ " comment".toList ∧
    (∃ s1, (NewScanner ('/' :: '/' :: " comment".toList ++ newline :: "123".toList)).ScanTokens
        readDecimal =
      Except.ok (s1,
        [⟨TokenType.NUMBER, "123".toList, Literal.num (123, 0), 1⟩,
         ⟨TokenType.EOF, [], Literal.str [], 1⟩].map (bumpLine 1), none)) ∧
    (NewScanner "// comment\n123".toList).ScanTokens readDecimal =
      Except.ok (⟨"// comment\n123".toList, 11, 14, 2,
        [⟨TokenType.NUMBER, "123".toList, Literal.num (123, 0), 2⟩,
         ⟨TokenType.EOF, [], Literal.str [], 2⟩]⟩,
        [⟨TokenType.NUMBER, "123".toList, Literal.num (123, 0), 2⟩,
         ⟨TokenType.EOF, [], Literal.str [], 2⟩], none) :=
  ⟨by decide,
   (C10_line_comment readDecimal " comment".toList "123".toList (by decide)).1
     ⟨"123".toList, 0, 3, 1,
       [⟨TokenType.NUMBER, "123".toList, Literal.num (123, 0), 1⟩,
        ⟨TokenType.EOF, [], Literal.str [], 1⟩]⟩ _ rfl,
   rfl⟩

/-- C5: for every source without a double quote and without two adjacent
slashes, all of whose numeric literals `ParseFloat` accepts, and that holds a
byte that starts no lexical unit (`b`, the first one, after the plain bytes `g`),
`ScanTokens` returns no token and the error whose text is
`[line N] Error : Unexpected character.`, `N` being 1 plus the number of
newlines before that byte. -/
theorem C5_unexpected_character (ParseFloat : List Char → Except String ν)
    (g : List Char) (b : Char) (r : List Char)
    (hg : ∀ x ∈ g, plainByte x = true) (hb : plainByte b = false)
    (hq : dquote ∉ g ++ b :: r) (hss : ¬ ['/', '/'] <:+: g ++ b :: r)
    (hnum : ∀ t ∈ numericLiterals (g ++ b :: r), ∃ v, ParseFloat t = Except.ok v) :
    ∃ s', (NewScanner (g ++ b :: r)).ScanTokens ParseFloat =
      Except.ok (s', [], some ("[line " ++ Nat.repr (1 + g.count newline) ++
        "] Error : Unexpected character.")) := by
  have hbq : b ≠ dquote := by
    intro e
    apply hq
    rw [e]
    simp
  obtain ⟨s', hs'⟩ := scanLoop_plain ParseFloat b r hb hbq g.length g
    (NewScanner (g ++ b :: r)) (NewScanner (g ++ b :: r) : scanner ν).budget
    (Nat.le_refl _) (by simp [scanner.budget, NewScanner]; omega)
    (NewScanner_rest _) hg hss hnum
  refine ⟨s', ?_⟩
  rw [ScanTokens_of_loop_error ParseFloat _ _ _ hs', Error_unexpected]
  rfl

set_option maxRecDepth 100000 in
set_option exponentiation.threshold 2000 in
theorem C5_unexpected_character_witness :
    ((∀ x ∈ '0' :: '.' :: List.replicate 310 '9', plainByte x = true) ∧
      plainByte '@' = false ∧
      dquote ∉ ('0' :: '.' :: List.replicate 310 '9') ++ '@' :: [] ∧
      ¬ ['/', '/'] <:+: ('0' :: '.' :: List.replicate 310 '9') ++ '@' :: [] ∧
      numericLiterals (('0' :: '.' :: List.replicate 310 '9') ++ '@' :: []) =
        ['0' :: '.' :: List.replicate 310 '9'] ∧
      (∃ v, ParseFloat64 ('0' :: '.' :: List.replicate 310 '9') = Except.ok v) ∧
      (∃ e, ParseFloat64 (List.replicate 310 '9') = Except.error e)) ∧
    (∃ s', (NewScanner (('0' :: '.' :: List.replicate 310 '9') ++ '@' :: [])).ScanTokens
        ParseFloat64 =
      Except.ok (s', [], some ("[line " ++
        Nat.repr (1 + ('0' :: '.' :: List.replicate 310 '9').count newline) ++
        "] Error : Unexpected character."))) ∧
    (NewScanner "@".toList).ScanTokens readDecimal =
      Except.ok (⟨"@".toList, 0, 1, 1, []⟩, [],
        some "[line 1] Error : Unexpected character.") :=
  ⟨⟨by decide, by decide, by decide, by decide, by rfl, ⟨_, by rfl⟩, ⟨_, by rfl⟩⟩,
   C5_unexpected_character ParseFloat64 ('0' :: '.' :: List.replicate 310 '9') '@' []
     (by decide) (by decide) (by decide) (by decide)
     (fun t ht => by
       have e : numericLiterals (('0' :: '.' :: List.replicate 310 '9') ++ '@' :: []) =
           ['0' :: '.' :: List.replicate 310 '9'] := by rfl
       rw [e, List.mem_singleton] at ht
       rw [ht]
       exact ⟨_, by rfl⟩),
   rfl⟩

/-- C11: for every source `r`: prefixing `r` with one space, tab or carriage
return leaves what `ScanTokens` returns unchanged (the same tokens with the same
lines and the same error, or the same panic); and when `ScanTokens` succeeds on
`r`, it succeeds on a newline followed by `r` and returns the same tokens with
every line number, that of `EOF` included, raised by exactly one. -/
theorem C11_leading_white_space (ParseFloat : List Char → Except String ν) (r : List Char) :
    (∀ c, c = ' ' ∨ c = '\t' ∨ c = '\r' →
      (NewScanner (c :: r)).result ParseFloat = (NewScanner r).result ParseFloat) ∧
    (∀ s2 toks, (NewScanner r).ScanTokens ParseFloat = Except.ok (s2, toks, none) →
      ∃ s1, (NewScanner (newline :: r)).ScanTokens ParseFloat =
        Except.ok (s1, toks.map (bumpLine 1), none)) := by
  have hb : (NewScanner r : scanner ν).budget = r.length + 1 := rfl
  refine ⟨?_, ?_⟩
  · intro c hc
    rw [result_after_skip ParseFloat c r 0 (lexUnit_blank ParseFloat 1 c r hc), result_eq, hb]
    have hsame : Same ((NewScanner (c :: r) : scanner ν).skip 1 0) (NewScanner r) := by
      refine ⟨?_, rfl, rfl⟩
      rw [skip_rest, NewScanner_rest, NewScanner_rest]
      rfl
    have hs := scanLoop_same ParseFloat (r.length + 1) _ _ hsame
    cases hv : scanner.scanLoop ParseFloat (r.length + 1) (NewScanner r : scanner ν) with
    | error a =>
      rw [hv] at hs
      rw [hs]
    | ok res =>
      obtain ⟨v', err⟩ := res
      rw [hv] at hs
      obtain ⟨u', hu, _, hl, ht⟩ := hs
      rw [hu]
      cases err with
      | none => simp only [ht, hl]
      | some e => rfl
  · intro s2 toks h
    obtain ⟨v', hv, htoks, _⟩ := (ScanTokens_ok_iff ParseFloat _ _ _).mp h
    rw [hb] at hv
    have hsim : Sim 1 ((NewScanner (newline :: r) : scanner ν).skip 1 1) (NewScanner r) := by
      refine ⟨?_, rfl, rfl⟩
      rw [skip_rest, NewScanner_rest, NewScanner_rest]
      rfl
    have hs := scanLoop_sim ParseFloat 1 (r.length + 1) _ _ hsim
    rw [hv] at hs
    obtain ⟨u', hu, _, hl, ht⟩ := hs
    have hloop : scanner.scanLoop ParseFloat (NewScanner (newline :: r) : scanner ν).budget
        (NewScanner (newline :: r)) = Except.ok (u', none) := by
      have hb2 : (NewScanner (newline :: r) : scanner ν).budget = r.length + 1 + 1 := rfl
      have hl2 : (NewScanner (newline :: r) : scanner ν).line = 1 := rfl
      rw [hb2, scanLoop_cons ParseFloat _ _ newline r (NewScanner_rest _), hl2, lexUnit_newline]
      exact hu
    have e : List.map (bumpLine 1) v'.tokens ++ [eofToken (v'.line + 1)] =
        (v'.tokens ++ [eofToken v'.line]).map (bumpLine 1) := by
      simp [bumpLine, eofToken]
    rw [ScanTokens_of_loop_ok ParseFloat _ _ hloop, ht, hl, e, htoks]
    exact ⟨_, rfl⟩

theorem C11_leading_white_space_witness :
    ((' ' = ' ' ∨ ' ' = '\t' ∨ ' ' = '\r') ∧
      (NewScanner "(\n@".toList).ScanTokens readDecimal =
        Except.ok (⟨"(\n@".toList, 2, 3, 2, [⟨TokenType.LEFT_PAREN, "(".toList, Literal.null, 1⟩]⟩,
          [], some "[line 2] Error : Unexpected character.") ∧
      (NewScanner "a".toList).ScanTokens readDecimal =
        Except.ok (⟨"a".toList, 0, 1, 1,
          [⟨TokenType.IDENTIFIER, "a".toList, Literal.null, 1⟩,
           ⟨TokenType.EOF, [], Literal.str [], 1⟩]⟩,
          [⟨TokenType.IDENTIFIER, "a".toList, Literal.null, 1⟩,
           ⟨TokenType.EOF, [], Literal.str [], 1⟩], none)) ∧
    (NewScanner (' ' :: "(\n@".toList)).result readDecimal =
      (NewScanner "(\n@".toList).result readDecimal ∧
    (∃ s1, (NewScanner (newline :: "a".toList)).ScanTokens readDecimal =
      Except.ok (s1, [⟨TokenType.IDENTIFIER, "a".toList, Literal.null, 1⟩,
        ⟨TokenType.EOF, [], Literal.str [], 1⟩].map (bumpLine 1), none)) ∧
    (NewScanner "\na".toList).ScanTokens readDecimal =
      Except.ok (⟨"\na".toList, 1, 2, 2,
        [⟨TokenType.IDENTIFIER, "a".toList, Literal.null, 2⟩,
         ⟨TokenType.EOF, [], Literal.str [], 2⟩]⟩,
        [⟨TokenType.IDENTIFIER, "a".toList, Literal.null, 2⟩,
         ⟨TokenType.EOF, [], Literal.str [], 2⟩], none) :=
  ⟨⟨Or.inl rfl, rfl, rfl⟩,
   (C11_leading_white_space readDecimal "(\n@".toList).1 ' ' (Or.inl rfl),
   (C11_leading_white_space readDecimal "a".toList).2 _ _ rfl,
   rfl⟩

/-- C12: on every source on which `ScanTokens` of a fresh scanner succeeds, the
tokens before the last one carry a numeric literal when their kind is `NUMBER`
and no literal (nil) when it is not, and none has kind `STRING`; but the last
token, `EOF`, does carry a literal: the empty string, which is not nil. -/
theorem C12_EOF_literal_is_empty_string (ParseFloat : List Char → Except String ν)
    (src : List Char) (s' : scanner ν) (toks : List (Token ν))
    (h : (NewScanner src).ScanTokens ParseFloat = Except.ok (s', toks, none)) :
    ∃ init last, toks = init ++ [last] ∧
      (∀ t ∈ init, (t.TokenType = TokenType.NUMBER ∧ ∃ v, t.Literal = Literal.num v) ∨
        (t.TokenType ≠ TokenType.NUMBER ∧ t.TokenType ≠ TokenType.STRING ∧
          t.Literal = Literal.null)) ∧
      last.TokenType = TokenType.EOF ∧ last.Literal = Literal.str [] ∧
      last.Literal ≠ Literal.null := by
  obtain ⟨s1, hl, ht, _⟩ := (ScanTokens_ok_iff ParseFloat _ _ _).mp h
  obtain ⟨new, hn, hall⟩ := scanLoop_tokens_all ParseFloat
    (fun t => (t.TokenType = TokenType.NUMBER ∧ ∃ v, t.Literal = Literal.num v) ∨
      (t.TokenType ≠ TokenType.NUMBER ∧ t.TokenType ≠ TokenType.STRING ∧
        t.Literal = Literal.null))
    (fun _ _ _ _ _ _ hu => (lexUnit_token_shape hu).2) _ _ _ hl
  refine ⟨s1.tokens, _, ht, ?_, rfl, rfl, by simp⟩
  intro t hmem
  rw [hn] at hmem
  simp only [NewScanner, List.nil_append] at hmem
  exact hall t hmem

theorem C12_EOF_literal_is_empty_string_witness :
    (NewScanner ([] : List Char)).ScanTokens readDecimal =
      Except.ok (⟨[], 0, 0, 1, [⟨TokenType.EOF, [], Literal.str [], 1⟩]⟩,
        [⟨TokenType.EOF, [], Literal.str [], 1⟩], none) ∧
    ∃ (init : List (Token (Nat × Nat))) (last : Token (Nat × Nat)),
      [⟨TokenType.EOF, [], Literal.str [], 1⟩] = init ++ [last] ∧
      (∀ t ∈ init, (t.TokenType = TokenType.NUMBER ∧ ∃ v, t.Literal = Literal.num v) ∨
        (t.TokenType ≠ TokenType.NUMBER ∧ t.TokenType ≠ TokenType.STRING ∧
          t.Literal = Literal.null)) ∧
      last.TokenType = TokenType.EOF ∧ last.Literal = Literal.str [] ∧
      last.Literal ≠ Literal.null :=
  ⟨rfl, C12_EOF_literal_is_empty_string readDecimal [] _ _ rfl⟩

/-- C13: for every source on which `ScanTokens` of a fresh scanner succeeds,
with the tokens `init` before the final `EOF`: every lexeme of `init` is not
empty, and the source is the concatenation of a sequence of pieces, each a
white-space byte (space, tab, carriage return, newline), a line comment (two
slashes and the text up to, and without, the next newline or the end of the
source) or a lexeme, the lexemes among the pieces being, in order, exactly the
lexemes of `init`. The gaps are the runs of white space and comments between
the lexemes. -/
theorem C13_lexemes_and_gaps (ParseFloat : List Char → Except String ν)
    (src : List Char) (s' : scanner ν) (toks : List (Token ν))
    (h : (NewScanner src).ScanTokens ParseFloat = Except.ok (s', toks, none)) :
    ∃ init last ps, toks = init ++ [last] ∧ last.TokenType = TokenType.EOF ∧
      (∀ tk ∈ init, tk.Lexeme ≠ []) ∧
      wellFormed ps = true ∧ piecesText ps = src ∧
      piecesLexemes ps = init.map Token.Lexeme := by
  obtain ⟨init, last, ps, h1, h2, h3, h4, h5, _⟩ := ScanTokens_pieces ParseFloat src s' toks h
  have hlex : piecesLexemes ps = init.map Token.Lexeme := by
    rw [← startLines_fst ps 1, ← h5, List.map_map]
    rfl
  refine ⟨init, last, ps, h1, h2, ?_, h3, h4, hlex⟩
  intro tk htk
  apply wellFormed_lexeme_ne_nil ps h3
  rw [hlex]
  exact List.mem_map_of_mem _ htk

theorem C13_lexemes_and_gaps_witness :
    (NewScanner "a //x\n1".toList).ScanTokens readDecimal =
      Except.ok (⟨"a //x\n1".toList, 6, 7, 2,
        [⟨TokenType.IDENTIFIER, "a".toList, Literal.null, 1⟩,
         ⟨TokenType.NUMBER, "1".toList, Literal.num (1, 0), 2⟩,
         ⟨TokenType.EOF, [], Literal.str [], 2⟩]⟩,
        [⟨TokenType.IDENTIFIER, "a".toList, Literal.null, 1⟩,
         ⟨TokenType.NUMBER, "1".toList, Literal.num (1, 0), 2⟩,
         ⟨TokenType.EOF, [], Literal.str [], 2⟩], none) ∧
    (∃ (init : List (Token (Nat × Nat))) (last : Token (Nat × Nat)) (ps : List Piece),
      [⟨TokenType.IDENTIFIER, "a".toList, Literal.null, 1⟩,
       ⟨TokenType.NUMBER, "1".toList, Literal.num (1, 0), 2⟩,
       ⟨TokenType.EOF, [], Literal.str [], 2⟩] = init ++ [last] ∧
      last.TokenType = TokenType.EOF ∧ (∀ tk ∈ init, tk.Lexeme ≠ []) ∧
      wellFormed ps = true ∧ piecesText ps = "a //x\n1".toList ∧
      piecesLexemes ps = init.map Token.Lexeme) ∧
    (wellFormed [Piece.lexeme "a".toList, Piece.blank ' ', Piece.comment "x".toList,
        Piece.blank newline, Piece.lexeme "1".toList] = true ∧
      piecesText [Piece.lexeme "a".toList, Piece.blank ' ', Piece.comment "x".toList,
        Piece.blank newline, Piece.lexeme "1".toList] = "a //x\n1".toList ∧
      piecesLexemes [Piece.lexeme "a".toList, Piece.blank ' ', Piece.comment "x".toList,
        Piece.blank newline, Piece.lexeme "1".toList] = ["a".toList, "1".toList]) :=
  ⟨rfl, C13_lexemes_and_gaps readDecimal "a //x\n1".toList _ _ rfl, by decide, by decide,
    by decide⟩

/-- C14: for every source on which `ScanTokens` of a fresh scanner succeeds,
cut into its pieces (white-space bytes, line comments and the lexemes of the
tokens before `EOF`, in order): the token of each lexeme piece has as line 1
plus the number of newlines of the text of the pieces before it, that is, of
the part of the source before the first byte of the lexeme. -/
theorem C14_line_of_first_byte (ParseFloat : List Char → Except String ν)
    (src : List Char) (s' : scanner ν) (toks : List (Token ν))
    (h : (NewScanner src).ScanTokens ParseFloat = Except.ok (s', toks, none)) :
    ∃ init last ps, toks = init ++ [last] ∧ last.TokenType = TokenType.EOF ∧
      wellFormed ps = true ∧ piecesText ps = src ∧
      piecesLexemes ps = init.map Token.Lexeme ∧
      ∀ pre l post, ps = pre ++ Piece.lexeme l :: post →
        ∃ tk, init[(piecesLexemes pre).length]? = some tk ∧ tk.Lexeme = l ∧
          tk.Line = 1 + newlines (piecesText pre) := by
  obtain ⟨init, last, ps, h1, h2, h3, h4, h5, _⟩ := ScanTokens_pieces ParseFloat src s' toks h
  have hlex : piecesLexemes ps = init.map Token.Lexeme := by
    rw [← startLines_fst ps 1, ← h5, List.map_map]
    rfl
  refine ⟨init, last, ps, h1, h2, h3, h4, hlex, ?_⟩
  intro pre l post hps
  have hs := startLines_split pre l post 1
  rw [← hps, ← h5, List.getElem?_map] at hs
  cases hg : init[(piecesLexemes pre).length]? with
  | none => rw [hg] at hs; simp at hs
  | some tk =>
    rw [hg] at hs
    simp only [Option.map_some', Option.some.injEq, Prod.mk.injEq] at hs
    exact ⟨tk, rfl, hs.1, hs.2⟩

theorem C14_line_of_first_byte_witness :
    (NewScanner "a //x\n1".toList).ScanTokens readDecimal =
      Except.ok (⟨"a //x\n1".toList, 6, 7, 2,
        [⟨TokenType.IDENTIFIER, "a".toList, Literal.null, 1⟩,
         ⟨TokenType.NUMBER, "1".toList, Literal.num (1, 0), 2⟩,
         ⟨TokenType.EOF, [], Literal.str [], 2⟩]⟩,
        [⟨TokenType.IDENTIFIER, "a".toList, Literal.null, 1⟩,
         ⟨TokenType.NUMBER, "1".toList, Literal.num (1, 0), 2⟩,
         ⟨TokenType.EOF, [], Literal.str [], 2⟩], none) ∧
    (∃ (init : List (Token (Nat × Nat))) (last : Token (Nat × Nat)) (ps : List Piece),
      [⟨TokenType.IDENTIFIER, "a".toList, Literal.null, 1⟩,
       ⟨TokenType.NUMBER, "1".toList, Literal.num (1, 0), 2⟩,
       ⟨TokenType.EOF, [], Literal.str [], 2⟩] = init ++ [last] ∧
      last.TokenType = TokenType.EOF ∧
      wellFormed ps = true ∧ piecesText ps = "a //x\n1".toList ∧
      piecesLexemes ps = init.map Token.Lexeme ∧
      ∀ pre l post, ps = pre ++ Piece.lexeme l :: post →
        ∃ tk, init[(piecesLexemes pre).length]? = some tk ∧ tk.Lexeme = l ∧
          tk.Line = 1 + newlines (piecesText pre)) ∧
    1 + newlines "a //x\n".toList = 2 :=
  ⟨rfl, C14_line_of_first_byte readDecimal "a //x\n1".toList _ _ rfl, by decide⟩

/-- C15, as amended: for every byte `x` other than `=`, the scan of `!`
followed by `x` starts with a `BANG` token of lexeme `!`, and then: when `x` is
a white-space byte, `EOF` alone follows (on line 2 after a newline); when `x` is
a punctuation or operator byte, a letter, an underscore or a digit (whose
numeral `ParseFloat` accepts), one token of lexeme `x` and `EOF` follow; when
`x` is any other byte except the double quote, the scan returns no token and the
error `Unexpected character.`. And the scan of `!=` yields a `BANG_EQUAL` token
of lexeme `!=`, then `EOF`. -/
theorem C15_bang_then_byte (ParseFloat : List Char → Except String ν) (x : Char)
    (hx : x ≠ '=') (hnum : isDigit x = true → ∃ v, ParseFloat [x] = Except.ok v) :
    (blankByte x = true → ∃ s', (NewScanner ['!', x]).ScanTokens ParseFloat =
      Except.ok (s', [⟨TokenType.BANG, ['!'], Literal.null, 1⟩,
        ⟨TokenType.EOF, [], Literal.str [], if x = newline then 2 else 1⟩], none)) ∧
    (plainByte x = true → blankByte x = false →
      ∃ s' kind literal, (NewScanner ['!', x]).ScanTokens ParseFloat =
        Except.ok (s', [⟨TokenType.BANG, ['!'], Literal.null, 1⟩, ⟨kind, [x], literal, 1⟩,
          ⟨TokenType.EOF, [], Literal.str [], 1⟩], none)) ∧
    (plainByte x = false → x ≠ dquote →
      ∃ s', (NewScanner ['!', x]).ScanTokens ParseFloat =
        Except.ok (s', [], some (Error 1 "" "Unexpected character."))) ∧
    (∃ s', (NewScanner ['!', '=']).ScanTokens ParseFloat =
      Except.ok (s', [⟨TokenType.BANG_EQUAL, ['!', '='], Literal.null, 1⟩,
        ⟨TokenType.EOF, [], Literal.str [], 1⟩], none)) := by
  have hloop := scanLoop_bang ParseFloat x hx
  refine ⟨?_, ?_, ?_, ?_⟩
  · intro hb
    rw [lexUnit_blankByte ParseFloat 1 x [] hb] at hloop
    simp only at hloop
    rw [scanLoop_nil ParseFloat 0 _ (by rw [skip_rest, emit_rest, NewScanner_rest]; rfl)]
      at hloop
    rw [ScanTokens_of_loop_ok ParseFloat _ _ hloop]
    have htoks : (((NewScanner ['!', x] : scanner ν).emit 1 TokenType.BANG Literal.null).skip 1
          (if x = newline then 1 else 0)).tokens ++
        [eofToken (((NewScanner ['!', x] : scanner ν).emit 1 TokenType.BANG Literal.null).skip 1
          (if x = newline then 1 else 0)).line] =
        [⟨TokenType.BANG, ['!'], Literal.null, 1⟩,
          ⟨TokenType.EOF, [], Literal.str [], if x = newline then 2 else 1⟩] := by
      by_cases hn : x = newline <;> simp [eofToken, NewScanner, scanner.rest, hn]
    rw [htoks]
    exact ⟨_, rfl⟩
  · intro hp hb
    obtain ⟨n, kind, literal, hu⟩ := lexUnit_token_of_plain ParseFloat 1 x [] hp hb
      (by simp) (by
        intro hd
        have hn : numeralLength [x] = 1 :=
          numeralLength_digits [x] (by simpa using hd)
        rw [hn]
        exact hnum hd)
    obtain ⟨h1, h2, _, _⟩ := lexUnit_token_sound hu
    have hn1 : n = 1 := by
      simp only [List.length_nil] at h2
      omega
    subst hn1
    rw [hu] at hloop
    simp only at hloop
    rw [scanLoop_nil ParseFloat 0 _ (by rw [emit_rest, emit_rest, NewScanner_rest]; rfl)]
      at hloop
    rw [ScanTokens_of_loop_ok ParseFloat _ _ hloop]
    have htoks : (((NewScanner ['!', x] : scanner ν).emit 1 TokenType.BANG Literal.null).emit 1
          kind literal).tokens ++
        [eofToken (((NewScanner ['!', x] : scanner ν).emit 1 TokenType.BANG Literal.null).emit 1
          kind literal).line] =
        [⟨TokenType.BANG, ['!'], Literal.null, 1⟩, ⟨kind, [x], literal, 1⟩,
          ⟨TokenType.EOF, [], Literal.str [], 1⟩] := by
      simp [eofToken, NewScanner, scanner.rest, scanner.emit]
    rw [htoks]
    exact ⟨_, _, _, rfl⟩
  · intro hp hq
    rw [lexUnit_bad ParseFloat 1 x [] hp hq] at hloop
    simp only at hloop
    rw [ScanTokens_of_loop_error ParseFloat _ _ _ hloop]
    exact ⟨_, rfl⟩
  · apply scan_one_token
    simp [lexUnit]

theorem C15_bang_then_byte_witness :
    ('a' ≠ '=' ∧ (isDigit 'a' = true → ∃ v, readDecimal ['a'] = Except.ok v) ∧
      plainByte 'a' = true ∧ blankByte 'a' = false) ∧
    (∃ s' kind literal, (NewScanner ['!', 'a']).ScanTokens readDecimal =
      Except.ok (s', [⟨TokenType.BANG, ['!'], Literal.null, 1⟩, ⟨kind, ['a'], literal, 1⟩,
        ⟨TokenType.EOF, [], Literal.str [], 1⟩], none)) ∧
    (NewScanner ['!', 'a']).ScanTokens readDecimal =
      Except.ok (⟨['!', 'a'], 1, 2, 1,
        [⟨TokenType.BANG, ['!'], Literal.null, 1⟩,
         ⟨TokenType.IDENTIFIER, ['a'], Literal.null, 1⟩,
         ⟨TokenType.EOF, [], Literal.str [], 1⟩]⟩,
        [⟨TokenType.BANG, ['!'], Literal.null, 1⟩,
         ⟨TokenType.IDENTIFIER, ['a'], Literal.null, 1⟩,
         ⟨TokenType.EOF, [], Literal.str [], 1⟩], none) :=
  ⟨⟨by decide, fun h => absurd h (by decide), by decide, by decide⟩,
   (C15_bang_then_byte readDecimal 'a' (by decide) (fun h => absurd h (by decide))).2.1
     (by decide) (by decide),
   rfl⟩

/-- C15, as stated, fails for the space: the scan of `!` followed by a space
yields `BANG` and `EOF` only, so no separate token has the space as lexeme. -/
theorem C15_counterexample :
    ' ' ≠ '=' ∧
    (NewScanner ['!', ' ']).ScanTokens readDecimal =
      Except.ok (⟨['!', ' '], 1, 2, 1,
        [⟨TokenType.BANG, ['!'], Literal.null, 1⟩, ⟨TokenType.EOF, [], Literal.str [], 1⟩]⟩,
        [⟨TokenType.BANG, ['!'], Literal.null, 1⟩, ⟨TokenType.EOF, [], Literal.str [], 1⟩],
        none) ∧
    ¬ ∃ (s' : scanner (Nat × Nat)) (bang other eof : Token (Nat × Nat)),
      (NewScanner ['!', ' ']).ScanTokens readDecimal =
        Except.ok (s', [bang, other, eof], none) ∧
      bang.TokenType = TokenType.BANG ∧ other.Lexeme = [' '] ∧
      eof.TokenType = TokenType.EOF := by
  refine ⟨by decide, rfl, ?_⟩
  rintro ⟨s', bang, other, eof, h, _⟩
  have h0 : (NewScanner ['!', ' ']).ScanTokens readDecimal =
      Except.ok (⟨['!', ' '], 1, 2, 1,
        [⟨TokenType.BANG, ['!'], Literal.null, 1⟩, ⟨TokenType.EOF, [], Literal.str [], 1⟩]⟩,
        [⟨TokenType.BANG, ['!'], Literal.null, 1⟩, ⟨TokenType.EOF, [], Literal.str [], 1⟩],
        none) := rfl
  rw [h0] at h
  simp at h

set_option exponentiation.threshold 2000 in
/-- C16, as amended: numeric parse failure can occur, by range only. For every
text the numeric-literal routine matches (digits, or digits, a dot and digits),
of decimal value `n / 10^k`: when the value is below `2^1024 - 2^970`, as it is
whenever there are at most 308 digits before the dot, `strconv.ParseFloat`
accepts the text and the scan of it yields a `NUMBER` token and `EOF`; when the
value reaches that bound, `strconv.ParseFloat` returns the error
`value out of range`, `number` returns it, and `ScanTokens` fails with it and
returns no token. -/
theorem C16_parse_failure_is_range_error (text : List Char) (h : isNumeral text = true) :
    ∃ n k, readDecimal text = Except.ok (n, k) ∧
      ((text.takeWhile isDigit).length ≤ 308 → n < float64Bound * 10 ^ k) ∧
      (n < float64Bound * 10 ^ k →
        ParseFloat64 text = Except.ok (n, k) ∧
        ∃ s', (NewScanner text).ScanTokens ParseFloat64 =
          Except.ok (s', [⟨TokenType.NUMBER, text, Literal.num (n, k), 1⟩,
            ⟨TokenType.EOF, [], Literal.str [], 1⟩], none)) ∧
      (float64Bound * 10 ^ k ≤ n →
        ParseFloat64 text = Except.error (rangeError text) ∧
        ∃ s', (NewScanner text).ScanTokens ParseFloat64 =
          Except.ok (s', [], some (rangeError text))) := by
  obtain ⟨n, k, hr, hlt⟩ := readDecimal_lt text h
  obtain ⟨hok, herr⟩ := scan_numeral ParseFloat64 text h
  refine ⟨n, k, hr, ?_, ?_, ?_⟩
  · intro hlen
    calc n < 10 ^ ((text.takeWhile isDigit).length + k) := hlt
      _ ≤ 10 ^ (308 + k) := Nat.pow_le_pow_right (by norm_num) (by omega)
      _ = 10 ^ 308 * 10 ^ k := Nat.pow_add 10 308 k
      _ ≤ float64Bound * 10 ^ k := Nat.mul_le_mul_right _ float64Bound_ge
  · intro hn
    have hp : ParseFloat64 text = Except.ok (n, k) := by
      unfold ParseFloat64
      rw [if_pos h, hr]
      simp only
      rw [if_neg (by omega)]
    exact ⟨hp, hok _ hp⟩
  · intro hn
    have hp : ParseFloat64 text = Except.error (rangeError text) := by
      unfold ParseFloat64
      rw [if_pos h, hr]
      simp only
      rw [if_pos hn]
    exact ⟨hp, herr _ hp⟩

theorem C16_parse_failure_is_range_error_witness :
    isNumeral "1.5".toList = true ∧
    ∃ n k, readDecimal "1.5".toList = Except.ok (n, k) ∧
      (("1.5".toList.takeWhile isDigit).length ≤ 308 → n < float64Bound * 10 ^ k) ∧
      (n < float64Bound * 10 ^ k →
        ParseFloat64 "1.5".toList = Except.ok (n, k) ∧
        ∃ s', (NewScanner "1.5".toList).ScanTokens ParseFloat64 =
          Except.ok (s', [⟨TokenType.NUMBER, "1.5".toList, Literal.num (n, k), 1⟩,
            ⟨TokenType.EOF, [], Literal.str [], 1⟩], none)) ∧
      (float64Bound * 10 ^ k ≤ n →
        ParseFloat64 "1.5".toList = Except.error (rangeError "1.5".toList) ∧
        ∃ s', (NewScanner "1.5".toList).ScanTokens ParseFloat64 =
          Except.ok (s', [], some (rangeError "1.5".toList))) :=
  ⟨by decide, C16_parse_failure_is_range_error "1.5".toList (by decide)⟩

set_option maxRecDepth 100000 in
set_option exponentiation.threshold 2000 in
/-- C16, as stated, fails for the numeral made of `1` and 309 zeros, which the
numeric-literal routine matches: its value `10^309` is out of the range of
`float64`, `strconv.ParseFloat` returns a range error, and `ScanTokens` fails
because of this numeric literal. -/
theorem C16_counterexample :
    isNumeral ('1' :: List.replicate 309 '0') = true ∧
    ParseFloat64 ('1' :: List.replicate 309 '0') =
      Except.error (rangeError ('1' :: List.replicate 309 '0')) ∧
    ∃ s', (NewScanner ('1' :: List.replicate 309 '0')).ScanTokens ParseFloat64 =
      Except.ok (s', [], some (rangeError ('1' :: List.replicate 309 '0'))) :=
  ⟨by decide, by rfl,
   (scan_numeral ParseFloat64 ('1' :: List.replicate 309 '0') (by decide)).2 _ (by rfl)⟩

/-- C17: for every scanner state with `start = current < len(source)`, a
`scanToken` call that returns without error keeps the source and `start`, and
ends with `start < current <= len(source)` and with the line counter raised by
exactly the number of newlines of `source[start:current]`; so `current` and
`line` do not decrease. And the loop of `ScanTokens` on a fresh scanner needs no
more than `len(source) + 1` tests of `isAtEnd`, that is, runs at most
`len(source)` iterations. -/
theorem C17_cursor_and_line (ParseFloat : List Char → Except String ν) (s : scanner ν)
    (hs : s.start = s.current) (hlt : s.current < s.source.length) :
    (∀ s', s.scanToken ParseFloat = Except.ok (s', none) →
      s'.source = s.source ∧ s'.start = s.start ∧ s'.start < s'.current ∧
      s'.current ≤ s'.source.length ∧
      s'.line = s.line + newlines ((s.source.take s'.current).drop s.start) ∧
      s.current ≤ s'.current ∧ s.line ≤ s'.line) ∧
    scanner.scanLoop ParseFloat (s.source.length + 1) (NewScanner s.source : scanner ν) ≠
      Except.error Abort.outOfFuel := by
  refine ⟨?_, scanLoop_fuel_enough ParseFloat _ _ (by rw [NewScanner_rest]; omega)⟩
  intro s' h
  have hne : s.rest ≠ [] := by
    intro e
    have := congrArg List.length e
    simp [scanner.rest] at this
    omega
  obtain ⟨c, t, hr⟩ := List.exists_cons_of_ne_nil hne
  have hlen := length_le_of_rest_cons hr
  rw [scanToken_eq ParseFloat s hs, hr, lexStep] at h
  cases hu : lexUnit ParseFloat s.line c t with
  | token n kind literal =>
    rw [hu] at h
    obtain ⟨h1, h2, h3, _⟩ := lexUnit_token_sound hu
    simp only [scanner.apply, run_pure, Except.ok.injEq, Prod.mk.injEq, and_true] at h
    subst h
    refine ⟨rfl, rfl, ?_, ?_, ?_, ?_, Nat.le_refl _⟩
    · show s.start < s.current + n
      omega
    · show s.current + n ≤ s.source.length
      omega
    · show s.line = s.line + newlines ((s.source.take (s.current + n)).drop s.start)
      rw [hs, slice_rest, hr, h3, Nat.add_zero]
    · show s.current ≤ s.current + n
      omega
  | move n dl err =>
    rw [hu] at h
    obtain ⟨h1, h2, h3⟩ := lexUnit_move_sound hu
    simp only [scanner.apply, run_pure, Except.ok.injEq, Prod.mk.injEq] at h
    obtain ⟨h, _⟩ := h
    subst h
    refine ⟨rfl, rfl, ?_, ?_, ?_, ?_, ?_⟩
    · show s.start < s.current + n
      omega
    · show s.current + n ≤ s.source.length
      omega
    · show s.line + dl = s.line + newlines ((s.source.take (s.current + n)).drop s.start)
      rw [hs, slice_rest, hr, h3]
    · show s.current ≤ s.current + n
      omega
    · show s.line ≤ s.line + dl
      omega
  | panic a =>
    rw [hu] at h
    simp [scanner.apply] at h

theorem C17_cursor_and_line_witness :
    ((NewScanner "\n(".toList : scanner (Nat × Nat)).start =
        (NewScanner "\n(".toList : scanner (Nat × Nat)).current ∧
      (NewScanner "\n(".toList : scanner (Nat × Nat)).current <
        (NewScanner "\n(".toList : scanner (Nat × Nat)).source.length) ∧
    scanner.scanToken readDecimal (NewScanner "\n(".toList) =
      Except.ok (⟨"\n(".toList, 0, 1, 2, []⟩, none) ∧
    ((∀ s', scanner.scanToken readDecimal (NewScanner "\n(".toList) = Except.ok (s', none) →
      s'.source = (NewScanner "\n(".toList : scanner (Nat × Nat)).source ∧
      s'.start = (NewScanner "\n(".toList : scanner (Nat × Nat)).start ∧
      s'.start < s'.current ∧ s'.current ≤ s'.source.length ∧
      s'.line = (NewScanner "\n(".toList : scanner (Nat × Nat)).line +
        newlines (((NewScanner "\n(".toList : scanner (Nat × Nat)).source.take
          s'.current).drop (NewScanner "\n(".toList : scanner (Nat × Nat)).start) ∧
      (NewScanner "\n(".toList : scanner (Nat × Nat)).current ≤ s'.current ∧
      (NewScanner "\n(".toList : scanner (Nat × Nat)).line ≤ s'.line) ∧
    scanner.scanLoop readDecimal
      ((NewScanner "\n(".toList : scanner (Nat × Nat)).source.length + 1)
      (NewScanner (NewScanner "\n(".toList : scanner (Nat × Nat)).source :
        scanner (Nat × Nat)) ≠ Except.error Abort.outOfFuel) :=
  ⟨⟨rfl, by decide⟩, rfl,
   C17_cursor_and_line readDecimal (NewScanner "\n(".toList) rfl (by decide)⟩

/-- C18: no scan produces a `STRING` token. For every scanner state whose
cursor is at a double quote, the `scanToken` call appends no token: it returns
the error `Unterminated string` when another double quote follows in the source,
and reads the source out of range when none does. Hence on every source on which
`ScanTokens` of a fresh scanner succeeds, no token has kind `STRING`, and every
double quote of the source lies in a line comment: two slashes come before it
with no newline in between. -/
theorem C18_no_string_token (ParseFloat : List Char → Except String ν) :
    (∀ s : scanner ν, s.source[s.current]? = some dquote →
      (dquote ∈ s.source.drop (s.current + 1) →
        ∃ s', s.scanToken ParseFloat = Except.ok (s', some (Error (s.line +
            newlines ((s.source.drop (s.current + 1)).takeWhile (fun x => x != dquote))) ""
            "Unterminated string")) ∧ s'.tokens = s.tokens) ∧
      (dquote ∉ s.source.drop (s.current + 1) →
        s.scanToken ParseFloat = Except.error Abort.indexOutOfRange)) ∧
    (∀ src s' toks, (NewScanner src).ScanTokens ParseFloat = Except.ok (s', toks, none) →
      (∀ t ∈ toks, t.TokenType ≠ TokenType.STRING) ∧
      ∀ pre post, src = pre ++ dquote :: post →
        ∃ a cm, pre = a ++ '/' :: '/' :: cm ∧ newline ∉ cm) := by
  refine ⟨?_, ?_⟩
  · intro s hcur
    have hr : s.rest = dquote :: s.source.drop (s.current + 1) := drop_of_getElem? hcur
    have hst := scanToken_dquote ParseFloat s _ hr
    refine ⟨?_, ?_⟩
    · intro hin
      have hne : ¬ (s.source.drop (s.current + 1)).dropWhile (fun x => x != dquote) = [] :=
        fun e => (dropWhile_ne_eq_nil_iff dquote _).mp e hin
      rw [if_neg hne] at hst
      exact ⟨_, hst, rfl⟩
    · intro hnot
      rw [if_pos ((dropWhile_ne_eq_nil_iff dquote _).mpr hnot)] at hst
      exact hst
  · intro src s' toks h
    refine ⟨?_, ?_⟩
    · obtain ⟨s1, hl, ht, _⟩ := (ScanTokens_ok_iff ParseFloat _ _ _).mp h
      obtain ⟨new, hn, hall⟩ := scanLoop_tokens_all ParseFloat
        (fun t => t.TokenType ≠ TokenType.STRING)
        (fun line c t n kind literal hu => by
          show kind ≠ TokenType.STRING
          rcases (lexUnit_token_shape hu).2 with ⟨hk, _⟩ | ⟨_, hk, _⟩
          · rw [hk]; decide
          · exact hk) _ _ _ hl
      intro t hmem
      rw [ht] at hmem
      rcases List.mem_append.mp hmem with hm | hm
      · rw [hn] at hm
        simp only [NewScanner, List.nil_append] at hm
        exact hall t hm
      · simp only [List.mem_singleton] at hm
        rw [hm]
        show TokenType.EOF ≠ TokenType.STRING
        decide
    · obtain ⟨init, last, ps, _, _, h3, h4, _, h6⟩ := ScanTokens_pieces ParseFloat src s' toks h
      intro pre post hsrc
      exact dquote_after_slashes ps h3 h6 pre post (by rw [h4, hsrc])

theorem C18_no_string_token_witness :
    ("a\"b\"".toList[1]? = some dquote ∧ dquote ∈ "a\"b\"".toList.drop (1 + 1)) ∧
    (∃ s', scanner.scanToken readDecimal ⟨"a\"b\"".toList, 1, 1, 1, []⟩ =
      Except.ok (s', some (Error (1 + newlines (("a\"b\"".toList.drop (1 + 1)).takeWhile
        (fun x => x != dquote))) "" "Unterminated string")) ∧ s'.tokens = []) ∧
    scanner.scanToken readDecimal ⟨"a\"b\"".toList, 1, 1, 1, []⟩ =
      Except.ok (⟨"a\"b\"".toList, 1, 3, 1, []⟩, some "[line 1] Error : Unterminated string") ∧
    scanner.scanToken readDecimal ⟨"a\"b".toList, 1, 1, 1, []⟩ =
      Except.error Abort.indexOutOfRange ∧
    (NewScanner "1 // \"x\"".toList).ScanTokens readDecimal =
      Except.ok (⟨"1 // \"x\"".toList, 2, 8, 1,
        [⟨TokenType.NUMBER, "1".toList, Literal.num (1, 0), 1⟩,
         ⟨TokenType.EOF, [], Literal.str [], 1⟩]⟩,
        [⟨TokenType.NUMBER, "1".toList, Literal.num (1, 0), 1⟩,
         ⟨TokenType.EOF, [], Literal.str [], 1⟩], none) ∧
    ((∀ t ∈ ([⟨TokenType.NUMBER, "1".toList, Literal.num (1, 0), 1⟩,
         ⟨TokenType.EOF, [], Literal.str [], 1⟩] : List (Token (Nat × Nat))),
        t.TokenType ≠ TokenType.STRING) ∧
      ∀ pre post, "1 // \"x\"".toList = pre ++ dquote :: post →
        ∃ a cm, pre = a ++ '/' :: '/' :: cm ∧ newline ∉ cm) :=
  ⟨⟨rfl, by decide⟩,
   ((C18_no_string_token readDecimal).1 ⟨"a\"b\"".toList, 1, 1, 1, []⟩ rfl).1 (by decide),
   rfl, rfl, rfl,
   (C18_no_string_token readDecimal).2 "1 // \"x\"".toList _ _ rfl⟩

/-- C19: for every source made only of plain bytes (the punctuation and
operator characters, space, tab, carriage return, newline, the ASCII digits and
letters and the underscore; so without double quote) all of whose numeric
literals `ParseFloat` accepts, `ScanTokens` of a fresh scanner returns a token
sequence and no error: the run does not stop with an out-of-range read of the
source. -/
theorem C19_plain_source_scans (ParseFloat : List Char → Except String ν) (src : List Char)
    (hplain : ∀ x ∈ src, plainByte x = true)
    (hnum : ∀ t ∈ numericLiterals src, ∃ v, ParseFloat t = Except.ok v) :
    ∃ s' toks, (NewScanner src).ScanTokens ParseFloat = Except.ok (s', toks, none) := by
  obtain ⟨s1, hl⟩ := scanLoop_plain_ok ParseFloat (NewScanner src : scanner ν).budget
    (NewScanner src)
    (by rw [NewScanner_rest]; simp [scanner.budget, NewScanner])
    (by rw [NewScanner_rest]; exact hplain)
    (by rw [NewScanner_rest]; exact hnum)
  exact ⟨_, _, ScanTokens_of_loop_ok ParseFloat _ _ hl⟩

set_option maxRecDepth 100000 in
set_option exponentiation.threshold 2000 in
theorem C19_plain_source_scans_witness :
    ((∀ x ∈ 'a' :: List.replicate 400 '9' ++ ' ' :: '0' :: '.' :: List.replicate 310 '9',
        plainByte x = true) ∧
      numericLiterals
          ('a' :: List.replicate 400 '9' ++ ' ' :: '0' :: '.' :: List.replicate 310 '9') =
        ['0' :: '.' :: List.replicate 310 '9'] ∧
      (∃ v, ParseFloat64 ('0' :: '.' :: List.replicate 310 '9') = Except.ok v) ∧
      (∃ e, ParseFloat64 (List.replicate 400 '9') = Except.error e)) ∧
    (∃ s' toks,
      (NewScanner ('a' :: List.replicate 400 '9' ++ ' ' :: '0' :: '.' ::
        List.replicate 310 '9')).ScanTokens ParseFloat64 = Except.ok (s', toks, none)) ∧
    (NewScanner "a<=1.5 //".toList).ScanTokens readDecimal =
      Except.ok (⟨"a<=1.5 //".toList, 7, 9, 1,
        [⟨TokenType.IDENTIFIER, "a".toList, Literal.null, 1⟩,
         ⟨TokenType.LESS_EQUAL, "<=".toList, Literal.null, 1⟩,
         ⟨TokenType.NUMBER, "1.5".toList, Literal.num (15, 1), 1⟩,
         ⟨TokenType.EOF, [], Literal.str [], 1⟩]⟩,
        [⟨TokenType.IDENTIFIER, "a".toList, Literal.null, 1⟩,
         ⟨TokenType.LESS_EQUAL, "<=".toList, Literal.null, 1⟩,
         ⟨TokenType.NUMBER, "1.5".toList, Literal.num (15, 1), 1⟩,
         ⟨TokenType.EOF, [], Literal.str [], 1⟩], none) :=
  ⟨⟨by decide, by rfl, ⟨_, by rfl⟩, ⟨_, by rfl⟩⟩,
   C19_plain_source_scans ParseFloat64
     ('a' :: List.replicate 400 '9' ++ ' ' :: '0' :: '.' :: List.replicate 310 '9')
     (by decide)
     (fun t ht => by
       have e : numericLiterals
           ('a' :: List.replicate 400 '9' ++ ' ' :: '0' :: '.' :: List.replicate 310 '9') =
           ['0' :: '.' :: List.replicate 310 '9'] := by rfl
       rw [e, List.mem_singleton] at ht
       rw [ht]
       exact ⟨_, by rfl⟩),
   rfl⟩

/-- C20: `ScanTokens` is not idempotent on one scanner. For every source on
which a first call on a fresh scanner succeeds with the tokens `ts`, a second
call on the scanner the first one left succeeds too and returns `ts` with one
more `EOF` token appended, on the line of the first `EOF`: this result holds
two `EOF` tokens. -/
theorem C20_second_call_appends_EOF (ParseFloat : List Char → Except String ν)
    (src : List Char) (s' : scanner ν) (ts : List (Token ν))
    (h : (NewScanner src).ScanTokens ParseFloat = Except.ok (s', ts, none)) :
    ∃ s'' last, ts.getLast? = some last ∧ last.TokenType = TokenType.EOF ∧
      s'.ScanTokens ParseFloat =
        Except.ok (s'', ts ++ [⟨TokenType.EOF, [], Literal.str [], last.Line⟩], none) ∧
      (ts ++ [(⟨TokenType.EOF, [], Literal.str [], last.Line⟩ : Token ν)]).countP
        (fun t => decide (t.TokenType = TokenType.EOF)) = 2 := by
  obtain ⟨s1, hl, ht, hs'⟩ := (ScanTokens_ok_iff ParseFloat _ _ _).mp h
  obtain ⟨_, hrest, _, new, hn, hne⟩ := scanLoop_ok ParseFloat _ _ _ hl
  have hr' : s'.rest = [] := by rw [hs']; exact hrest
  have hloop : scanner.scanLoop ParseFloat s'.budget s' = Except.ok (s', none) :=
    scanLoop_nil ParseFloat _ s' hr'
  have hline : s'.line = s1.line := by rw [hs']
  have htok : s'.tokens = ts := by rw [hs']
  refine ⟨{ s' with tokens := s'.tokens ++ [eofToken s'.line] },
    ⟨TokenType.EOF, [], Literal.str [], s1.line⟩, by rw [ht]; simp, rfl, ?_, ?_⟩
  · rw [ScanTokens_of_loop_ok ParseFloat _ _ hloop, htok, hline]
    rfl
  · have h0 : s1.tokens.countP (fun t => decide (t.TokenType = TokenType.EOF)) = 0 := by
      rw [List.countP_eq_zero]
      intro t hmem
      rw [hn] at hmem
      simp only [NewScanner, List.nil_append] at hmem
      simpa using hne t hmem
    rw [ht, List.countP_append, List.countP_append, h0]
    rfl

theorem C20_second_call_appends_EOF_witness :
    (NewScanner "(".toList).ScanTokens readDecimal =
      Except.ok (⟨"(".toList, 0, 1, 1,
        [⟨TokenType.LEFT_PAREN, "(".toList, Literal.null, 1⟩,
         ⟨TokenType.EOF, [], Literal.str [], 1⟩]⟩,
        [⟨TokenType.LEFT_PAREN, "(".toList, Literal.null, 1⟩,
         ⟨TokenType.EOF, [], Literal.str [], 1⟩], none) ∧
    (∃ s'' last,
      ([⟨TokenType.LEFT_PAREN, "(".toList, Literal.null, 1⟩,
        ⟨TokenType.EOF, [], Literal.str [], 1⟩] : List (Token (Nat × Nat))).getLast? =
          some last ∧
      last.TokenType = TokenType.EOF ∧
      scanner.ScanTokens readDecimal ⟨"(".toList, 0, 1, 1,
        [⟨TokenType.LEFT_PAREN, "(".toList, Literal.null, 1⟩,
         ⟨TokenType.EOF, [], Literal.str [], 1⟩]⟩ =
        Except.ok (s'', [⟨TokenType.LEFT_PAREN, "(".toList, Literal.null, 1⟩,
          ⟨TokenType.EOF, [], Literal.str [], 1⟩] ++
          [⟨TokenType.EOF, [], Literal.str [], last.Line⟩], none) ∧
      (([⟨TokenType.LEFT_PAREN, "(".toList, Literal.null, 1⟩,
        ⟨TokenType.EOF, [], Literal.str [], 1⟩] : List (Token (Nat × Nat))) ++
        [(⟨TokenType.EOF, [], Literal.str [], last.Line⟩ : Token (Nat × Nat))]).countP
        (fun t => decide (t.TokenType = TokenType.EOF)) = 2) ∧
    scanner.ScanTokens readDecimal ⟨"(".toList, 0, 1, 1,
      [⟨TokenType.LEFT_PAREN, "(".toList, Literal.null, 1⟩,
       ⟨TokenType.EOF, [], Literal.str [], 1⟩]⟩ =
      Except.ok (⟨"(".toList, 0, 1, 1,
        [⟨TokenType.LEFT_PAREN, "(".toList, Literal.null, 1⟩,
         ⟨TokenType.EOF, [], Literal.str [], 1⟩,
         ⟨TokenType.EOF, [], Literal.str [], 1⟩]⟩,
        [⟨TokenType.LEFT_PAREN, "(".toList, Literal.null, 1⟩,
         ⟨TokenType.EOF, [], Literal.str [], 1⟩,
         ⟨TokenType.EOF, [], Literal.str [], 1⟩], none) :=
  ⟨rfl, C20_second_call_appends_EOF readDecimal "(".toList _ _ rfl, rfl⟩

end Claims
